import Mathlib

/-!
# Harris corner detector (`harris_cpp.h`)

A shallow embedding of `harris::HarrisCpp` and the properties of its pipeline:
kernel construction, structure tensor accumulation, response scoring, global
maximum and non-maximal suppression.

Conventions of the embedding.

* The pipeline definitions take the arithmetic of the pixel type as a
  parameter: they use only the operations `0`, `+`, `-`, `*`, `<` and `max` of
  their carrier `α`.  Two carriers are used.  In a linear ordered field the
  arithmetic is exact (no rounding, no NaN, no infinities); the definitions can
  be evaluated at `α := ℚ`.  In `F32` the arithmetic is that of the C++ `float`,
  IEEE 754 binary32: every operation rounds to nearest, ties to even, overflows
  to an infinity, and follows the rules of NaN.  A statement says which of the
  two it is about.
* `std::exp` is passed as a function `exp : α → α` of a linear ordered field,
  and is `Real.exp` in the statements about the Gaussian kernel.
* `int` values are `Int`; `/` and `%` of C++ are `Int.tdiv` and `Int.tmod`
  (truncation towards zero).  Window sizes are assumed small enough that
  `p.x ± half_window` does not overflow.
* `image.h`, `map_2d.h`, `filter_2d.h` and `harris_base.h` belong to the parts of the
  repository outside this header.  The image container and the map/reduce primitives are
  modelled from the specification (sections 3 and 6); `Filter2d`, whose
  out-of-bounds policy the specification leaves open, is a parameter of the
  pipeline.  Where a statement needs a concrete filter, `modelFilter2d` is the
  centred correlation or convolution of the specification under either of the
  two border policies it names, and the statement covers every variant.
* The response on a fixed image is bounded over the reals by fixed-point
  interval arithmetic (`Ival`), run on the same pipeline and checked by
  evaluation.
-/

namespace harris

/-! ## Data model -/

/-- Modelled from the spec: `Point` (declared in `image.h`, not under src/), an
integer `(x, y)` pixel coordinate. -/
structure Point where
  x : Int
  y : Int
deriving DecidableEq

/-- Modelled from the spec: `Range` (declared in `image.h`, not under src/), an
axis-aligned window `(x_min, y_min, x_max, y_max)`, inclusive, possibly
extending outside the image. -/
structure Range where
  x_min : Int
  y_min : Int
  x_max : Int
  y_max : Int
deriving DecidableEq

/-- Membership of the pixel in column `x`, row `y` in an inclusive range. -/
def Range.contains (r : Range) (x y : Nat) : Bool :=
  decide (r.x_min ≤ (x : Int)) && decide ((x : Int) ≤ r.x_max) &&
    decide (r.y_min ≤ (y : Int)) && decide ((y : Int) ≤ r.y_max)

/-- Modelled from the spec: `Image<T>` (declared in `image.h`, not under src/),
a `width × height` grid stored in row-major order. -/
structure Image (α : Type) where
  width : Nat
  height : Nat
  data : List α
  size_eq : data.length = width * height

/-- Modelled from the spec: `FilterKernel` (declared in `filter_2d.h`, not under
src/), a grid of weights with explicit width and height, built as
`FilterKernel(width, height, values)`. -/
structure FilterKernel (α : Type) where
  width : Int
  height : Int
  values : List α
deriving DecidableEq

/-- Modelled from the spec: `StructureTensor` (declared in `harris_base.h`, not
under src/), the three fields of the symmetric matrix `[[xx, xy], [xy, yy]]`. -/
structure StructureTensor (α : Type) where
  xx : α
  xy : α
  yy : α
deriving DecidableEq

/-- The default-constructed `StructureTensor()` is all-zero. -/
instance {α : Type} [Zero α] : Zero (StructureTensor α) := ⟨⟨0, 0, 0⟩⟩

/-- The error thrown by the kernel builder: `std::invalid_argument(what)`. -/
inductive Error where
  | invalid_argument (what : String)
deriving DecidableEq

/-- The pixels `q` of a `width × height` grid that lie in the window
`[x-half, x+half] × [y-half, y+half]`. -/
def windowFinset (width height : Nat) (half : Int) (x y : Nat) : Finset (Nat × Nat) :=
  (Finset.range width ×ˢ Finset.range height).filter fun q =>
    ((x : Int) - half ≤ (q.1 : Int) ∧ (q.1 : Int) ≤ (x : Int) + half) ∧
      ((y : Int) - half ≤ (q.2 : Int) ∧ (q.2 : Int) ≤ (y : Int) + half)

/-! ## Collaborator primitives (`image.h`, `map_2d.h`) -/

section Primitives

variable {α β γ τ : Type}

/-- The value stored at column `x`, row `y` (row-major addressing). -/
def Image.pixel [Zero α] (img : Image α) (x y : Nat) : α :=
  img.data.getD (y * img.width + x) 0

/-- The pixel coordinates `(x, y)` of an image in storage (row-major) order. -/
def Image.coords (img : Image α) : List (Nat × Nat) :=
  (List.range (img.width * img.height)).map fun i => (i % img.width, i / img.width)

/-- The `Point` of a pixel coordinate. -/
def toPoint (c : Nat × Nat) : Point := ⟨(c.1 : Int), (c.2 : Int)⟩

/-- Modelled from the spec: `Map<T>(image, fn)` (`map_2d.h`, not under src/),
the elementwise transform producing a new image. -/
def Map (src : Image α) (f : α → β) : Image β :=
  ⟨src.width, src.height, src.data.map f, by rw [List.length_map, src.size_eq]⟩

/-- Modelled from the spec: `MapWithIndex<T>(image, fn(pixel, point))`
(`map_2d.h`, not under src/), the elementwise transform that also receives the
position of the pixel. -/
def MapWithIndex [Zero α] (src : Image α) (f : α → Point → β) : Image β :=
  ⟨src.width, src.height, src.coords.map fun c => f (src.pixel c.1 c.2) (toPoint c),
    by simp [Image.coords]⟩

/-- Modelled from the spec: `CombineWithIndex<T>(imageA, imageB, fn(a, b, point))`
(`map_2d.h`, not under src/), the elementwise binary combine with position
awareness; the result has the shape of the first image. -/
def CombineWithIndex [Zero α] [Zero β] (a : Image α) (b : Image β)
    (f : α → β → Point → γ) : Image γ :=
  ⟨a.width, a.height,
    a.coords.map fun c => f (a.pixel c.1 c.2) (b.pixel c.1 c.2) (toPoint c),
    by simp [Image.coords]⟩

/-- Modelled from the spec: `Reduce<T>(image, initial, fn)` (`map_2d.h`, not
under src/), the fold over all pixels. -/
def Reduce (src : Image α) (initial : τ) (f : τ → α → τ) : τ :=
  src.data.foldl f initial

/-- The pixels of an image that lie in a range: the range clipped to the image. -/
def Image.window (img : Image α) (range : Range) : List (Nat × Nat) :=
  img.coords.filter fun c => range.contains c.1 c.2

/-- Modelled from the spec: `ReduceRange<T>(image, range, initial, fn)`
(`map_2d.h`, not under src/), the fold over the pixels of a rectangular range,
with the bounds clipped to the image. -/
def ReduceRange [Zero α] (src : Image α) (range : Range) (initial : τ) (f : τ → α → τ) : τ :=
  (src.window range).foldl (fun acc c => f acc (src.pixel c.1 c.2)) initial

/-- Modelled from the spec: `ReduceRange<T>(imageA, imageB, range, initial, fn)`
(`map_2d.h`, not under src/), the fold over a clipped range that combines two
source images pixel-wise. -/
def ReduceRange2 [Zero α] [Zero β] (a : Image α) (b : Image β) (range : Range) (initial : τ)
    (f : τ → α → β → τ) : τ :=
  (a.window range).foldl (fun acc c => f acc (a.pixel c.1 c.2) (b.pixel c.1 c.2)) initial

end Primitives

/-! ## The convolution collaborator (`filter_2d.h`) -/

/-- Modelled from the spec: the out-of-bounds pixel policy of `Filter2d`
(`filter_2d.h`, not under src/); the spec names clamp-to-edge and zero-pad and
leaves the choice to the implementer. -/
inductive BorderPolicy where
  | clampToEdge
  | zeroPad
deriving DecidableEq

section Filter

variable {α : Type}

/-- Modelled from the spec: the contract of `Filter2d` (`filter_2d.h`, not under
src/) on shapes, "same output shape as input". -/
def PreservesShape (Filter2d : Image α → FilterKernel α → Image α) : Prop :=
  ∀ (img : Image α) (kernel : FilterKernel α),
    (Filter2d img kernel).width = img.width ∧ (Filter2d img kernel).height = img.height

/-- A perfectly flat image: every pixel holds the value `c`. -/
def Image.IsFlat [Zero α] (img : Image α) (c : α) : Prop :=
  ∀ x y, x < img.width → y < img.height → img.pixel x y = c

/-- Modelled from the spec: a pixel read of `Filter2d` (`filter_2d.h`, not under
src/) at integer coordinates that may lie outside the image, under a border
policy. -/
def Image.read [Zero α] (policy : BorderPolicy) (img : Image α) (x y : Int) : α :=
  match policy with
  | .zeroPad =>
    if 0 ≤ x ∧ x < (img.width : Int) ∧ 0 ≤ y ∧ y < (img.height : Int) then
      img.pixel x.toNat y.toNat
    else 0
  | .clampToEdge =>
    img.pixel (min (max x 0) ((img.width : Int) - 1)).toNat
      (min (max y 0) ((img.height : Int) - 1)).toNat

/-- The positions `(i, j)` of the entries of a kernel in storage (row-major)
order. -/
def FilterKernel.entries (kernel : FilterKernel α) : List (Nat × Nat) :=
  (List.range (kernel.width.toNat * kernel.height.toNat)).map fun n =>
    (n % kernel.width.toNat, n / kernel.width.toNat)

/-- Modelled from the spec: `Filter2d(image, kernel)` (`filter_2d.h`, not under
src/), the 2D correlation (`flip = false`) or convolution (`flip = true`) of an
image with a kernel anchored at its centre, with the output shape of the input
and the given out-of-bounds policy. -/
def modelFilter2d [Zero α] [Add α] [Mul α] (policy : BorderPolicy) (flip : Bool)
    (src : Image α) (kernel : FilterKernel α) : Image α :=
  ⟨src.width, src.height,
    src.coords.map fun c =>
      kernel.entries.foldl
        (fun acc e =>
          let dx : Int := (e.1 : Int) - Int.tdiv kernel.width 2
          let dy : Int := (e.2 : Int) - Int.tdiv kernel.height 2
          let value :=
            if flip then src.read policy ((c.1 : Int) - dx) ((c.2 : Int) - dy)
            else src.read policy ((c.1 : Int) + dx) ((c.2 : Int) + dy)
          acc + kernel.values.getD (e.2 * kernel.width.toNat + e.1) 0 * value)
        0,
    by simp [Image.coords]⟩

end Filter

/-! ## `HarrisCpp` -/

section Harris

variable {α : Type}

/-- The gaussian value computed in the loop body of `GaussianKernel` for the
loop counters `x` and `y`. -/
def GaussianKernel.value [LinearOrderedField α] (exp : α → α) (sigma : α) (offset : Int)
    (x y : Nat) : α :=
  let x_f : α := (((x : Int) - offset : Int) : α)
  let y_f : α := (((y : Int) - offset : Int) : α)
  exp (-(x_f * x_f + y_f * y_f) / (2 * sigma * sigma))

/-- The two nested loops of `GaussianKernel`: the pair
`(sum, kernel_values)` after visiting every `(x, y)` with `y` outermost. -/
def GaussianKernel.loop [LinearOrderedField α] (exp : α → α) (sigma : α) (size : Int)
    (offset : Int) : α × List α :=
  (List.range size.toNat).foldl
    (fun st y =>
      (List.range size.toNat).foldl
        (fun st x =>
          let value := GaussianKernel.value exp sigma offset x y
          (st.1 + value, st.2 ++ [value]))
        st)
    (0, [])

/-- Embeds `HarrisCpp::GaussianKernel(sigma, size)`: creates a normalized
gaussian filter kernel with the given size and sigma value. -/
def GaussianKernel [LinearOrderedField α] (exp : α → α) (sigma : α) (size : Int) :
    Except Error (FilterKernel α) :=
  if size ≤ 0 ∨ Int.tmod size 2 = 0 then
    .error (.invalid_argument "size parameter must be a positive odd number")
  else
    let offset := Int.tdiv size 2
    let st := GaussianKernel.loop exp sigma size offset
    .ok ⟨size, size, st.2.map fun value => value / st.1⟩

/-- The state of a `HarrisCpp` object: the parameters kept by `HarrisBase`
(modelled from the spec: `harris_base.h` is not under src/) and the three
kernels. -/
structure HarrisCpp (α : Type) where
  smoothing_size_ : Int
  structure_size_ : Int
  k_ : α
  threshold_ratio_ : α
  suppression_size_ : Int
  gaussian_kernel_ : FilterKernel α
  diff_x_ : FilterKernel α
  diff_y_ : FilterKernel α

/-- Embeds the constructor `HarrisCpp::HarrisCpp`: it fails when the Gaussian
kernel cannot be built and otherwise stores the parameters and the kernels. -/
def HarrisCpp.create [LinearOrderedField α] (exp : α → α)
    (smoothing_size structure_size : Int) (harris_k threshold_ratio : α)
    (suppression_size : Int) : Except Error (HarrisCpp α) :=
  match GaussianKernel exp 1 smoothing_size with
  | .error e => .error e
  | .ok gaussian_kernel =>
    .ok
      { smoothing_size_ := smoothing_size
        structure_size_ := structure_size
        k_ := harris_k
        threshold_ratio_ := threshold_ratio
        suppression_size_ := suppression_size
        gaussian_kernel_ := gaussian_kernel
        diff_x_ := ⟨3, 1, [1, 0, -1]⟩
        diff_y_ := ⟨1, 3, [1, 0, -1]⟩ }

/-- The accumulation step of the structure tensor: the lambda handed to
`ReduceRange` in `StructureTensorImage`. -/
def StructureTensor.accumulate [Add α] [Mul α] (s : StructureTensor α) (s_x s_y : α) :
    StructureTensor α :=
  ⟨s.xx + s_x * s_x, s.xy + s_x * s_y, s.yy + s_y * s_y⟩

/-- Embeds `HarrisCpp::StructureTensorImage(src)`.  The members it reads
(the kernels and `structure_size_`) and the collaborator `Filter2d` are
arguments. -/
def StructureTensorImage [Zero α] [Add α] [Mul α]
    (Filter2d : Image α → FilterKernel α → Image α)
    (gaussian_kernel_ diff_x_ diff_y_ : FilterKernel α) (structure_size_ : Int)
    (src : Image α) : Image (StructureTensor α) :=
  let half_window := Int.tdiv structure_size_ 2
  let i_smooth := Filter2d src gaussian_kernel_
  let i_x := Filter2d i_smooth diff_x_
  let i_y := Filter2d i_smooth diff_y_
  CombineWithIndex i_x i_y fun _ _ p =>
    ReduceRange2 i_x i_y
      ⟨p.x - half_window, p.y - half_window, p.x + half_window, p.y + half_window⟩
      (0 : StructureTensor α) StructureTensor.accumulate

/-- The suppression step: the lambda handed to `ReduceRange` in
`NonMaxSuppression`. -/
def suppress [Zero α] [LT α] [DecidableRel (LT.lt : α → α → Prop)] (acc src_pixel : α) :
    α :=
  if acc < src_pixel then 0 else acc

/-- Embeds `HarrisCpp::NonMaxSuppression(src, threshold)`: a windowed
non-maximal suppression image with a global threshold.  The member
`suppression_size_` is an argument. -/
def NonMaxSuppression [Zero α] [LT α] [DecidableRel (LT.lt : α → α → Prop)]
    (suppression_size_ : Int) (src : Image α) (threshold : α) : Image α :=
  let half_window := Int.tdiv suppression_size_ 2
  MapWithIndex src fun src_pixel p =>
    if src_pixel < threshold then 0
    else
      ReduceRange src
        ⟨p.x - half_window, p.y - half_window, p.x + half_window, p.y + half_window⟩
        src_pixel suppress

/-- The Harris response of one structure tensor: the lambda handed to `Map` in
`FindCorners`. -/
def harrisScore [Add α] [Sub α] [Mul α] (k : α) (s : StructureTensor α) : α :=
  (s.xx * s.yy - s.xy * s.xy) - k * (s.xx + s.yy) * (s.xx + s.yy)

/-- The Harris response image `r` computed by `FindCorners`. -/
def responseImage [Zero α] [Add α] [Sub α] [Mul α] (self : HarrisCpp α)
    (Filter2d : Image α → FilterKernel α → Image α)
    (image : Image α) : Image α :=
  Map
    (StructureTensorImage Filter2d self.gaussian_kernel_ self.diff_x_ self.diff_y_
      self.structure_size_ image)
    (harrisScore self.k_)

/-- The maximum response value `max_r` computed by `FindCorners`. -/
def maxResponse [Zero α] [Max α] (r : Image α) : α :=
  Reduce r 0 fun acc p => max acc p

/-- Embeds `HarrisCpp::FindCorners(image)`: runs the pure C++ Harris corner
detector. -/
def FindCorners [Zero α] [Add α] [Sub α] [Mul α] [LT α]
    [DecidableRel (LT.lt : α → α → Prop)] [Max α] (self : HarrisCpp α)
    (Filter2d : Image α → FilterKernel α → Image α) (image : Image α) : Image α :=
  let r := responseImage self Filter2d image
  let max_r := maxResponse r
  let threshold := max_r * self.threshold_ratio_
  NonMaxSuppression self.suppression_size_ r threshold

/-- Some image pixel `q` in the window `[x-half, x+half] × [y-half, y+half]`
holds a value strictly greater than the value at `(x, y)`. -/
def exceededInWindow [Zero α] [LT α] (src : Image α) (half : Int) (x y : Nat) : Prop :=
  ∃ q ∈ windowFinset src.width src.height half x y, src.pixel x y < src.pixel q.1 q.2

instance [Zero α] [LT α] [DecidableRel (LT.lt : α → α → Prop)] (src : Image α) (half : Int)
    (x y : Nat) : Decidable (exceededInWindow src half x y) := by
  unfold exceededInWindow
  infer_instance

end Harris

/-! ## Binary32 arithmetic

The pixel type of the program is the C++ `float`, IEEE 754 binary32.  The
pipeline definitions above take the arithmetic of their carrier as a parameter;
`F32` is the carrier whose operations round as the hardware does: each
operation is the exact operation on rationals followed by rounding to the
nearest representable value, ties to even, with overflow to an infinity,
gradual underflow, and the usual rules for infinities and NaN. -/

/-- A value of the C++ type `float` (IEEE 754 binary32): a finite number, an
infinity or NaN.  The two zeros are not told apart, and neither are the NaN
payloads. -/
inductive F32 where
  | fin (q : ℚ)
  | pinf
  | ninf
  | nan
deriving DecidableEq

namespace F32

/-- The power `2 ^ e` of an integer exponent, as a rational. -/
def pow2 (e : Int) : ℚ :=
  if 0 ≤ e then ((2 ^ e.toNat : Nat) : ℚ) else 1 / ((2 ^ (-e).toNat : Nat) : ℚ)

/-- The binary logarithm of a natural number, rounded down, by repeated
halving; the first argument bounds the number of halvings. -/
def log2Fuel : Nat → Nat → Nat
  | 0, _ => 0
  | fuel + 1, n => if n < 2 then 0 else log2Fuel fuel (n / 2) + 1

/-- The binary logarithm of a natural number, rounded down (`0` at `0`). -/
def log2 (n : Nat) : Nat := log2Fuel n n

/-- The binary exponent of a non-zero rational `q`: the integer `e` with
`2 ^ e <= |q| < 2 ^ (e + 1)`. -/
def exponent (q : ℚ) : Int :=
  let e : Int := (log2 q.num.natAbs : Int) - (log2 q.den : Int)
  if pow2 e ≤ |q| then e else e - 1

/-- The integer nearest to a rational, ties to the even one. -/
def nearestEven (r : ℚ) : Int :=
  let f : Int := ⌊r⌋
  if r - f < 1 / 2 then f
  else if 1 / 2 < r - f then f + 1
  else if f % 2 = 0 then f else f + 1

/-- The binary32 rounding of an exact result: round to nearest, ties to even,
on the grid of 24-bit significands with exponents from `-126` (below that the
grid of the subnormal numbers, of step `2 ^ -149`); a rounded magnitude of
`2 ^ 128` or more overflows to the infinity of the sign. -/
def round (q : ℚ) : F32 :=
  if q = 0 then .fin 0
  else
    let ulp := pow2 (max (exponent q) (-126) - 23)
    let v := (nearestEven (q / ulp) : ℚ) * ulp
    if pow2 128 ≤ |v| then (if 0 < q then .pinf else .ninf) else .fin v

/-- The binary32 sum `a + b`. -/
def add : F32 → F32 → F32
  | .fin a, .fin b => round (a + b)
  | .nan, _ => .nan
  | _, .nan => .nan
  | .pinf, .ninf => .nan
  | .ninf, .pinf => .nan
  | .pinf, _ => .pinf
  | _, .pinf => .pinf
  | .ninf, _ => .ninf
  | _, .ninf => .ninf

/-- The binary32 negation `-a`. -/
def neg : F32 → F32
  | .fin a => .fin (-a)
  | .pinf => .ninf
  | .ninf => .pinf
  | .nan => .nan

/-- The product of the finite value `a` with the infinity of the sign `pos`:
NaN for `a = 0`, otherwise the infinity of the product of the signs. -/
def scaleInf (a : ℚ) (pos : Bool) : F32 :=
  if a = 0 then .nan else if decide (0 < a) = pos then .pinf else .ninf

/-- The binary32 product `a * b`. -/
def mul : F32 → F32 → F32
  | .fin a, .fin b => round (a * b)
  | .nan, _ => .nan
  | _, .nan => .nan
  | .fin a, .pinf => scaleInf a true
  | .fin a, .ninf => scaleInf a false
  | .pinf, .fin b => scaleInf b true
  | .ninf, .fin b => scaleInf b false
  | .pinf, .pinf => .pinf
  | .ninf, .ninf => .pinf
  | .pinf, .ninf => .ninf
  | .ninf, .pinf => .ninf

/-- The comparison `a < b` of C++ on `float`: false as soon as an operand is
NaN. -/
def blt : F32 → F32 → Bool
  | .fin a, .fin b => decide (a < b)
  | .fin _, .pinf => true
  | .ninf, .fin _ => true
  | .ninf, .pinf => true
  | _, _ => false

/-- The comparison `a <= b` of C++ on `float`: false as soon as an operand is
NaN. -/
def ble : F32 → F32 → Bool
  | .fin a, .fin b => decide (a ≤ b)
  | .fin _, .pinf => true
  | .ninf, .fin _ => true
  | .ninf, .pinf => true
  | .pinf, .pinf => true
  | .ninf, .ninf => true
  | _, _ => false

instance : Zero F32 := ⟨.fin 0⟩

instance : Add F32 := ⟨add⟩

instance : Neg F32 := ⟨neg⟩

/-- The binary32 difference `a - b` is the sum of `a` and `-b`. -/
instance : Sub F32 := ⟨fun a b => add a (neg b)⟩

instance : Mul F32 := ⟨mul⟩

instance : LT F32 := ⟨fun a b => blt a b = true⟩

instance : LE F32 := ⟨fun a b => ble a b = true⟩

instance : DecidableRel (LT.lt : F32 → F32 → Prop) := fun a b =>
  inferInstanceAs (Decidable (blt a b = true))

instance : DecidableRel (LE.le : F32 → F32 → Prop) := fun a b =>
  inferInstanceAs (Decidable (ble a b = true))

/-- The maximum `std::max(a, b)`, which is `(a < b) ? b : a`. -/
instance : Max F32 := ⟨fun a b => if a < b then b else a⟩

end F32

/-! ## Fixed-point intervals

The response of the detector on a fixed image is bounded by running the
pipeline on intervals with integer end points.  The interval run works on a
table of rows, so that each pixel is reached in a few steps. -/

/-- A closed interval with integer end points, in units of `1 / Ival.scale`. -/
structure Ival where
  lo : Int
  hi : Int
deriving DecidableEq

/-- The number of units per `1`. -/
def Ival.scale : Int := 100000000

/-- The interval that holds exactly the integer `n`. -/
def Ival.ofInt (n : Int) : Ival := ⟨n * Ival.scale, n * Ival.scale⟩

instance : Zero Ival := ⟨⟨0, 0⟩⟩

instance : Add Ival := ⟨fun I J => ⟨I.lo + J.lo, I.hi + J.hi⟩⟩

instance : Sub Ival := ⟨fun I J => ⟨I.lo - J.hi, I.hi - J.lo⟩⟩

/-- The product of two intervals, rounded outwards to the unit: the smallest
and the largest of the four products of end points. -/
def Ival.mulRound (I J : Ival) : Ival :=
  ⟨min (min (I.lo * J.lo) (I.lo * J.hi)) (min (I.hi * J.lo) (I.hi * J.hi)) / Ival.scale,
    -(-(max (max (I.lo * J.lo) (I.lo * J.hi)) (max (I.hi * J.lo) (I.hi * J.hi)))
        / Ival.scale)⟩

/-- The product of two intervals; a factor that is exactly `0` gives exactly
`0` without any rounding. -/
instance : Mul Ival :=
  ⟨fun I J =>
    if J.lo = 0 ∧ J.hi = 0 then 0
    else if I.lo = 0 ∧ I.hi = 0 then 0
    else Ival.mulRound I J⟩

/-- The real number `x` lies in the interval `I`. -/
def approx (x : ℝ) (I : Ival) : Prop :=
  (I.lo : ℝ) ≤ x * (Ival.scale : ℝ) ∧ x * (Ival.scale : ℝ) ≤ (I.hi : ℝ)

/-- Componentwise membership of a real tensor in an interval tensor. -/
def approxTensor (s : StructureTensor ℝ) (t : StructureTensor Ival) : Prop :=
  approx s.xx t.xx ∧ approx s.xy t.xy ∧ approx s.yy t.yy

/-- A table of intervals, one row per image row. -/
def Grid.tabulate (width height : Nat) (f : Nat → Nat → Ival) : List (List Ival) :=
  (List.range height).map fun y => (List.range width).map fun x => f x y

/-- The entry of a table at column `x`, row `y`. -/
def Grid.get (g : List (List Ival)) (x y : Nat) : Ival := (g.getD y []).getD x 0

/-- The read of `Image.read` on a table of the given shape. -/
def Grid.read (policy : BorderPolicy) (g : List (List Ival)) (width height : Nat)
    (x y : Int) : Ival :=
  match policy with
  | .zeroPad =>
    if 0 ≤ x ∧ x < (width : Int) ∧ 0 ≤ y ∧ y < (height : Int) then Grid.get g x.toNat y.toNat
    else 0
  | .clampToEdge =>
    Grid.get g (min (max x 0) ((width : Int) - 1)).toNat
      (min (max y 0) ((height : Int) - 1)).toNat

/-- The computation of `modelFilter2d` on a table of intervals. -/
def filterBound (policy : BorderPolicy) (flip : Bool) (width height : Nat)
    (src : List (List Ival)) (kernel : FilterKernel Ival) : List (List Ival) :=
  Grid.tabulate width height fun x y =>
    kernel.entries.foldl
      (fun acc e =>
        let dx : Int := (e.1 : Int) - Int.tdiv kernel.width 2
        let dy : Int := (e.2 : Int) - Int.tdiv kernel.height 2
        let value :=
          if flip then Grid.read policy src width height ((x : Int) - dx) ((y : Int) - dy)
          else Grid.read policy src width height ((x : Int) + dx) ((y : Int) + dy)
        acc + kernel.values.getD (e.2 * kernel.width.toNat + e.1) 0 * value)
      0

/-- The pixels of a `width × height` grid inside a range, row by row: the rows
of the range first, then the columns of each row. -/
def windowRows (width height : Nat) (range : Range) : List (Nat × Nat) :=
  ((List.range height).filter fun (y : Nat) =>
      decide (range.y_min ≤ (y : Int)) && decide ((y : Int) ≤ range.y_max)).flatMap
    fun (y : Nat) =>
      ((List.range width).filter fun (x : Nat) =>
          decide (range.x_min ≤ (x : Int)) && decide ((x : Int) ≤ range.x_max)).map
        fun (x : Nat) => (x, y)

/-- The accumulation step of `StructureTensorImage` on intervals. -/
def accumulateBound (s : StructureTensor Ival) (s_x s_y : Ival) : StructureTensor Ival :=
  ⟨s.xx + s_x * s_x, s.xy + s_x * s_y, s.yy + s_y * s_y⟩

/-- The windowed reduction of `StructureTensorImage` on tables of intervals. -/
def tensorBound (width height : Nat) (half : Int) (gx gy : List (List Ival)) (x y : Nat) :
    StructureTensor Ival :=
  (windowRows width height
      ⟨(x : Int) - half, (y : Int) - half, (x : Int) + half, (y : Int) + half⟩).foldl
    (fun s c => accumulateBound s (Grid.get gx c.1 c.2) (Grid.get gy c.1 c.2)) 0

/-- The Harris response of one tensor on intervals. -/
def scoreBound (k : Ival) (s : StructureTensor Ival) : Ival :=
  (s.xx * s.yy - s.xy * s.xy) - k * (s.xx + s.yy) * (s.xx + s.yy)

/-- The exponent `dx² + dy²` of the entry `i` of the `5 × 5` Gaussian kernel. -/
def gaussExponent (i : Nat) : Nat :=
  (((i % 5 : Nat) : Int) - 2).natAbs ^ 2 + (((i / 5 : Nat) : Int) - 2).natAbs ^ 2

/-- An interval around `exp(-n/2) / S`, where `S` is the sum of `exp(-e/2)`
over the exponents `e` of the `5 × 5` kernel, for the exponents that occur. -/
def gaussBound (n : Nat) : Ival :=
  match n with
  | 0 => ⟨16210281, 16210283⟩
  | 1 => ⟨9832032, 9832034⟩
  | 2 => ⟨5963429, 5963430⟩
  | 4 => ⟨2193822, 2193824⟩
  | 5 => ⟨1330620, 1330622⟩
  | 8 => ⟨296901, 296902⟩
  | _ => 0

/-- Intervals around the entries of the kernel `GaussianKernel(1, 5)`. -/
def gaussKernelBound : FilterKernel Ival :=
  ⟨5, 5, (List.range 25).map fun i => gaussBound (gaussExponent i)⟩

/-- The exact entries `{1, 0, -1}` of a central-difference kernel of the given
shape, as intervals. -/
def diffKernelBound (width height : Int) : FilterKernel Ival :=
  ⟨width, height, [Ival.ofInt 1, 0, Ival.ofInt (-1)]⟩

/-- The `15 × 15` image that is `0` everywhere except for the value `one` at
the pixel `(7, 7)`. -/
def brightPoint {β : Type} [Zero β] (one : β) : Image β :=
  ⟨15, 15, (List.range 225).map fun i => if i = 112 then one else 0, by simp⟩

/-- The response of the default detector (smoothing 5, structure 5, `k = 0.04`)
on `brightPoint`, on intervals. -/
def brightPointResponseBound (policy : BorderPolicy) (flip : Bool) : List (List Ival) :=
  Grid.tabulate 15 15 fun x y =>
    scoreBound ⟨4000000, 4000000⟩
      (tensorBound 15 15 2
        (filterBound policy flip 15 15
          (filterBound policy flip 15 15
            (Grid.tabulate 15 15 fun x y => if x = 7 ∧ y = 7 then Ival.ofInt 1 else 0)
            gaussKernelBound)
          (diffKernelBound 3 1))
        (filterBound policy flip 15 15
          (filterBound policy flip 15 15
            (Grid.tabulate 15 15 fun x y => if x = 7 ∧ y = 7 then Ival.ofInt 1 else 0)
            gaussKernelBound)
          (diffKernelBound 1 3))
        x y)

/-- The entry `(7, 7)` of a `15 × 15` table is positive and isolated: every
other entry lies strictly below it, and either lies below half of it or has
`(7, 7)` within distance 4 in both coordinates. -/
def isolatedPeak (r : List (List Ival)) : Prop :=
  0 < (Grid.get r 7 7).lo ∧
    ∀ y ∈ List.range 15, ∀ x ∈ List.range 15, (x, y) ≠ (7, 7) →
      (Grid.get r x y).hi < (Grid.get r 7 7).lo ∧
        (2 * (Grid.get r x y).hi < (Grid.get r 7 7).lo ∨
          (((x : Int) - 4 ≤ 7 ∧ (7 : Int) ≤ (x : Int) + 4) ∧
            ((y : Int) - 4 ≤ 7 ∧ (7 : Int) ≤ (y : Int) + 4)))

instance (r : List (List Ival)) : Decidable (isolatedPeak r) := by
  unfold isolatedPeak
  infer_instance

/-! ## Concrete inputs -/

/-- A `3 × 3` response image with two equal maxima. -/
def sampleResponse : Image ℚ := ⟨3, 3, [1, 2, 3, 4, 9, 4, 3, 2, 9], rfl⟩

/-- A `2 × 1` response image with negative values. -/
def negativeResponse : Image ℚ := ⟨2, 1, [-1, -2], rfl⟩

/-- A filter that returns its input unchanged (every kernel acts as the
identity), used to instantiate the collaborator `Filter2d`. -/
def identityFilter (img : Image ℚ) (_kernel : FilterKernel ℚ) : Image ℚ := img

/-- The `3 × 1` central-difference kernel built by the constructor. -/
def sampleDiffX : FilterKernel ℚ := ⟨3, 1, [1, 0, -1]⟩

/-- The `1 × 3` central-difference kernel built by the constructor. -/
def sampleDiffY : FilterKernel ℚ := ⟨1, 3, [1, 0, -1]⟩

/-- A `1 × 1` smoothing kernel of total mass one. -/
def sampleSmooth : FilterKernel ℚ := ⟨1, 1, [1]⟩

/-- A detector state with the default structure window 5, `k = 0.04`,
threshold ratio `0.5` and suppression window 9, and the `1 × 1` smoothing
kernel. -/
def sampleDetector : HarrisCpp ℚ :=
  ⟨1, 5, 1 / 25, 1 / 2, 9, sampleSmooth, sampleDiffX, sampleDiffY⟩

/-- A perfectly flat `2 × 1` image of value `1`. -/
def flatPair : Image ℚ := ⟨2, 1, [1, 1], rfl⟩

/-- A `5 × 5` image with one bright pixel in the centre. -/
def sampleDot : Image ℚ :=
  ⟨5, 5, [0, 0, 0, 0, 0, 0, 0, 0, 0, 0, 0, 0, 1, 0, 0, 0, 0, 0, 0, 0, 0, 0, 0, 0, 0], rfl⟩

/-- The `3 × 1` central-difference kernel built by the constructor, in
binary32. -/
def floatDiffX : FilterKernel F32 := ⟨3, 1, [.fin 1, .fin 0, .fin (-1)]⟩

/-- The `1 × 3` central-difference kernel built by the constructor, in
binary32. -/
def floatDiffY : FilterKernel F32 := ⟨1, 3, [.fin 1, .fin 0, .fin (-1)]⟩

/-- The `1 × 1` Gaussian kernel built by the constructor for
`smoothing_size = 1`, in binary32: the single weight `exp(0) / exp(0) = 1`. -/
def floatSmooth : FilterKernel F32 := ⟨1, 1, [.fin 1]⟩

/-- The state of `HarrisCpp(1, structure_size, 0.04, 0.5, suppression_size)` in
binary32. -/
def floatDetector (structure_size suppression_size : Int) : HarrisCpp F32 :=
  ⟨1, structure_size, F32.round (1 / 25), .fin (1 / 2), suppression_size, floatSmooth,
    floatDiffX, floatDiffY⟩

/-- A `3 × 3` image with the pixel values `10005` at `(1, 0)` and `10001` at
`(0, 1)`, in binary32. -/
def twoPixels : Image F32 :=
  ⟨3, 3, [.fin 0, .fin 10005, .fin 0, .fin 10001, .fin 0, .fin 0, .fin 0, .fin 0, .fin 0], rfl⟩

/-- The `5 × 5` linear ramp `1001·x + 3003·y`, in binary32. -/
def floatRamp : Image F32 :=
  ⟨5, 5,
    (List.range 25).map fun i =>
      .fin (1001 * ((i % 5 : Nat) : ℚ) + 3003 * ((i / 5 : Nat) : ℚ)),
    rfl⟩

/-- A `3 × 3` image, zero except for the value `10^10` at the centre, in
binary32. -/
def hugeDot : Image F32 :=
  ⟨3, 3, [.fin 0, .fin 0, .fin 0, .fin 0, .fin 10000000000, .fin 0, .fin 0, .fin 0, .fin 0],
    rfl⟩

/-- A `3 × 3` image with a bright lower right corner: the value `one` at
`(2, 1)`, `(1, 2)` and `(2, 2)`, the value `zero` elsewhere. -/
def cornerPatch {β : Type} (zero one : β) : Image β :=
  ⟨3, 3, [zero, zero, zero, zero, zero, one, zero, one, one], rfl⟩

/-- The state of `HarrisCpp(1, 3, 0.04, 0.5, 3)` in exact arithmetic. -/
def smallDetector : HarrisCpp ℚ :=
  ⟨1, 3, 1 / 25, 1 / 2, 3, sampleSmooth, sampleDiffX, sampleDiffY⟩

/-! ## Pixel access through the primitives -/

section PrimitiveLemmas

variable {α β γ τ : Type}

theorem Image.mem_coords (img : Image α) (c : Nat × Nat) :
    c ∈ img.coords ↔ c.1 < img.width ∧ c.2 < img.height := by
  obtain ⟨x, y⟩ := c
  simp only [Image.coords, List.mem_map, List.mem_range, Prod.mk.injEq]
  constructor
  · rintro ⟨i, hi, rfl, rfl⟩
    have hw : 0 < img.width := by
      rcases Nat.eq_zero_or_pos img.width with h0 | h0
      · rw [h0, Nat.zero_mul] at hi; omega
      · exact h0
    exact ⟨Nat.mod_lt _ hw, (Nat.div_lt_iff_lt_mul hw).2 (by rwa [Nat.mul_comm] at hi)⟩
  · rintro ⟨hx, hy⟩
    refine ⟨y * img.width + x, ?_, ?_, ?_⟩
    · calc y * img.width + x < y * img.width + img.width := by omega
        _ = (y + 1) * img.width := by ring
        _ ≤ img.height * img.width := Nat.mul_le_mul_right _ hy
        _ = img.width * img.height := Nat.mul_comm _ _
    · rw [Nat.add_comm, Nat.add_mul_mod_self_right, Nat.mod_eq_of_lt hx]
    · rw [Nat.add_comm, Nat.add_mul_div_right _ _ (by omega : 0 < img.width),
        Nat.div_eq_of_lt hx, Nat.zero_add]

theorem Image.index_lt (img : Image α) {x y : Nat} (hx : x < img.width) (hy : y < img.height) :
    y * img.width + x < img.width * img.height := by
  calc y * img.width + x < y * img.width + img.width := by omega
    _ = (y + 1) * img.width := by ring
    _ ≤ img.height * img.width := Nat.mul_le_mul_right _ hy
    _ = img.width * img.height := Nat.mul_comm _ _

theorem Image.coords_getD (img : Image α) {x y : Nat} (hx : x < img.width)
    (hy : y < img.height) (g : Nat × Nat → β) (d : β) :
    (img.coords.map g).getD (y * img.width + x) d = g (x, y) := by
  have hi := img.index_lt hx hy
  have hlen : y * img.width + x < (img.coords.map g).length := by
    simpa [Image.coords] using hi
  rw [List.getD_eq_getElem _ _ hlen]
  simp only [Image.coords, List.getElem_map, List.getElem_range]
  congr 1
  rw [Nat.add_comm, Nat.add_mul_mod_self_right, Nat.mod_eq_of_lt hx,
    Nat.add_mul_div_right _ _ (by omega : 0 < img.width), Nat.div_eq_of_lt hx, Nat.zero_add]

theorem pixel_MapWithIndex [Zero α] [Zero β] (src : Image α) (f : α → Point → β) {x y : Nat}
    (hx : x < src.width) (hy : y < src.height) :
    (MapWithIndex src f).pixel x y = f (src.pixel x y) ⟨(x : Int), (y : Int)⟩ := by
  unfold MapWithIndex Image.pixel
  exact src.coords_getD hx hy _ _

theorem pixel_CombineWithIndex [Zero α] [Zero β] [Zero γ] (a : Image α) (b : Image β)
    (f : α → β → Point → γ) {x y : Nat} (hx : x < a.width) (hy : y < a.height) :
    (CombineWithIndex a b f).pixel x y
      = f (a.pixel x y) (b.pixel x y) ⟨(x : Int), (y : Int)⟩ := by
  unfold CombineWithIndex Image.pixel
  exact a.coords_getD hx hy _ _

theorem pixel_Map [Zero α] [Zero β] (src : Image α) (f : α → β) {x y : Nat}
    (hx : x < src.width) (hy : y < src.height) :
    (Map src f).pixel x y = f (src.pixel x y) := by
  have hi := src.index_lt hx hy
  unfold Map Image.pixel
  simp only
  rw [List.getD_eq_getElem _ _ (by rw [List.length_map, src.size_eq]; exact hi),
    List.getD_eq_getElem _ _ (by rw [src.size_eq]; exact hi), List.getElem_map]

theorem Image.mem_window (img : Image α) (r : Range) (c : Nat × Nat) :
    c ∈ img.window r ↔
      (c.1 < img.width ∧ c.2 < img.height) ∧
        (r.x_min ≤ (c.1 : Int) ∧ (c.1 : Int) ≤ r.x_max) ∧
          (r.y_min ≤ (c.2 : Int) ∧ (c.2 : Int) ≤ r.y_max) := by
  simp only [Image.window, List.mem_filter, Image.mem_coords, Range.contains, Bool.and_eq_true,
    decide_eq_true_eq]
  tauto

theorem mem_windowFinset (width height : Nat) (half : Int) (x y : Nat) (q : Nat × Nat) :
    q ∈ windowFinset width height half x y ↔
      (q.1 < width ∧ q.2 < height) ∧
        ((x : Int) - half ≤ (q.1 : Int) ∧ (q.1 : Int) ≤ (x : Int) + half) ∧
          ((y : Int) - half ≤ (q.2 : Int) ∧ (q.2 : Int) ≤ (y : Int) + half) := by
  simp only [windowFinset, Finset.mem_filter, Finset.mem_product, Finset.mem_range]

/-- Two images of the same shape with the same value at every pixel are equal. -/
theorem Image.ext_pixel [Zero α] (a b : Image α) (hw : a.width = b.width)
    (hh : a.height = b.height)
    (hp : ∀ x y, x < a.width → y < a.height → a.pixel x y = b.pixel x y) : a = b := by
  have hlen : a.data.length = b.data.length := by rw [a.size_eq, b.size_eq, hw, hh]
  have hdata : a.data = b.data := by
    apply List.ext_getElem hlen
    intro i h1 h2
    have hi : i < a.width * a.height := by rw [← a.size_eq]; exact h1
    have hwpos : 0 < a.width := by
      rcases Nat.eq_zero_or_pos a.width with h0 | h0
      · rw [h0, Nat.zero_mul] at hi; omega
      · exact h0
    have hx : i % a.width < a.width := Nat.mod_lt _ hwpos
    have hy : i / a.width < a.height :=
      (Nat.div_lt_iff_lt_mul hwpos).2 (by rwa [Nat.mul_comm] at hi)
    have hidx : i / a.width * a.width + i % a.width = i := by
      rw [Nat.mul_comm]; exact Nat.div_add_mod i a.width
    have hpix := hp _ _ hx hy
    unfold Image.pixel at hpix
    rw [← hw, hidx, List.getD_eq_getElem _ _ h1, List.getD_eq_getElem _ _ h2] at hpix
    exact hpix
  obtain ⟨aw, ah, ad, ha⟩ := a
  obtain ⟨bw, bh, bd, hb⟩ := b
  simp only at hw hh hdata
  subst hw hh hdata
  rfl

theorem Image.pixel_mem_data [Zero α] (img : Image α) {x y : Nat} (hx : x < img.width)
    (hy : y < img.height) : img.pixel x y ∈ img.data := by
  have hi : y * img.width + x < img.data.length := by
    rw [img.size_eq]; exact img.index_lt hx hy
  unfold Image.pixel
  rw [List.getD_eq_getElem _ _ hi]
  exact List.getElem_mem hi

theorem Image.exists_pixel_of_mem [Zero α] (img : Image α) {v : α} (hv : v ∈ img.data) :
    ∃ x y, x < img.width ∧ y < img.height ∧ img.pixel x y = v := by
  obtain ⟨i, hi, rfl⟩ := List.getElem_of_mem hv
  have hi' : i < img.width * img.height := by rw [← img.size_eq]; exact hi
  have hwpos : 0 < img.width := by
    rcases Nat.eq_zero_or_pos img.width with h0 | h0
    · rw [h0, Nat.zero_mul] at hi'; omega
    · exact h0
  refine ⟨i % img.width, i / img.width, Nat.mod_lt _ hwpos,
    (Nat.div_lt_iff_lt_mul hwpos).2 (by rwa [Nat.mul_comm] at hi'), ?_⟩
  have hidx : i / img.width * img.width + i % img.width = i := by
    rw [Nat.mul_comm]; exact Nat.div_add_mod i img.width
  unfold Image.pixel
  rw [hidx, List.getD_eq_getElem _ _ hi]

end PrimitiveLemmas

/-! ## Pixel access through the pipeline

These hold for every carrier of the pixel values: they use none of the laws of
arithmetic. -/

section PipelinePixels

variable {α : Type}

/-- The tensor computed by `StructureTensorImage` at a pixel of the gradient
images. -/
theorem pixel_StructureTensorImage [Zero α] [Add α] [Mul α]
    (Filter2d : Image α → FilterKernel α → Image α)
    (gaussian_kernel diff_x diff_y : FilterKernel α) (structure_size : Int) (src : Image α)
    {x y : Nat}
    (hx : x < (Filter2d (Filter2d src gaussian_kernel) diff_x).width)
    (hy : y < (Filter2d (Filter2d src gaussian_kernel) diff_x).height) :
    (StructureTensorImage Filter2d gaussian_kernel diff_x diff_y structure_size src).pixel x y
      = ReduceRange2 (Filter2d (Filter2d src gaussian_kernel) diff_x)
          (Filter2d (Filter2d src gaussian_kernel) diff_y)
          ⟨(x : Int) - Int.tdiv structure_size 2, (y : Int) - Int.tdiv structure_size 2,
            (x : Int) + Int.tdiv structure_size 2, (y : Int) + Int.tdiv structure_size 2⟩
          (0 : StructureTensor α) StructureTensor.accumulate := by
  unfold StructureTensorImage
  simp only
  rw [pixel_CombineWithIndex _ _ _ hx hy]

/-- The value computed by the lambda of `NonMaxSuppression` at an image pixel. -/
theorem pixel_NonMaxSuppression [Zero α] [LT α] [DecidableRel (LT.lt : α → α → Prop)]
    (n : Int) (src : Image α) (threshold : α) {x y : Nat}
    (hx : x < src.width) (hy : y < src.height) :
    (NonMaxSuppression n src threshold).pixel x y =
      if src.pixel x y < threshold then 0
      else
        (src.window ⟨(x : Int) - Int.tdiv n 2, (y : Int) - Int.tdiv n 2,
            (x : Int) + Int.tdiv n 2, (y : Int) + Int.tdiv n 2⟩).foldl
          (fun acc c => suppress acc (src.pixel c.1 c.2)) (src.pixel x y) := by
  unfold NonMaxSuppression
  simp only
  rw [pixel_MapWithIndex src _ hx hy]
  rfl

theorem FindCorners_eq [Zero α] [Add α] [Sub α] [Mul α] [LT α]
    [DecidableRel (LT.lt : α → α → Prop)] [Max α] (self : HarrisCpp α)
    (Filter2d : Image α → FilterKernel α → Image α) (image : Image α) :
    FindCorners self Filter2d image
      = NonMaxSuppression self.suppression_size_ (responseImage self Filter2d image)
          (maxResponse (responseImage self Filter2d image) * self.threshold_ratio_) :=
  rfl

/-- The fold of the suppression step returns `0` or its seed, whatever the
order on the carrier. -/
theorem foldl_suppress_zero_or_init {γ : Type} [Zero α] [LT α]
    [DecidableRel (LT.lt : α → α → Prop)] (g : γ → α) (l : List γ) (v : α) :
    l.foldl (fun acc c => suppress acc (g c)) v = 0 ∨
      l.foldl (fun acc c => suppress acc (g c)) v = v := by
  induction l generalizing v with
  | nil => exact Or.inr rfl
  | cons c l ih =>
    rw [List.foldl_cons]
    by_cases hc : v < g c
    · rw [show suppress v (g c) = 0 from if_pos hc]
      rcases ih 0 with h | h <;> exact Or.inl h
    · rw [show suppress v (g c) = v from if_neg hc]
      exact ih v

end PipelinePixels

/-! ## The Gaussian kernel -/

section Kernel

variable {α : Type} [LinearOrderedField α]

theorem foldl_push (v : Nat → α) (l : List Nat) (st : α × List α) :
    l.foldl (fun st x => (st.1 + v x, st.2 ++ [v x])) st
      = (st.1 + (l.map v).sum, st.2 ++ l.map v) := by
  induction l generalizing st with
  | nil => simp
  | cons x l ih =>
    rw [List.foldl_cons, ih]
    simp [add_assoc]

/-- The kernel values before normalization, in the order in which the loops
push them: entry `i` belongs to column `i % n` and row `i / n`. -/
theorem GaussianKernel.loop_rows (exp : α → α) (sigma : α) (offset : Int) (n m : Nat) :
    (List.range m).foldl
        (fun st y =>
          (List.range n).foldl
            (fun st x =>
              let value := GaussianKernel.value exp sigma offset x y
              (st.1 + value, st.2 ++ [value]))
            st)
        ((0 : α), ([] : List α))
      = (((List.range (m * n)).map fun i =>
            GaussianKernel.value exp sigma offset (i % n) (i / n)).sum,
          (List.range (m * n)).map fun i =>
            GaussianKernel.value exp sigma offset (i % n) (i / n)) := by
  induction m with
  | zero => simp
  | succ m ih =>
    rw [List.range_succ, List.foldl_append, ih, List.foldl_cons, List.foldl_nil]
    have hrow : (List.range n).map (fun j =>
          GaussianKernel.value exp sigma offset ((m * n + j) % n) ((m * n + j) / n))
        = (List.range n).map fun x => GaussianKernel.value exp sigma offset x m := by
      apply List.map_congr_left
      intro j hj
      have hj' : j < n := List.mem_range.1 hj
      rw [Nat.add_comm (m * n) j, Nat.add_mul_mod_self_right, Nat.mod_eq_of_lt hj',
        Nat.add_mul_div_right _ _ (by omega : 0 < n), Nat.div_eq_of_lt hj', Nat.zero_add]
    have hsplit : (List.range ((m + 1) * n)).map (fun i =>
          GaussianKernel.value exp sigma offset (i % n) (i / n))
        = ((List.range (m * n)).map fun i =>
            GaussianKernel.value exp sigma offset (i % n) (i / n))
          ++ (List.range n).map fun x => GaussianKernel.value exp sigma offset x m := by
      rw [Nat.succ_mul, List.range_add, List.map_append, List.map_map, ← hrow]
      rfl
    rw [hsplit, List.sum_append]
    exact foldl_push (fun x => GaussianKernel.value exp sigma offset x m) (List.range n) _

theorem GaussianKernel.loop_eq (exp : α → α) (sigma : α) (size offset : Int) :
    GaussianKernel.loop exp sigma size offset
      = (((List.range (size.toNat * size.toNat)).map fun i =>
            GaussianKernel.value exp sigma offset (i % size.toNat) (i / size.toNat)).sum,
          (List.range (size.toNat * size.toNat)).map fun i =>
            GaussianKernel.value exp sigma offset (i % size.toNat) (i / size.toNat)) :=
  GaussianKernel.loop_rows exp sigma offset size.toNat size.toNat

theorem tmod_two_eq_zero_iff (size : Int) : Int.tmod size 2 = 0 ↔ Even size := by
  rw [even_iff_two_dvd, Int.dvd_iff_tmod_eq_zero]

theorem GaussianKernel_error_iff (exp : α → α) (sigma : α) (size : Int) :
    (∃ what, GaussianKernel exp sigma size = .error (.invalid_argument what))
      ↔ (size ≤ 0 ∨ Even size) := by
  unfold GaussianKernel
  by_cases h : size ≤ 0 ∨ Int.tmod size 2 = 0
  · rw [if_pos h]
    rw [tmod_two_eq_zero_iff] at h
    exact ⟨fun _ => h, fun _ => ⟨_, rfl⟩⟩
  · rw [if_neg h]
    rw [tmod_two_eq_zero_iff] at h
    simp only [h, iff_false]
    rintro ⟨what, hw⟩
    cases hw

theorem GaussianKernel_ok_iff (exp : α → α) (sigma : α) (size : Int) :
    (∃ kernel, GaussianKernel exp sigma size = .ok kernel) ↔ (0 < size ∧ Odd size) := by
  unfold GaussianKernel
  by_cases h : size ≤ 0 ∨ Int.tmod size 2 = 0
  · rw [if_pos h]
    rw [tmod_two_eq_zero_iff] at h
    constructor
    · rintro ⟨kernel, hk⟩
      cases hk
    · rintro ⟨hpos, hodd⟩
      rcases h with h | h
      · omega
      · exact absurd h (Int.not_even_iff_odd.2 hodd)
  · rw [if_neg h]
    rw [tmod_two_eq_zero_iff, not_or, not_le, Int.not_even_iff_odd] at h
    exact ⟨fun _ => h, fun _ => ⟨_, rfl⟩⟩

theorem HarrisCpp.create_error_iff (exp : α → α) (smoothing_size structure_size : Int)
    (harris_k threshold_ratio : α) (suppression_size : Int) (e : Error) :
    HarrisCpp.create exp smoothing_size structure_size harris_k threshold_ratio suppression_size
        = .error e
      ↔ GaussianKernel exp 1 smoothing_size = .error e := by
  unfold HarrisCpp.create
  cases hk : GaussianKernel exp 1 smoothing_size with
  | error e1 =>
    simp only
    constructor <;> intro h <;> cases h <;> rfl
  | ok kernel =>
    simp only
    constructor <;> intro h <;> cases h

/-- C3: `GaussianKernel(sigma, size)` fails with an invalid-argument error if and
only if `size <= 0` or `size` is even, in particular for the sizes `0`, `-3` and
`4`; it returns a kernel if and only if `size` is positive and odd; and the
constructor of `HarrisCpp` fails with the error of `GaussianKernel(1, smoothing_size)`,
hence exactly when `smoothing_size` is non-positive or even. -/
theorem GaussianKernel_fails_iff (exp : α → α) (sigma : α) :
    (∀ size : Int,
        (∃ what, GaussianKernel exp sigma size = .error (.invalid_argument what))
          ↔ (size ≤ 0 ∨ Even size)) ∧
      ((∃ what, GaussianKernel exp sigma 0 = .error (.invalid_argument what)) ∧
        (∃ what, GaussianKernel exp sigma (-3) = .error (.invalid_argument what)) ∧
        (∃ what, GaussianKernel exp sigma 4 = .error (.invalid_argument what))) ∧
      (∀ size : Int,
        (∃ kernel, GaussianKernel exp sigma size = .ok kernel) ↔ (0 < size ∧ Odd size)) ∧
      (∀ (smoothing_size structure_size : Int) (harris_k threshold_ratio : α)
          (suppression_size : Int),
        (∀ e : Error,
          HarrisCpp.create exp smoothing_size structure_size harris_k threshold_ratio
              suppression_size = .error e
            ↔ GaussianKernel exp 1 smoothing_size = .error e) ∧
        ((∃ what,
            HarrisCpp.create exp smoothing_size structure_size harris_k threshold_ratio
              suppression_size = .error (.invalid_argument what))
          ↔ (smoothing_size ≤ 0 ∨ Even smoothing_size))) := by
  refine ⟨GaussianKernel_error_iff exp sigma, ⟨?_, ?_, ?_⟩, GaussianKernel_ok_iff exp sigma, ?_⟩
  · exact (GaussianKernel_error_iff exp sigma 0).2 (Or.inl le_rfl)
  · exact (GaussianKernel_error_iff exp sigma (-3)).2 (Or.inl (by decide))
  · exact (GaussianKernel_error_iff exp sigma 4).2 (Or.inr ⟨2, rfl⟩)
  · intro smoothing_size structure_size harris_k threshold_ratio suppression_size
    refine ⟨HarrisCpp.create_error_iff exp _ _ _ _ _, ?_⟩
    rw [← GaussianKernel_error_iff exp 1 smoothing_size]
    constructor
    · rintro ⟨what, hw⟩
      exact ⟨what, (HarrisCpp.create_error_iff exp _ _ _ _ _ _).1 hw⟩
    · rintro ⟨what, hw⟩
      exact ⟨what, (HarrisCpp.create_error_iff exp _ _ _ _ _ _).2 hw⟩

/-! ### Normalization -/

theorem sum_map_range_eq (f : Nat → α) (n : Nat) :
    ((List.range n).map f).sum = ∑ i in Finset.range n, f i := by
  induction n with
  | zero => simp
  | succ n ih => rw [List.sum_range_succ, Finset.sum_range_succ, ih]

theorem sum_rows_eq (g : Nat → Nat → α) (n m : Nat) :
    ((List.range (m * n)).map fun i => g (i % n) (i / n)).sum
      = ∑ y in Finset.range m, ∑ x in Finset.range n, g x y := by
  induction m with
  | zero => simp
  | succ m ih =>
    have hrow : (List.range n).map (fun j => g ((m * n + j) % n) ((m * n + j) / n))
        = (List.range n).map fun x => g x m := by
      apply List.map_congr_left
      intro j hj
      have hj' : j < n := List.mem_range.1 hj
      rw [Nat.add_comm (m * n) j, Nat.add_mul_mod_self_right, Nat.mod_eq_of_lt hj',
        Nat.add_mul_div_right _ _ (by omega : 0 < n), Nat.div_eq_of_lt hj', Nat.zero_add]
    have hsplit : (List.range ((m + 1) * n)).map (fun i => g (i % n) (i / n))
        = ((List.range (m * n)).map fun i => g (i % n) (i / n))
          ++ (List.range n).map fun x => g x m := by
      rw [Nat.succ_mul, List.range_add, List.map_append, List.map_map, ← hrow]
      rfl
    rw [hsplit, List.sum_append, ih, Finset.sum_range_succ, sum_map_range_eq]

theorem sum_range_centered (size : Int) (hpos : 0 < size) (hodd : Odd size) (f : Int → α) :
    ∑ i in Finset.range size.toNat, f ((i : Int) - size / 2)
      = ∑ d in Finset.Icc (-(size / 2)) (size / 2), f d := by
  obtain ⟨k, hk⟩ := hodd
  have himage : Finset.Icc (-(size / 2)) (size / 2)
      = (Finset.range size.toNat).image fun i : Nat => (i : Int) - size / 2 := by
    ext d
    simp only [Finset.mem_Icc, Finset.mem_image, Finset.mem_range]
    constructor
    · rintro ⟨h1, h2⟩
      exact ⟨(d + size / 2).toNat, by omega, by omega⟩
    · rintro ⟨i, hi, rfl⟩
      omega
  rw [himage, Finset.sum_image]
  intro a _ b _ hab
  omega

theorem tdiv_two_of_pos (size : Int) (hpos : 0 < size) : Int.tdiv size 2 = size / 2 :=
  Int.tdiv_eq_ediv (le_of_lt hpos) (by decide)

/-- The kernel returned for a positive odd size: the pushed values divided by
their sum. -/
theorem GaussianKernel_eq (exp : α → α) (sigma : α) (size : Int) (hpos : 0 < size)
    (hodd : Odd size) :
    GaussianKernel exp sigma size
      = .ok ⟨size, size,
          ((List.range (size.toNat * size.toNat)).map fun i =>
              GaussianKernel.value exp sigma (size / 2) (i % size.toNat) (i / size.toNat)).map
            fun value => value /
              ∑ y in Finset.range size.toNat, ∑ x in Finset.range size.toNat,
                GaussianKernel.value exp sigma (size / 2) x y⟩ := by
  have hcond : ¬ (size ≤ 0 ∨ Int.tmod size 2 = 0) := by
    rw [tmod_two_eq_zero_iff, not_or, not_le, Int.not_even_iff_odd]
    exact ⟨hpos, hodd⟩
  unfold GaussianKernel
  rw [if_neg hcond]
  simp only [GaussianKernel.loop_eq, tdiv_two_of_pos size hpos, sum_rows_eq]

theorem sum_map_div (l : List α) (s : α) : (l.map fun v => v / s).sum = l.sum / s := by
  induction l with
  | nil => simp
  | cons a l ih => rw [List.map_cons, List.sum_cons, List.sum_cons, ih, add_div]

theorem GaussianKernel.value_eq (exp : α → α) (sigma : α) (offset : Int) (x y : Nat) :
    GaussianKernel.value exp sigma offset x y
      = exp (-((((x : Int) - offset : Int) : α) ^ 2 + (((y : Int) - offset : Int) : α) ^ 2)
          / (2 * sigma ^ 2)) := by
  unfold GaussianKernel.value
  simp only
  congr 1
  ring

theorem GaussianKernel.sum_value_eq (exp : α → α) (sigma : α) (size : Int) (hpos : 0 < size)
    (hodd : Odd size) :
    ∑ y in Finset.range size.toNat, ∑ x in Finset.range size.toNat,
        GaussianKernel.value exp sigma (size / 2) x y
      = ∑ dy in Finset.Icc (-(size / 2)) (size / 2),
          ∑ dx in Finset.Icc (-(size / 2)) (size / 2),
            exp (-(((dx : Int) : α) ^ 2 + ((dy : Int) : α) ^ 2) / (2 * sigma ^ 2)) := by
  rw [← sum_range_centered size hpos hodd fun dy =>
    ∑ dx in Finset.Icc (-(size / 2)) (size / 2),
      exp (-(((dx : Int) : α) ^ 2 + ((dy : Int) : α) ^ 2) / (2 * sigma ^ 2))]
  apply Finset.sum_congr rfl
  intro y _
  rw [← sum_range_centered size hpos hodd fun dx =>
    exp (-(((dx : Int) : α) ^ 2 + ((((y : Int) - size / 2 : Int)) : α) ^ 2) / (2 * sigma ^ 2))]
  apply Finset.sum_congr rfl
  intro x _
  exact GaussianKernel.value_eq exp sigma (size / 2) x y

theorem GaussianKernel.sum_value_pos (exp : α → α) (hexp : ∀ t, 0 < exp t) (sigma : α)
    (size : Int) (hpos : 0 < size) :
    0 < ∑ y in Finset.range size.toNat, ∑ x in Finset.range size.toNat,
        GaussianKernel.value exp sigma (size / 2) x y := by
  have hne : (Finset.range size.toNat).Nonempty :=
    Finset.nonempty_range_iff.2 (by omega)
  apply Finset.sum_pos _ hne
  intro y _
  apply Finset.sum_pos _ hne
  intro x _
  rw [GaussianKernel.value_eq]
  exact hexp _

/-- Normalization for any everywhere-positive `exp`: the weights sum to one and
are positive. -/
theorem GaussianKernel_normalized (exp : α → α) (hexp : ∀ t, 0 < exp t) (sigma : α)
    (size : Int) (hpos : 0 < size) (hodd : Odd size) :
    ∃ kernel, GaussianKernel exp sigma size = .ok kernel ∧ kernel.values.sum = 1 ∧
      ∀ w ∈ kernel.values, 0 < w := by
  have hS := GaussianKernel.sum_value_pos exp hexp sigma size hpos
  refine ⟨_, GaussianKernel_eq exp sigma size hpos hodd, ?_, ?_⟩
  · simp only
    rw [sum_map_div, sum_rows_eq]
    exact div_self (ne_of_gt hS)
  · intro w hw
    simp only [List.mem_map] at hw
    obtain ⟨v, ⟨i, _, rfl⟩, rfl⟩ := hw
    apply div_pos _ hS
    rw [GaussianKernel.value_eq]
    exact hexp _

/-- The entries of the kernel for any `exp` with a non-zero total. -/
theorem GaussianKernel_entry (exp : α → α) (sigma : α) (size : Int) (hpos : 0 < size)
    (hodd : Odd size) :
    ∃ kernel, GaussianKernel exp sigma size = .ok kernel ∧
      kernel.width = size ∧ kernel.height = size ∧
      kernel.values.length = size.toNat * size.toNat ∧
      ∀ x y : Nat, (x : Int) < size → (y : Int) < size →
        kernel.values[y * size.toNat + x]?
          = some
            (exp (-((((x : Int) - size / 2 : Int) : α) ^ 2
                  + (((y : Int) - size / 2 : Int) : α) ^ 2) / (2 * sigma ^ 2))
              / ∑ dy in Finset.Icc (-(size / 2)) (size / 2),
                  ∑ dx in Finset.Icc (-(size / 2)) (size / 2),
                    exp (-(((dx : Int) : α) ^ 2 + ((dy : Int) : α) ^ 2) / (2 * sigma ^ 2))) := by
  refine ⟨_, GaussianKernel_eq exp sigma size hpos hodd, rfl, rfl, by simp, ?_⟩
  intro x y hx hy
  have hx' : x < size.toNat := by omega
  have hy' : y < size.toNat := by omega
  have hi : y * size.toNat + x < size.toNat * size.toNat := by
    calc y * size.toNat + x < y * size.toNat + size.toNat := by omega
      _ = (y + 1) * size.toNat := by ring
      _ ≤ size.toNat * size.toNat := Nat.mul_le_mul_right _ hy'
  simp only [List.getElem?_map, List.getElem?_range hi, Option.map_some']
  rw [Nat.add_comm (y * size.toNat) x, Nat.add_mul_mod_self_right, Nat.mod_eq_of_lt hx',
    Nat.add_mul_div_right _ _ (by omega : 0 < size.toNat), Nat.div_eq_of_lt hx', Nat.zero_add,
    GaussianKernel.sum_value_eq exp sigma size hpos hodd, GaussianKernel.value_eq]

end Kernel

section KernelReal

/-- C4: for every positive odd `size` and every positive `sigma`, the weights
of the kernel returned by `GaussianKernel(sigma, size)` sum to exactly `1` in
exact real arithmetic, and every weight is strictly positive. -/
theorem GaussianKernel_sum_one (sigma : ℝ) (size : Int) (hpos : 0 < size) (hodd : Odd size)
    (_hsigma : 0 < sigma) :
    ∃ kernel, GaussianKernel Real.exp sigma size = .ok kernel ∧ kernel.values.sum = 1 ∧
      ∀ w ∈ kernel.values, 0 < w :=
  GaussianKernel_normalized Real.exp Real.exp_pos sigma size hpos hodd

/-- Witness for C4: `sigma = 1` and `size = 3`. -/
theorem GaussianKernel_sum_one_witness :
    ((0 : Int) < 3 ∧ Odd (3 : Int) ∧ (0 : ℝ) < 1) ∧
      ∃ kernel, GaussianKernel Real.exp 1 3 = .ok kernel ∧ kernel.values.sum = 1 ∧
        ∀ w ∈ kernel.values, 0 < w :=
  ⟨⟨by decide, ⟨1, rfl⟩, one_pos⟩,
    GaussianKernel_sum_one 1 3 (by decide) ⟨1, rfl⟩ one_pos⟩

/-- C5: for every positive odd `size` and positive `sigma`, `GaussianKernel(sigma, size)`
returns a `size × size` kernel whose row-major entry at column `x`, row `y` is
`exp(-(dx² + dy²) / (2 sigma²))` divided by the sum of that expression over all
offsets in `[-size/2, size/2]²`, where `dx = x - size/2` and `dy = y - size/2`. -/
theorem GaussianKernel_entries (sigma : ℝ) (size : Int) (hpos : 0 < size) (hodd : Odd size)
    (_hsigma : 0 < sigma) :
    ∃ kernel, GaussianKernel Real.exp sigma size = .ok kernel ∧
      kernel.width = size ∧ kernel.height = size ∧
      kernel.values.length = size.toNat * size.toNat ∧
      ∀ x y : Nat, (x : Int) < size → (y : Int) < size →
        kernel.values[y * size.toNat + x]?
          = some
            (Real.exp (-((((x : Int) - size / 2 : Int) : ℝ) ^ 2
                  + (((y : Int) - size / 2 : Int) : ℝ) ^ 2) / (2 * sigma ^ 2))
              / ∑ dy in Finset.Icc (-(size / 2)) (size / 2),
                  ∑ dx in Finset.Icc (-(size / 2)) (size / 2),
                    Real.exp (-(((dx : Int) : ℝ) ^ 2 + ((dy : Int) : ℝ) ^ 2)
                      / (2 * sigma ^ 2))) :=
  GaussianKernel_entry Real.exp sigma size hpos hodd

/-- Witness for C5: `sigma = 1` and the default `size = 5`. -/
theorem GaussianKernel_entries_witness :
    ((0 : Int) < 5 ∧ Odd (5 : Int) ∧ (0 : ℝ) < 1) ∧
      ∃ kernel, GaussianKernel Real.exp 1 5 = .ok kernel ∧
        kernel.width = 5 ∧ kernel.height = 5 ∧
        kernel.values.length = (5 : Int).toNat * (5 : Int).toNat ∧
        ∀ x y : Nat, (x : Int) < 5 → (y : Int) < 5 →
          kernel.values[y * (5 : Int).toNat + x]?
            = some
              (Real.exp (-((((x : Int) - 5 / 2 : Int) : ℝ) ^ 2
                    + (((y : Int) - 5 / 2 : Int) : ℝ) ^ 2) / (2 * (1 : ℝ) ^ 2))
                / ∑ dy in Finset.Icc (-((5 : Int) / 2)) ((5 : Int) / 2),
                    ∑ dx in Finset.Icc (-((5 : Int) / 2)) ((5 : Int) / 2),
                      Real.exp (-(((dx : Int) : ℝ) ^ 2 + ((dy : Int) : ℝ) ^ 2)
                        / (2 * (1 : ℝ) ^ 2))) :=
  ⟨⟨by decide, ⟨2, rfl⟩, one_pos⟩,
    GaussianKernel_entries 1 5 (by decide) ⟨2, rfl⟩ one_pos⟩

end KernelReal

/-! ## The structure tensor and the response -/

section Tensor

variable {α : Type} [LinearOrderedField α]

theorem Image.coords_nodup {β : Type} (img : Image β) : img.coords.Nodup := by
  unfold Image.coords
  refine (List.nodup_range _).map_on ?_
  intro i _ j _ hij
  simp only [Prod.mk.injEq] at hij
  rw [← Nat.div_add_mod i img.width, ← Nat.div_add_mod j img.width, hij.1, hij.2]

theorem Image.window_nodup {β : Type} (img : Image β) (r : Range) : (img.window r).Nodup :=
  img.coords_nodup.filter _

theorem Image.window_toFinset {β : Type} (img : Image β) (half : Int) (x y : Nat) :
    (img.window
        ⟨(x : Int) - half, (y : Int) - half, (x : Int) + half, (y : Int) + half⟩).toFinset
      = windowFinset img.width img.height half x y := by
  ext c
  simp only [List.mem_toFinset, Image.mem_window, windowFinset, Finset.mem_filter,
    Finset.mem_product, Finset.mem_range]

theorem foldl_accumulate {γ : Type} (a b : γ → α) (l : List γ) (s : StructureTensor α) :
    l.foldl (fun acc c => StructureTensor.accumulate acc (a c) (b c)) s
      = ⟨s.xx + (l.map fun c => a c * a c).sum, s.xy + (l.map fun c => a c * b c).sum,
          s.yy + (l.map fun c => b c * b c).sum⟩ := by
  induction l generalizing s with
  | nil => simp
  | cons c l ih =>
    rw [List.foldl_cons, ih]
    simp [StructureTensor.accumulate, add_assoc]

/-- The windowed reduction of `StructureTensorImage` as three sums over the
pixels of the window. -/
theorem ReduceRange2_accumulate (i_x i_y : Image α) (half : Int) (x y : Nat) :
    ReduceRange2 i_x i_y
        ⟨(x : Int) - half, (y : Int) - half, (x : Int) + half, (y : Int) + half⟩
        (0 : StructureTensor α) StructureTensor.accumulate
      = ⟨∑ q in windowFinset i_x.width i_x.height half x y,
            i_x.pixel q.1 q.2 * i_x.pixel q.1 q.2,
          ∑ q in windowFinset i_x.width i_x.height half x y,
            i_x.pixel q.1 q.2 * i_y.pixel q.1 q.2,
          ∑ q in windowFinset i_x.width i_x.height half x y,
            i_y.pixel q.1 q.2 * i_y.pixel q.1 q.2⟩ := by
  unfold ReduceRange2
  refine (foldl_accumulate (fun c : Nat × Nat => i_x.pixel c.1 c.2)
    (fun c : Nat × Nat => i_y.pixel c.1 c.2) _ _).trans ?_
  rw [← i_x.window_toFinset half x y, List.sum_toFinset _ (i_x.window_nodup _),
    List.sum_toFinset _ (i_x.window_nodup _), List.sum_toFinset _ (i_x.window_nodup _)]
  show (⟨0 + _, 0 + _, 0 + _⟩ : StructureTensor α) = _
  rw [zero_add, zero_add, zero_add]

/-- C6: with `gx = Filter2d(smooth, diff_x)` and `gy = Filter2d(smooth, diff_y)`,
the tensor produced by `StructureTensorImage` at every pixel `(x, y)` has
`xx = Σ gx(q)²`, `xy = Σ gx(q)·gy(q)` and `yy = Σ gy(q)²`, the sums running over
all image pixels `q` of the window `[x-half, x+half] × [y-half, y+half]` with
`half = structure_size / 2`: the sum starts from the zero tensor and is not
divided by the window area. -/
theorem StructureTensorImage_window_sums (Filter2d : Image α → FilterKernel α → Image α)
    (gaussian_kernel diff_x diff_y : FilterKernel α) (structure_size : Int) (src : Image α)
    (x y : Nat)
    (hx : x < (Filter2d (Filter2d src gaussian_kernel) diff_x).width)
    (hy : y < (Filter2d (Filter2d src gaussian_kernel) diff_x).height) :
    (StructureTensorImage Filter2d gaussian_kernel diff_x diff_y structure_size src).pixel x y
      = ⟨∑ q in windowFinset (Filter2d (Filter2d src gaussian_kernel) diff_x).width
              (Filter2d (Filter2d src gaussian_kernel) diff_x).height
              (Int.tdiv structure_size 2) x y,
            (Filter2d (Filter2d src gaussian_kernel) diff_x).pixel q.1 q.2 ^ 2,
          ∑ q in windowFinset (Filter2d (Filter2d src gaussian_kernel) diff_x).width
              (Filter2d (Filter2d src gaussian_kernel) diff_x).height
              (Int.tdiv structure_size 2) x y,
            (Filter2d (Filter2d src gaussian_kernel) diff_x).pixel q.1 q.2
              * (Filter2d (Filter2d src gaussian_kernel) diff_y).pixel q.1 q.2,
          ∑ q in windowFinset (Filter2d (Filter2d src gaussian_kernel) diff_x).width
              (Filter2d (Filter2d src gaussian_kernel) diff_x).height
              (Int.tdiv structure_size 2) x y,
            (Filter2d (Filter2d src gaussian_kernel) diff_y).pixel q.1 q.2 ^ 2⟩ := by
  rw [pixel_StructureTensorImage Filter2d gaussian_kernel diff_x diff_y structure_size src hx hy,
    ReduceRange2_accumulate]
  simp only [pow_two]

/-- Witness for C6: the centre pixel of `sampleResponse` with the identity
filter and the default window size 5. -/
theorem StructureTensorImage_window_sums_witness :
    (1 < (identityFilter (identityFilter sampleResponse sampleSmooth) sampleDiffX).width ∧
      1 < (identityFilter (identityFilter sampleResponse sampleSmooth) sampleDiffX).height) ∧
    (StructureTensorImage identityFilter sampleSmooth sampleDiffX sampleDiffY 5
        sampleResponse).pixel 1 1
      = ⟨∑ q in windowFinset
              (identityFilter (identityFilter sampleResponse sampleSmooth) sampleDiffX).width
              (identityFilter (identityFilter sampleResponse sampleSmooth) sampleDiffX).height
              (Int.tdiv 5 2) 1 1,
            (identityFilter (identityFilter sampleResponse sampleSmooth) sampleDiffX).pixel
              q.1 q.2 ^ 2,
          ∑ q in windowFinset
              (identityFilter (identityFilter sampleResponse sampleSmooth) sampleDiffX).width
              (identityFilter (identityFilter sampleResponse sampleSmooth) sampleDiffX).height
              (Int.tdiv 5 2) 1 1,
            (identityFilter (identityFilter sampleResponse sampleSmooth) sampleDiffX).pixel
                q.1 q.2
              * (identityFilter (identityFilter sampleResponse sampleSmooth) sampleDiffY).pixel
                q.1 q.2,
          ∑ q in windowFinset
              (identityFilter (identityFilter sampleResponse sampleSmooth) sampleDiffX).width
              (identityFilter (identityFilter sampleResponse sampleSmooth) sampleDiffX).height
              (Int.tdiv 5 2) 1 1,
            (identityFilter (identityFilter sampleResponse sampleSmooth) sampleDiffY).pixel
              q.1 q.2 ^ 2⟩ :=
  ⟨⟨by decide, by decide⟩,
    StructureTensorImage_window_sums identityFilter sampleSmooth sampleDiffX sampleDiffY 5
      sampleResponse 1 1 (by decide) (by decide)⟩

/-- C7: the Harris response computed by `FindCorners` is, for every structure
tensor `{xx, xy, yy}` and sensitivity `k`, the value
`(xx·yy − xy²) − k·(xx + yy)²`: the response image holds exactly this value for
each tensor of the structure tensor image, negative values included, and it is
this image that `FindCorners` hands to the suppression. -/
theorem harris_response_formula :
    (∀ (k : α) (s : StructureTensor α),
        harrisScore k s = (s.xx * s.yy - s.xy ^ 2) - k * (s.xx + s.yy) ^ 2) ∧
      (∀ (self : HarrisCpp α) (Filter2d : Image α → FilterKernel α → Image α)
          (image : Image α),
        (responseImage self Filter2d image).data
            = (StructureTensorImage Filter2d self.gaussian_kernel_ self.diff_x_ self.diff_y_
                self.structure_size_ image).data.map
              (fun s => (s.xx * s.yy - s.xy ^ 2) - self.k_ * (s.xx + s.yy) ^ 2) ∧
          FindCorners self Filter2d image
            = NonMaxSuppression self.suppression_size_ (responseImage self Filter2d image)
                (maxResponse (responseImage self Filter2d image) * self.threshold_ratio_)) := by
  have hscore : ∀ (k : α) (s : StructureTensor α),
      harrisScore k s = (s.xx * s.yy - s.xy ^ 2) - k * (s.xx + s.yy) ^ 2 := by
    intro k s
    unfold harrisScore
    ring
  refine ⟨hscore, fun self Filter2d image => ⟨?_, rfl⟩⟩
  unfold responseImage Map
  simp only
  exact List.map_congr_left fun s _ => hscore self.k_ s

/-- Whatever `Filter2d` does at the image border, the response vanishes at
every pixel as soon as both gradient images vanish at every pixel. -/
theorem responseImage_zero_of_zero_gradients (self : HarrisCpp α)
    (Filter2d : Image α → FilterKernel α → Image α) (image : Image α)
    (hgx : ∀ qx qy,
      qx < (Filter2d (Filter2d image self.gaussian_kernel_) self.diff_x_).width →
      qy < (Filter2d (Filter2d image self.gaussian_kernel_) self.diff_x_).height →
      (Filter2d (Filter2d image self.gaussian_kernel_) self.diff_x_).pixel qx qy = 0)
    (hgy : ∀ qx qy,
      qx < (Filter2d (Filter2d image self.gaussian_kernel_) self.diff_x_).width →
      qy < (Filter2d (Filter2d image self.gaussian_kernel_) self.diff_x_).height →
      (Filter2d (Filter2d image self.gaussian_kernel_) self.diff_y_).pixel qx qy = 0)
    {x y : Nat}
    (hx : x < (Filter2d (Filter2d image self.gaussian_kernel_) self.diff_x_).width)
    (hy : y < (Filter2d (Filter2d image self.gaussian_kernel_) self.diff_x_).height) :
    (responseImage self Filter2d image).pixel x y = 0 := by
  unfold responseImage
  rw [pixel_Map _ _ (show x < (StructureTensorImage Filter2d self.gaussian_kernel_ self.diff_x_
        self.diff_y_ self.structure_size_ image).width from hx)
      (show y < (StructureTensorImage Filter2d self.gaussian_kernel_ self.diff_x_
        self.diff_y_ self.structure_size_ image).height from hy),
    pixel_StructureTensorImage Filter2d _ _ _ _ image hx hy, ReduceRange2_accumulate]
  have hxx : ∀ q ∈ windowFinset
      (Filter2d (Filter2d image self.gaussian_kernel_) self.diff_x_).width
      (Filter2d (Filter2d image self.gaussian_kernel_) self.diff_x_).height
      (Int.tdiv self.structure_size_ 2) x y,
      (Filter2d (Filter2d image self.gaussian_kernel_) self.diff_x_).pixel q.1 q.2 = 0 :=
    fun q hq => hgx q.1 q.2 ((mem_windowFinset _ _ _ _ _ q).1 hq).1.1
      ((mem_windowFinset _ _ _ _ _ q).1 hq).1.2
  have hyy : ∀ q ∈ windowFinset
      (Filter2d (Filter2d image self.gaussian_kernel_) self.diff_x_).width
      (Filter2d (Filter2d image self.gaussian_kernel_) self.diff_x_).height
      (Int.tdiv self.structure_size_ 2) x y,
      (Filter2d (Filter2d image self.gaussian_kernel_) self.diff_y_).pixel q.1 q.2 = 0 :=
    fun q hq => hgy q.1 q.2 ((mem_windowFinset _ _ _ _ _ q).1 hq).1.1
      ((mem_windowFinset _ _ _ _ _ q).1 hq).1.2
  rw [Finset.sum_eq_zero fun q hq => by rw [hxx q hq, zero_mul],
    Finset.sum_eq_zero fun q hq => by rw [hxx q hq, zero_mul],
    Finset.sum_eq_zero fun q hq => by rw [hyy q hq, zero_mul]]
  simp [harrisScore]

end Tensor

/-! ## The global maximum -/

section GlobalMax

variable {α : Type} [LinearOrderedField α]

theorem foldl_max_ge_init (l : List α) (a : α) : a ≤ l.foldl (fun acc p => max acc p) a := by
  induction l generalizing a with
  | nil => exact le_rfl
  | cons v l ih =>
    rw [List.foldl_cons]
    exact le_trans (le_max_left a v) (ih (max a v))

theorem foldl_max_ge_mem (l : List α) (a : α) :
    ∀ v ∈ l, v ≤ l.foldl (fun acc p => max acc p) a := by
  induction l generalizing a with
  | nil => intro v hv; cases hv
  | cons w l ih =>
    intro v hv
    rw [List.foldl_cons]
    rcases List.mem_cons.1 hv with rfl | hv
    · exact le_trans (le_max_right a v) (foldl_max_ge_init l (max a v))
    · exact ih (max a w) v hv

theorem foldl_max_attained (l : List α) (a : α) :
    l.foldl (fun acc p => max acc p) a = a ∨ l.foldl (fun acc p => max acc p) a ∈ l := by
  induction l generalizing a with
  | nil => exact Or.inl rfl
  | cons w l ih =>
    rw [List.foldl_cons]
    rcases ih (max a w) with h | h
    · rw [h]
      rcases max_choice a w with hm | hm
      · exact Or.inl hm
      · exact Or.inr (by rw [hm]; exact List.mem_cons_self _ _)
    · exact Or.inr (List.mem_cons_of_mem _ h)

end GlobalMax

/-! ## Non-maximal suppression -/

section Suppression

variable {α : Type} [LinearOrderedField α]

theorem foldl_suppress_zero {γ : Type} (g : γ → α) (l : List γ) :
    l.foldl (fun acc c => suppress acc (g c)) 0 = 0 := by
  induction l with
  | nil => rfl
  | cons c l ih =>
    rw [List.foldl_cons]
    have h0 : suppress 0 (g c) = 0 := by unfold suppress; split <;> rfl
    rw [h0, ih]

theorem foldl_suppress_of_exceeded {γ : Type} (g : γ → α) (l : List γ) (v : α)
    (h : ∃ c ∈ l, v < g c) : l.foldl (fun acc c => suppress acc (g c)) v = 0 := by
  induction l with
  | nil => simp at h
  | cons c l ih =>
    rw [List.foldl_cons]
    by_cases hc : v < g c
    · rw [show suppress v (g c) = 0 from if_pos hc, foldl_suppress_zero]
    · rw [show suppress v (g c) = v from if_neg hc]
      obtain ⟨q, hq, hv⟩ := h
      rcases List.mem_cons.1 hq with rfl | hq
      · exact absurd hv hc
      · exact ih ⟨q, hq, hv⟩

theorem foldl_suppress_of_not_exceeded {γ : Type} (g : γ → α) (l : List γ) (v : α)
    (h : ∀ c ∈ l, ¬ v < g c) : l.foldl (fun acc c => suppress acc (g c)) v = v := by
  induction l with
  | nil => rfl
  | cons c l ih =>
    rw [List.foldl_cons, show suppress v (g c) = v from if_neg (h c (List.mem_cons_self _ _))]
    exact ih fun q hq => h q (List.mem_cons_of_mem _ hq)

theorem exceededInWindow_iff (src : Image α) (half : Int) (x y : Nat) :
    exceededInWindow src half x y ↔
      ∃ c ∈ src.window ⟨(x : Int) - half, (y : Int) - half, (x : Int) + half, (y : Int) + half⟩,
        src.pixel x y < src.pixel c.1 c.2 := by
  unfold exceededInWindow
  constructor
  · rintro ⟨q, hq, hv⟩
    exact ⟨q, (src.mem_window _ _).2 ((mem_windowFinset _ _ _ _ _ q).1 hq), hv⟩
  · rintro ⟨q, hq, hv⟩
    exact ⟨q, (mem_windowFinset _ _ _ _ _ q).2 ((src.mem_window _ _).1 hq), hv⟩

/-- The window predicate spelled out: some pixel `(qx, qy)` of the image with
`|qx - x| <= half` and `|qy - y| <= half` is strictly greater. -/
theorem exceededInWindow_def (src : Image α) (half : Int) (x y : Nat) :
    exceededInWindow src half x y ↔
      ∃ qx qy : Nat, (qx < src.width ∧ qy < src.height) ∧
        (((x : Int) - half ≤ (qx : Int) ∧ (qx : Int) ≤ (x : Int) + half) ∧
          ((y : Int) - half ≤ (qy : Int) ∧ (qy : Int) ≤ (y : Int) + half)) ∧
        src.pixel x y < src.pixel qx qy := by
  unfold exceededInWindow
  constructor
  · rintro ⟨⟨qx, qy⟩, hq, hv⟩
    obtain ⟨hb, hw⟩ := (mem_windowFinset _ _ _ _ _ _).1 hq
    exact ⟨qx, qy, hb, hw, hv⟩
  · rintro ⟨qx, qy, hb, hw, hv⟩
    exact ⟨(qx, qy), (mem_windowFinset _ _ _ _ _ _).2 ⟨hb, hw⟩, hv⟩

theorem NonMaxSuppression_of_lt (n : Int) (src : Image α) (threshold : α) {x y : Nat}
    (hx : x < src.width) (hy : y < src.height) (h : src.pixel x y < threshold) :
    (NonMaxSuppression n src threshold).pixel x y = 0 := by
  rw [pixel_NonMaxSuppression n src threshold hx hy, if_pos h]

theorem NonMaxSuppression_of_exceeded (n : Int) (src : Image α) (threshold : α) {x y : Nat}
    (hx : x < src.width) (hy : y < src.height) (h : ¬ src.pixel x y < threshold)
    (hex : exceededInWindow src (Int.tdiv n 2) x y) :
    (NonMaxSuppression n src threshold).pixel x y = 0 := by
  rw [pixel_NonMaxSuppression n src threshold hx hy, if_neg h]
  exact foldl_suppress_of_exceeded _ _ _ ((exceededInWindow_iff src _ x y).1 hex)

theorem NonMaxSuppression_of_not_exceeded (n : Int) (src : Image α) (threshold : α)
    {x y : Nat} (hx : x < src.width) (hy : y < src.height) (h : ¬ src.pixel x y < threshold)
    (hex : ¬ exceededInWindow src (Int.tdiv n 2) x y) :
    (NonMaxSuppression n src threshold).pixel x y = src.pixel x y := by
  rw [pixel_NonMaxSuppression n src threshold hx hy, if_neg h]
  exact foldl_suppress_of_not_exceeded _ _ _ fun c hc hv =>
    hex ((exceededInWindow_iff src _ x y).2 ⟨c, hc, hv⟩)

/-- C1: at every image pixel `(x, y)` with value `v`, the output of
`NonMaxSuppression(src, threshold)` is `0` if `v < threshold`; otherwise it is
`0` if some image pixel of the window `[x-half, x+half] × [y-half, y+half]`,
`half = suppression_size / 2`, is strictly greater than `v`, and it is `v` if no
pixel of that window strictly exceeds `v`.  The pixel itself belongs to its
window whenever the window size is not negative. -/
theorem NonMaxSuppression_spec (suppression_size : Int) (src : Image α) (threshold : α)
    (x y : Nat) (hx : x < src.width) (hy : y < src.height) :
    (src.pixel x y < threshold →
        (NonMaxSuppression suppression_size src threshold).pixel x y = 0) ∧
      (¬ src.pixel x y < threshold →
        (∃ qx qy : Nat, (qx < src.width ∧ qy < src.height) ∧
          (((x : Int) - Int.tdiv suppression_size 2 ≤ (qx : Int) ∧
              (qx : Int) ≤ (x : Int) + Int.tdiv suppression_size 2) ∧
            ((y : Int) - Int.tdiv suppression_size 2 ≤ (qy : Int) ∧
              (qy : Int) ≤ (y : Int) + Int.tdiv suppression_size 2)) ∧
          src.pixel x y < src.pixel qx qy) →
          (NonMaxSuppression suppression_size src threshold).pixel x y = 0) ∧
      (¬ src.pixel x y < threshold →
        (¬ ∃ qx qy : Nat, (qx < src.width ∧ qy < src.height) ∧
          (((x : Int) - Int.tdiv suppression_size 2 ≤ (qx : Int) ∧
              (qx : Int) ≤ (x : Int) + Int.tdiv suppression_size 2) ∧
            ((y : Int) - Int.tdiv suppression_size 2 ≤ (qy : Int) ∧
              (qy : Int) ≤ (y : Int) + Int.tdiv suppression_size 2)) ∧
          src.pixel x y < src.pixel qx qy) →
          (NonMaxSuppression suppression_size src threshold).pixel x y = src.pixel x y) ∧
      (0 ≤ suppression_size →
        (x, y) ∈ windowFinset src.width src.height (Int.tdiv suppression_size 2) x y) := by
  refine ⟨fun h => ?_, fun h hex => ?_, fun h hex => ?_, fun hsize => ?_⟩
  · exact NonMaxSuppression_of_lt suppression_size src threshold hx hy h
  · exact NonMaxSuppression_of_exceeded suppression_size src threshold hx hy h
      ((exceededInWindow_def src _ x y).2 hex)
  · exact NonMaxSuppression_of_not_exceeded suppression_size src threshold hx hy h
      fun hw => hex ((exceededInWindow_def src _ x y).1 hw)
  · have hhalf : 0 ≤ Int.tdiv suppression_size 2 := Int.tdiv_nonneg hsize (by decide)
    rw [mem_windowFinset]
    refine ⟨⟨hx, hy⟩, ⟨?_, ?_⟩, ⟨?_, ?_⟩⟩ <;> simp only <;> omega

/-- Witness for C1: the centre pixel of `sampleResponse`, window size 3,
threshold 2. -/
theorem NonMaxSuppression_spec_witness :
    (1 < sampleResponse.width ∧ 1 < sampleResponse.height) ∧
      ((sampleResponse.pixel 1 1 < 2 →
          (NonMaxSuppression 3 sampleResponse 2).pixel 1 1 = 0) ∧
        (¬ sampleResponse.pixel 1 1 < 2 →
          (∃ qx qy : Nat, (qx < sampleResponse.width ∧ qy < sampleResponse.height) ∧
            ((((1 : Nat) : Int) - Int.tdiv 3 2 ≤ (qx : Int) ∧
                (qx : Int) ≤ ((1 : Nat) : Int) + Int.tdiv 3 2) ∧
              (((1 : Nat) : Int) - Int.tdiv 3 2 ≤ (qy : Int) ∧
                (qy : Int) ≤ ((1 : Nat) : Int) + Int.tdiv 3 2)) ∧
            sampleResponse.pixel 1 1 < sampleResponse.pixel qx qy) →
            (NonMaxSuppression 3 sampleResponse 2).pixel 1 1 = 0) ∧
        (¬ sampleResponse.pixel 1 1 < 2 →
          (¬ ∃ qx qy : Nat, (qx < sampleResponse.width ∧ qy < sampleResponse.height) ∧
            ((((1 : Nat) : Int) - Int.tdiv 3 2 ≤ (qx : Int) ∧
                (qx : Int) ≤ ((1 : Nat) : Int) + Int.tdiv 3 2) ∧
              (((1 : Nat) : Int) - Int.tdiv 3 2 ≤ (qy : Int) ∧
                (qy : Int) ≤ ((1 : Nat) : Int) + Int.tdiv 3 2)) ∧
            sampleResponse.pixel 1 1 < sampleResponse.pixel qx qy) →
            (NonMaxSuppression 3 sampleResponse 2).pixel 1 1 = sampleResponse.pixel 1 1) ∧
        ((0 : Int) ≤ 3 →
          (1, 1) ∈ windowFinset sampleResponse.width sampleResponse.height (Int.tdiv 3 2) 1 1)) :=
  ⟨⟨by decide, by decide⟩,
    NonMaxSuppression_spec 3 sampleResponse 2 1 1 (by decide) (by decide)⟩

/-- C2: every image pixel of the output of `NonMaxSuppression` is either `0` or
exactly the input value at the same pixel. -/
theorem NonMaxSuppression_zero_or_input (suppression_size : Int) (src : Image α)
    (threshold : α) (x y : Nat) (hx : x < src.width) (hy : y < src.height) :
    (NonMaxSuppression suppression_size src threshold).pixel x y = 0 ∨
      (NonMaxSuppression suppression_size src threshold).pixel x y = src.pixel x y := by
  by_cases ht : src.pixel x y < threshold
  · exact Or.inl (NonMaxSuppression_of_lt suppression_size src threshold hx hy ht)
  · by_cases hex : exceededInWindow src (Int.tdiv suppression_size 2) x y
    · exact Or.inl (NonMaxSuppression_of_exceeded suppression_size src threshold hx hy ht hex)
    · exact Or.inr
        (NonMaxSuppression_of_not_exceeded suppression_size src threshold hx hy ht hex)

/-- Witness for C2: the corner pixel `(2, 2)` of `sampleResponse`, default
window size 9, threshold 2. -/
theorem NonMaxSuppression_zero_or_input_witness :
    (2 < sampleResponse.width ∧ 2 < sampleResponse.height) ∧
      ((NonMaxSuppression 9 sampleResponse 2).pixel 2 2 = 0 ∨
        (NonMaxSuppression 9 sampleResponse 2).pixel 2 2 = sampleResponse.pixel 2 2) :=
  ⟨⟨by decide, by decide⟩,
    NonMaxSuppression_zero_or_input 9 sampleResponse 2 2 2 (by decide) (by decide)⟩

/-- A second suppression pass with a non-negative threshold changes no pixel. -/
theorem NonMaxSuppression_twice_pixel (n : Int) (r : Image α) (t : α) (ht : 0 ≤ t)
    {x y : Nat} (hx : x < r.width) (hy : y < r.height) :
    (NonMaxSuppression n (NonMaxSuppression n r t) t).pixel x y
      = (NonMaxSuppression n r t).pixel x y := by
  have hx' : x < (NonMaxSuppression n r t).width := hx
  have hy' : y < (NonMaxSuppression n r t).height := hy
  -- the second pass yields `0` or the value of the first pass
  have hsecond : (NonMaxSuppression n (NonMaxSuppression n r t) t).pixel x y = 0 ∨
      (NonMaxSuppression n (NonMaxSuppression n r t) t).pixel x y
        = (NonMaxSuppression n r t).pixel x y := by
    by_cases h1 : (NonMaxSuppression n r t).pixel x y < t
    · exact Or.inl (NonMaxSuppression_of_lt n _ t hx' hy' h1)
    · by_cases h2 : exceededInWindow (NonMaxSuppression n r t) (Int.tdiv n 2) x y
      · exact Or.inl (NonMaxSuppression_of_exceeded n _ t hx' hy' h1 h2)
      · exact Or.inr (NonMaxSuppression_of_not_exceeded n _ t hx' hy' h1 h2)
  by_cases hlt : r.pixel x y < t
  · -- below the threshold: the first pass gives `0`
    have h0 := NonMaxSuppression_of_lt n r t hx hy hlt
    rcases hsecond with h | h
    · rw [h, h0]
    · exact h
  · by_cases hex : exceededInWindow r (Int.tdiv n 2) x y
    · -- suppressed by a neighbour: the first pass gives `0`
      have h0 := NonMaxSuppression_of_exceeded n r t hx hy hlt hex
      rcases hsecond with h | h
      · rw [h, h0]
      · exact h
    · -- a local maximum: the first pass keeps the value, and so does the second
      have hkeep := NonMaxSuppression_of_not_exceeded n r t hx hy hlt hex
      have hv : 0 ≤ r.pixel x y := le_trans ht (not_lt.1 hlt)
      have h1 : ¬ (NonMaxSuppression n r t).pixel x y < t := by rw [hkeep]; exact hlt
      have h2 : ¬ exceededInWindow (NonMaxSuppression n r t) (Int.tdiv n 2) x y := by
        intro hs
        obtain ⟨qx, qy, ⟨hqx, hqy⟩, hwin, hgt⟩ := (exceededInWindow_def _ _ x y).1 hs
        have hqx' : qx < r.width := hqx
        have hqy' : qy < r.height := hqy
        rw [hkeep] at hgt
        by_cases hq1 : r.pixel qx qy < t
        · rw [NonMaxSuppression_of_lt n r t hqx' hqy' hq1] at hgt
          exact absurd hgt (not_lt.2 hv)
        · by_cases hq2 : exceededInWindow r (Int.tdiv n 2) qx qy
          · rw [NonMaxSuppression_of_exceeded n r t hqx' hqy' hq1 hq2] at hgt
            exact absurd hgt (not_lt.2 hv)
          · rw [NonMaxSuppression_of_not_exceeded n r t hqx' hqy' hq1 hq2] at hgt
            exact hex ((exceededInWindow_def r _ x y).2 ⟨qx, qy, ⟨hqx', hqy'⟩, hwin, hgt⟩)
      exact NonMaxSuppression_of_not_exceeded n _ t hx' hy' h1 h2

/-- C9 fails as stated: on the `2 × 1` response `[-1, -2]` with the threshold
`-10` and the default window size 9, the first pass gives `[-1, 0]` and the
second pass gives `[0, 0]`, so the pixel `(0, 0)` changes from `-1` to `0`. -/
theorem NonMaxSuppression_not_idempotent :
    (0 < negativeResponse.width ∧ 0 < negativeResponse.height) ∧
      (NonMaxSuppression 9 negativeResponse (-10)).pixel 0 0 = -1 ∧
      (NonMaxSuppression 9 (NonMaxSuppression 9 negativeResponse (-10)) (-10)).pixel 0 0 = 0 ∧
      (NonMaxSuppression 9 (NonMaxSuppression 9 negativeResponse (-10)) (-10)).pixel 0 0
        ≠ (NonMaxSuppression 9 negativeResponse (-10)).pixel 0 0 := by
  decide

/-- C9 (amended): for every response image `r`, every suppression window size
and every threshold `t >= 0`, `NonMaxSuppression(NonMaxSuppression(r, t), t)`
equals `NonMaxSuppression(r, t)`: the two images have the same shape and the
same value at every pixel. -/
theorem NonMaxSuppression_idempotent (suppression_size : Int) (r : Image α) (t : α)
    (ht : 0 ≤ t) :
    NonMaxSuppression suppression_size (NonMaxSuppression suppression_size r t) t
      = NonMaxSuppression suppression_size r t := by
  apply Image.ext_pixel
  · rfl
  · rfl
  · intro x y hx hy
    exact NonMaxSuppression_twice_pixel suppression_size r t ht hx hy

/-- Witness for C9 (amended): `sampleResponse` with the threshold 2 and the
default window size 9. -/
theorem NonMaxSuppression_idempotent_witness :
    (0 : ℚ) ≤ 2 ∧
      NonMaxSuppression 9 (NonMaxSuppression 9 sampleResponse 2) 2
        = NonMaxSuppression 9 sampleResponse 2 :=
  ⟨by decide, NonMaxSuppression_idempotent 9 sampleResponse 2 (by decide)⟩

/-- C11: tie-break policy of `NonMaxSuppression`: equal-valued neighbours never
suppress each other.  At a pixel with value `v >= threshold`, if every image
pixel of its window has a value `<= v` (values equal to `v` included), the
output is `v`; so every pixel of a plateau of equal maximal value survives. -/
theorem NonMaxSuppression_ties_survive (suppression_size : Int) (src : Image α)
    (threshold : α) (x y : Nat) (hx : x < src.width) (hy : y < src.height)
    (hv : threshold ≤ src.pixel x y)
    (hle : ∀ q ∈ windowFinset src.width src.height (Int.tdiv suppression_size 2) x y,
      src.pixel q.1 q.2 ≤ src.pixel x y) :
    (NonMaxSuppression suppression_size src threshold).pixel x y = src.pixel x y := by
  apply NonMaxSuppression_of_not_exceeded suppression_size src threshold hx hy (not_lt.2 hv)
  rintro ⟨q, hq, hlt⟩
  exact absurd hlt (not_lt.2 (hle q hq))

/-- Witness for C11: the centre pixel of `sampleResponse` (value 9) with the
window size 3, whose window holds the equal value at `(2, 2)`. -/
theorem NonMaxSuppression_ties_survive_witness :
    (1 < sampleResponse.width ∧ 1 < sampleResponse.height ∧
      (2 : ℚ) ≤ sampleResponse.pixel 1 1 ∧
      (∀ q ∈ windowFinset sampleResponse.width sampleResponse.height (Int.tdiv 3 2) 1 1,
        sampleResponse.pixel q.1 q.2 ≤ sampleResponse.pixel 1 1)) ∧
      (NonMaxSuppression 3 sampleResponse 2).pixel 1 1 = sampleResponse.pixel 1 1 :=
  ⟨⟨by decide, by decide, by decide, by decide⟩,
    NonMaxSuppression_ties_survive 3 sampleResponse 2 1 1 (by decide) (by decide) (by decide)
      (by decide)⟩

/-- A pixel that reaches the threshold and is not exceeded by any pixel of the
image keeps its value. -/
theorem NonMaxSuppression_of_global_max (n : Int) (src : Image α) (threshold : α) {x y : Nat}
    (hx : x < src.width) (hy : y < src.height) (hv : threshold ≤ src.pixel x y)
    (hmax : ∀ w ∈ src.data, w ≤ src.pixel x y) :
    (NonMaxSuppression n src threshold).pixel x y = src.pixel x y := by
  apply NonMaxSuppression_of_not_exceeded n src threshold hx hy (not_lt.2 hv)
  rintro ⟨q, hq, hlt⟩
  obtain ⟨hb, _⟩ := (mem_windowFinset _ _ _ _ _ q).1 hq
  exact absurd hlt (not_lt.2 (hmax _ (src.pixel_mem_data hb.1 hb.2)))

/-- With a non-negative threshold no output pixel is negative. -/
theorem NonMaxSuppression_pixel_nonneg (n : Int) (src : Image α) (threshold : α)
    (ht : 0 ≤ threshold) {x y : Nat} (hx : x < src.width) (hy : y < src.height) :
    0 ≤ (NonMaxSuppression n src threshold).pixel x y := by
  by_cases h1 : src.pixel x y < threshold
  · rw [NonMaxSuppression_of_lt n src threshold hx hy h1]
  · by_cases h2 : exceededInWindow src (Int.tdiv n 2) x y
    · rw [NonMaxSuppression_of_exceeded n src threshold hx hy h1 h2]
    · rw [NonMaxSuppression_of_not_exceeded n src threshold hx hy h1 h2]
      exact le_trans ht (not_lt.1 h1)

end Suppression

/-! ## Tensor algebra -/

section TensorAlgebra

variable {α : Type} [LinearOrderedField α]

theorem Image.window_eq_of_shape {β γ : Type} (a : Image β) (b : Image γ)
    (hw : a.width = b.width) (hh : a.height = b.height) (range : Range) :
    a.window range = b.window range := by
  unfold Image.window Image.coords
  rw [hw, hh]

/-- The windowed reduction over an arbitrary range as three list sums. -/
theorem ReduceRange2_eq_sums (a b : Image α) (range : Range) :
    ReduceRange2 a b range (0 : StructureTensor α) StructureTensor.accumulate
      = ⟨((a.window range).map fun c => a.pixel c.1 c.2 * a.pixel c.1 c.2).sum,
          ((a.window range).map fun c => a.pixel c.1 c.2 * b.pixel c.1 c.2).sum,
          ((a.window range).map fun c => b.pixel c.1 c.2 * b.pixel c.1 c.2).sum⟩ := by
  unfold ReduceRange2
  refine (foldl_accumulate (fun c : Nat × Nat => a.pixel c.1 c.2)
    (fun c : Nat × Nat => b.pixel c.1 c.2) _ _).trans ?_
  show (⟨0 + _, 0 + _, 0 + _⟩ : StructureTensor α) = _
  rw [zero_add, zero_add, zero_add]

/-- C15: symmetry of the tensor accumulation: for every pair of gradient images
`(gx, gy)` of one shape and every window, the `xy` component accumulated from
`(gx, gy)` equals the `xy` component accumulated from `(gy, gx)`, while the
`xx` and `yy` components are exchanged. -/
theorem tensor_accumulation_symmetric (gx gy : Image α) (hw : gx.width = gy.width)
    (hh : gx.height = gy.height) (range : Range) :
    (ReduceRange2 gy gx range (0 : StructureTensor α) StructureTensor.accumulate).xy
        = (ReduceRange2 gx gy range (0 : StructureTensor α) StructureTensor.accumulate).xy ∧
      (ReduceRange2 gy gx range (0 : StructureTensor α) StructureTensor.accumulate).xx
        = (ReduceRange2 gx gy range (0 : StructureTensor α) StructureTensor.accumulate).yy ∧
      (ReduceRange2 gy gx range (0 : StructureTensor α) StructureTensor.accumulate).yy
        = (ReduceRange2 gx gy range (0 : StructureTensor α) StructureTensor.accumulate).xx := by
  rw [ReduceRange2_eq_sums gy gx, ReduceRange2_eq_sums gx gy,
    Image.window_eq_of_shape gy gx hw.symm hh.symm range]
  refine ⟨?_, rfl, rfl⟩
  show ((gx.window range).map fun c => gy.pixel c.1 c.2 * gx.pixel c.1 c.2).sum
    = ((gx.window range).map fun c => gx.pixel c.1 c.2 * gy.pixel c.1 c.2).sum
  congr 1
  exact List.map_congr_left fun c _ => mul_comm _ _

/-- Witness for C15: the gradient images of `sampleDot` under the zero-padding
correlation, with the window of half-width 2 around `(2, 2)`. -/
theorem tensor_accumulation_symmetric_witness :
    ((modelFilter2d .zeroPad false sampleDot sampleDiffX).width
          = (modelFilter2d .zeroPad false sampleDot sampleDiffY).width ∧
        (modelFilter2d .zeroPad false sampleDot sampleDiffX).height
          = (modelFilter2d .zeroPad false sampleDot sampleDiffY).height) ∧
      ((ReduceRange2 (modelFilter2d .zeroPad false sampleDot sampleDiffY)
            (modelFilter2d .zeroPad false sampleDot sampleDiffX) ⟨0, 0, 4, 4⟩
            (0 : StructureTensor ℚ) StructureTensor.accumulate).xy
          = (ReduceRange2 (modelFilter2d .zeroPad false sampleDot sampleDiffX)
            (modelFilter2d .zeroPad false sampleDot sampleDiffY) ⟨0, 0, 4, 4⟩
            (0 : StructureTensor ℚ) StructureTensor.accumulate).xy ∧
        (ReduceRange2 (modelFilter2d .zeroPad false sampleDot sampleDiffY)
            (modelFilter2d .zeroPad false sampleDot sampleDiffX) ⟨0, 0, 4, 4⟩
            (0 : StructureTensor ℚ) StructureTensor.accumulate).xx
          = (ReduceRange2 (modelFilter2d .zeroPad false sampleDot sampleDiffX)
            (modelFilter2d .zeroPad false sampleDot sampleDiffY) ⟨0, 0, 4, 4⟩
            (0 : StructureTensor ℚ) StructureTensor.accumulate).yy ∧
        (ReduceRange2 (modelFilter2d .zeroPad false sampleDot sampleDiffY)
            (modelFilter2d .zeroPad false sampleDot sampleDiffX) ⟨0, 0, 4, 4⟩
            (0 : StructureTensor ℚ) StructureTensor.accumulate).yy
          = (ReduceRange2 (modelFilter2d .zeroPad false sampleDot sampleDiffX)
            (modelFilter2d .zeroPad false sampleDot sampleDiffY) ⟨0, 0, 4, 4⟩
            (0 : StructureTensor ℚ) StructureTensor.accumulate).xx) :=
  ⟨⟨rfl, rfl⟩,
    tensor_accumulation_symmetric (modelFilter2d .zeroPad false sampleDot sampleDiffX)
      (modelFilter2d .zeroPad false sampleDot sampleDiffY) rfl rfl ⟨0, 0, 4, 4⟩⟩

/-- The score of a positive semidefinite tensor is at most a quarter of the
squared trace minus `k` times the squared trace. -/
theorem harrisScore_le_of_psd (k : α) (s : StructureTensor α) :
    harrisScore k s ≤ (1 / 4 - k) * (s.xx + s.yy) ^ 2 := by
  unfold harrisScore
  nlinarith [sq_nonneg (s.xx - s.yy), sq_nonneg s.xy]

/-- With exact products and sums every tensor produced by
`StructureTensorImage` is positive semidefinite: `xx >= 0`, `yy >= 0` and
`xx·yy >= xy²` (Cauchy-Schwarz over the window), so its Harris score is at most
`(1/4 - k)·(xx + yy)²`. -/
theorem StructureTensorImage_psd (Filter2d : Image α → FilterKernel α → Image α)
    (gaussian_kernel diff_x diff_y : FilterKernel α) (structure_size : Int) (src : Image α)
    (k : α) (s : StructureTensor α)
    (hs : s ∈ (StructureTensorImage Filter2d gaussian_kernel diff_x diff_y structure_size
      src).data) :
    0 ≤ s.xx ∧ 0 ≤ s.yy ∧ s.xy ^ 2 ≤ s.xx * s.yy ∧
      harrisScore k s ≤ (1 / 4 - k) * (s.xx + s.yy) ^ 2 := by
  obtain ⟨x, y, hx, hy, rfl⟩ := Image.exists_pixel_of_mem _ hs
  have hx' : x < (Filter2d (Filter2d src gaussian_kernel) diff_x).width := hx
  have hy' : y < (Filter2d (Filter2d src gaussian_kernel) diff_x).height := hy
  refine ⟨?_, ?_, ?_, harrisScore_le_of_psd k _⟩
  · rw [pixel_StructureTensorImage Filter2d _ _ _ _ src hx' hy', ReduceRange2_accumulate]
    exact Finset.sum_nonneg fun q _ => mul_self_nonneg _
  · rw [pixel_StructureTensorImage Filter2d _ _ _ _ src hx' hy', ReduceRange2_accumulate]
    exact Finset.sum_nonneg fun q _ => mul_self_nonneg _
  · rw [pixel_StructureTensorImage Filter2d _ _ _ _ src hx' hy', ReduceRange2_accumulate]
    simp only [← pow_two]
    exact Finset.sum_mul_sq_le_sq_mul_sq _ _ _

end TensorAlgebra

/-! ## The pipeline of `FindCorners` -/

section Pipeline

variable {α : Type} [LinearOrderedField α]

theorem modelFilter2d_preservesShape (policy : BorderPolicy) (flip : Bool) :
    PreservesShape (modelFilter2d policy flip : Image α → FilterKernel α → Image α) :=
  fun _ _ => ⟨rfl, rfl⟩

theorem identityFilter_preservesShape : PreservesShape identityFilter :=
  fun _ _ => ⟨rfl, rfl⟩

/-- C13: when `Filter2d` keeps the shape of its input, as its contract says,
`StructureTensorImage` returns, for every input image (in particular for every
width `w >= 1` and height `h >= 1`), an image of exactly the width and the
height of the input, holding `w·h` tensors, and so does `FindCorners`. -/
theorem StructureTensorImage_shape (Filter2d : Image α → FilterKernel α → Image α)
    (hshape : PreservesShape Filter2d) (gaussian_kernel diff_x diff_y : FilterKernel α)
    (structure_size : Int) (src : Image α) :
    ((StructureTensorImage Filter2d gaussian_kernel diff_x diff_y structure_size src).width
          = src.width ∧
        (StructureTensorImage Filter2d gaussian_kernel diff_x diff_y structure_size src).height
          = src.height ∧
        (StructureTensorImage Filter2d gaussian_kernel diff_x diff_y structure_size
            src).data.length
          = src.width * src.height) ∧
      ∀ self : HarrisCpp α,
        (FindCorners self Filter2d src).width = src.width ∧
          (FindCorners self Filter2d src).height = src.height := by
  have hw : ∀ kernel1 kernel2 : FilterKernel α,
      (Filter2d (Filter2d src kernel1) kernel2).width = src.width := fun kernel1 kernel2 => by
    rw [(hshape _ _).1, (hshape _ _).1]
  have hh : ∀ kernel1 kernel2 : FilterKernel α,
      (Filter2d (Filter2d src kernel1) kernel2).height = src.height := fun kernel1 kernel2 => by
    rw [(hshape _ _).2, (hshape _ _).2]
  have h1 : (StructureTensorImage Filter2d gaussian_kernel diff_x diff_y structure_size
      src).width = src.width := hw gaussian_kernel diff_x
  have h2 : (StructureTensorImage Filter2d gaussian_kernel diff_x diff_y structure_size
      src).height = src.height := hh gaussian_kernel diff_x
  refine ⟨⟨h1, h2, ?_⟩, fun self => ⟨hw self.gaussian_kernel_ self.diff_x_,
    hh self.gaussian_kernel_ self.diff_x_⟩⟩
  rw [Image.size_eq, h1, h2]

/-- Witness for C13: the zero-padding correlation on `sampleDot`. -/
theorem StructureTensorImage_shape_witness :
    PreservesShape (modelFilter2d .zeroPad false : Image ℚ → FilterKernel ℚ → Image ℚ) ∧
      (((StructureTensorImage (modelFilter2d .zeroPad false) sampleSmooth sampleDiffX
              sampleDiffY 5 sampleDot).width = sampleDot.width ∧
          (StructureTensorImage (modelFilter2d .zeroPad false) sampleSmooth sampleDiffX
              sampleDiffY 5 sampleDot).height = sampleDot.height ∧
          (StructureTensorImage (modelFilter2d .zeroPad false) sampleSmooth sampleDiffX
              sampleDiffY 5 sampleDot).data.length = sampleDot.width * sampleDot.height) ∧
        ∀ self : HarrisCpp ℚ,
          (FindCorners self (modelFilter2d .zeroPad false) sampleDot).width = sampleDot.width ∧
            (FindCorners self (modelFilter2d .zeroPad false) sampleDot).height
              = sampleDot.height) :=
  ⟨modelFilter2d_preservesShape .zeroPad false,
    StructureTensorImage_shape (modelFilter2d .zeroPad false)
      (modelFilter2d_preservesShape .zeroPad false) sampleSmooth sampleDiffX sampleDiffY 5
      sampleDot⟩

theorem maxResponse_nonneg (r : Image α) : 0 ≤ maxResponse r :=
  foldl_max_ge_init r.data 0

theorem le_maxResponse (r : Image α) {v : α} (hv : v ∈ r.data) : v ≤ maxResponse r :=
  foldl_max_ge_mem r.data 0 v hv

theorem maxResponse_eq_zero_of_neg (r : Image α) (hneg : ∀ v ∈ r.data, v < 0) :
    maxResponse r = 0 := by
  rcases foldl_max_attained r.data 0 with h | h
  · exact h
  · exact absurd (hneg _ h) (not_lt.2 (maxResponse_nonneg r))

/-- C14 fails as stated: with the identity filter the response of
`sampleResponse` is negative at every pixel and the threshold is `0`, but every
pixel is below it: the below-threshold test fires at the centre pixel and sets
it to `0`. -/
theorem threshold_test_not_disabled :
    (∀ v ∈ (responseImage sampleDetector identityFilter sampleResponse).data, v < 0) ∧
      maxResponse (responseImage sampleDetector identityFilter sampleResponse)
          * sampleDetector.threshold_ratio_ = 0 ∧
      (1 < (responseImage sampleDetector identityFilter sampleResponse).width ∧
        1 < (responseImage sampleDetector identityFilter sampleResponse).height) ∧
      (responseImage sampleDetector identityFilter sampleResponse).pixel 1 1
        < maxResponse (responseImage sampleDetector identityFilter sampleResponse)
            * sampleDetector.threshold_ratio_ ∧
      (responseImage sampleDetector identityFilter sampleResponse).pixel 1 1 ≠ 0 ∧
      (FindCorners sampleDetector identityFilter sampleResponse).pixel 1 1 = 0 := by
  decide!

/-- C14 (amended): when every pixel of the response image is negative, the
adaptive threshold computed by `FindCorners` (`threshold_ratio × global max`) is
`0` and every pixel is below it: the below-threshold test of
`NonMaxSuppression` sets every pixel to `0`, so the corner map is `0`
everywhere. -/
theorem FindCorners_all_negative (self : HarrisCpp α)
    (Filter2d : Image α → FilterKernel α → Image α) (image : Image α)
    (hneg : ∀ v ∈ (responseImage self Filter2d image).data, v < 0) :
    maxResponse (responseImage self Filter2d image) * self.threshold_ratio_ = 0 ∧
      ∀ x y, x < (responseImage self Filter2d image).width →
        y < (responseImage self Filter2d image).height →
        (responseImage self Filter2d image).pixel x y
            < maxResponse (responseImage self Filter2d image) * self.threshold_ratio_ ∧
          (FindCorners self Filter2d image).pixel x y = 0 := by
  have hthr : maxResponse (responseImage self Filter2d image) * self.threshold_ratio_ = 0 := by
    rw [maxResponse_eq_zero_of_neg _ hneg, zero_mul]
  refine ⟨hthr, fun x y hx hy => ?_⟩
  have hlt : (responseImage self Filter2d image).pixel x y
      < maxResponse (responseImage self Filter2d image) * self.threshold_ratio_ := by
    rw [hthr]
    exact hneg _ (Image.pixel_mem_data _ hx hy)
  exact ⟨hlt, by rw [FindCorners_eq]; exact NonMaxSuppression_of_lt _ _ _ hx hy hlt⟩

/-- Witness for C14 (amended): the all-negative response of `sampleResponse`
under the identity filter. -/
theorem FindCorners_all_negative_witness :
    (∀ v ∈ (responseImage sampleDetector identityFilter sampleResponse).data, v < 0) ∧
      (maxResponse (responseImage sampleDetector identityFilter sampleResponse)
            * sampleDetector.threshold_ratio_ = 0 ∧
        ∀ x y, x < (responseImage sampleDetector identityFilter sampleResponse).width →
          y < (responseImage sampleDetector identityFilter sampleResponse).height →
          (responseImage sampleDetector identityFilter sampleResponse).pixel x y
              < maxResponse (responseImage sampleDetector identityFilter sampleResponse)
                  * sampleDetector.threshold_ratio_ ∧
            (FindCorners sampleDetector identityFilter sampleResponse).pixel x y = 0) :=
  ⟨by decide!, FindCorners_all_negative sampleDetector identityFilter sampleResponse (by decide!)⟩

/-- C18: the global maximum always survives: when the Harris response has a
strictly positive pixel and `threshold_ratio <= 1`, the output of `FindCorners`
at every pixel attaining the maximum response equals that maximum; such a pixel
exists and the maximum is positive, so the corner map is not all zero. -/
theorem FindCorners_global_max_survives (self : HarrisCpp α)
    (Filter2d : Image α → FilterKernel α → Image α) (image : Image α)
    (hpos : ∃ v ∈ (responseImage self Filter2d image).data, 0 < v)
    (hratio : self.threshold_ratio_ ≤ 1) :
    (∀ x y, x < (responseImage self Filter2d image).width →
        y < (responseImage self Filter2d image).height →
        (responseImage self Filter2d image).pixel x y
            = maxResponse (responseImage self Filter2d image) →
          (FindCorners self Filter2d image).pixel x y
            = maxResponse (responseImage self Filter2d image)) ∧
      (∃ x y, x < (responseImage self Filter2d image).width ∧
        y < (responseImage self Filter2d image).height ∧
        (responseImage self Filter2d image).pixel x y
          = maxResponse (responseImage self Filter2d image)) ∧
      0 < maxResponse (responseImage self Filter2d image) ∧
      ∃ v ∈ (FindCorners self Filter2d image).data, v ≠ 0 := by
  obtain ⟨v, hv, hv0⟩ := hpos
  have hmpos : 0 < maxResponse (responseImage self Filter2d image) :=
    lt_of_lt_of_le hv0 (le_maxResponse _ hv)
  have hthr : maxResponse (responseImage self Filter2d image) * self.threshold_ratio_
      ≤ maxResponse (responseImage self Filter2d image) := by
    calc maxResponse (responseImage self Filter2d image) * self.threshold_ratio_
        ≤ maxResponse (responseImage self Filter2d image) * 1 :=
          mul_le_mul_of_nonneg_left hratio (le_of_lt hmpos)
      _ = maxResponse (responseImage self Filter2d image) := mul_one _
  have hsurv : ∀ x y, x < (responseImage self Filter2d image).width →
      y < (responseImage self Filter2d image).height →
      (responseImage self Filter2d image).pixel x y
          = maxResponse (responseImage self Filter2d image) →
        (FindCorners self Filter2d image).pixel x y
          = maxResponse (responseImage self Filter2d image) := by
    intro x y hx hy hxy
    rw [FindCorners_eq, NonMaxSuppression_of_global_max _ _ _ hx hy, hxy]
    · rw [hxy]; exact hthr
    · intro w hw
      rw [hxy]
      exact le_maxResponse _ hw
  have hmem : maxResponse (responseImage self Filter2d image)
      ∈ (responseImage self Filter2d image).data := by
    rcases foldl_max_attained (responseImage self Filter2d image).data 0 with h | h
    · exact absurd h (ne_of_gt hmpos)
    · exact h
  obtain ⟨x, y, hx, hy, hxy⟩ := Image.exists_pixel_of_mem _ hmem
  refine ⟨hsurv, ⟨x, y, hx, hy, hxy⟩, hmpos, ?_⟩
  refine ⟨(FindCorners self Filter2d image).pixel x y,
    Image.pixel_mem_data _ (show x < (FindCorners self Filter2d image).width from hx)
      (show y < (FindCorners self Filter2d image).height from hy), ?_⟩
  rw [hsurv x y hx hy hxy]
  exact ne_of_gt hmpos

/-- Witness for C18: `sampleDot` under the zero-padding correlation, whose
response is positive, with the threshold ratio `1/2`. -/
theorem FindCorners_global_max_survives_witness :
    ((∃ v ∈ (responseImage sampleDetector (modelFilter2d .zeroPad false) sampleDot).data,
          0 < v) ∧
        sampleDetector.threshold_ratio_ ≤ 1) ∧
      ∃ v ∈ (FindCorners sampleDetector (modelFilter2d .zeroPad false) sampleDot).data, v ≠ 0 :=
  ⟨⟨by decide!, by decide!⟩,
    (FindCorners_global_max_survives sampleDetector (modelFilter2d .zeroPad false) sampleDot
      (by decide!) (by decide!)).2.2.2⟩

/-- In exact arithmetic, for every input image and every `threshold_ratio >= 0`,
every pixel of the output of `FindCorners` is `>= 0`: the global maximum is
seeded at `0`, so the threshold is non-negative and every negative response
pixel is zeroed. -/
theorem FindCorners_nonneg (self : HarrisCpp α)
    (Filter2d : Image α → FilterKernel α → Image α) (image : Image α)
    (hratio : 0 ≤ self.threshold_ratio_) :
    0 ≤ maxResponse (responseImage self Filter2d image) * self.threshold_ratio_ ∧
      (∀ v ∈ (FindCorners self Filter2d image).data, 0 ≤ v) ∧
      ∀ x y, x < (responseImage self Filter2d image).width →
        y < (responseImage self Filter2d image).height →
        (responseImage self Filter2d image).pixel x y < 0 →
          (FindCorners self Filter2d image).pixel x y = 0 := by
  have hthr : 0 ≤ maxResponse (responseImage self Filter2d image) * self.threshold_ratio_ :=
    mul_nonneg (maxResponse_nonneg _) hratio
  refine ⟨hthr, fun v hv => ?_, fun x y hx hy hneg => ?_⟩
  · obtain ⟨x, y, hx, hy, rfl⟩ := Image.exists_pixel_of_mem _ hv
    rw [FindCorners_eq]
    exact NonMaxSuppression_pixel_nonneg _ _ _ hthr hx hy
  · rw [FindCorners_eq]
    exact NonMaxSuppression_of_lt _ _ _ hx hy (lt_of_lt_of_le hneg hthr)

theorem tdiv_even_eq_tdiv_succ (n : Nat) :
    Int.tdiv (2 * (n : Int)) 2 = Int.tdiv (2 * (n : Int) + 1) 2 := by
  rw [Int.tdiv_eq_ediv (by omega) (by decide!), Int.tdiv_eq_ediv (by omega) (by decide!)]
  omega

/-- C20: window sizes are used only through integer halving and are not
validated: for every `n >= 0`, `StructureTensorImage` with `structure_size = 2n`
gives the same image as with `2n + 1`, and `NonMaxSuppression` with
`suppression_size = 2n` the same image as with `2n + 1`, for every input and
threshold; an even `smoothing_size = 2n` is rejected by `GaussianKernel`. -/
theorem window_size_halving (n : Nat) :
    (∀ (Filter2d : Image α → FilterKernel α → Image α)
        (gaussian_kernel diff_x diff_y : FilterKernel α) (src : Image α),
        StructureTensorImage Filter2d gaussian_kernel diff_x diff_y (2 * (n : Int)) src
          = StructureTensorImage Filter2d gaussian_kernel diff_x diff_y (2 * (n : Int) + 1)
              src) ∧
      (∀ (src : Image α) (threshold : α),
        NonMaxSuppression (2 * (n : Int)) src threshold
          = NonMaxSuppression (2 * (n : Int) + 1) src threshold) ∧
      (∀ (exp : α → α) (sigma : α),
        ∃ what, GaussianKernel exp sigma (2 * (n : Int)) = .error (.invalid_argument what)) := by
  refine ⟨fun Filter2d gaussian_kernel diff_x diff_y src => ?_, fun src threshold => ?_,
    fun exp sigma => ?_⟩
  · unfold StructureTensorImage
    rw [tdiv_even_eq_tdiv_succ n]
  · unfold NonMaxSuppression
    rw [tdiv_even_eq_tdiv_succ n]
  · exact (GaussianKernel_error_iff exp sigma _).2 (Or.inr ⟨n, by ring⟩)

/-! ### Flat images and the border policy -/

theorem read_clamp_flat (img : Image α) (c : α) (hflat : img.IsFlat c) (hw : 0 < img.width)
    (hh : 0 < img.height) (X Y : Int) : img.read .clampToEdge X Y = c := by
  unfold Image.read
  simp only
  apply hflat
  · omega
  · omega

/-- Under the clamp-to-edge policy a filtered flat image is flat. -/
theorem filter_clamp_flat (flip : Bool) (src : Image α) (c : α) (hflat : src.IsFlat c)
    (hw : 0 < src.width) (hh : 0 < src.height) (K : FilterKernel α) :
    (modelFilter2d .clampToEdge flip src K).IsFlat
      (K.entries.foldl
        (fun acc e => acc + K.values.getD (e.2 * K.width.toNat + e.1) 0 * c) 0) := by
  intro x y hx hy
  have hx' : x < src.width := hx
  have hy' : y < src.height := hy
  unfold modelFilter2d Image.pixel
  rw [src.coords_getD hx' hy']
  simp only [read_clamp_flat src c hflat hw hh, ite_self]

/-- Under the clamp-to-edge policy both gradient images of a flat image vanish,
so the response of a flat image is `0` at every pixel. -/
theorem response_flat_clamp (self : HarrisCpp α) (flip : Bool) (image : Image α) (c : α)
    (hdx : self.diff_x_ = ⟨3, 1, [1, 0, -1]⟩) (hdy : self.diff_y_ = ⟨1, 3, [1, 0, -1]⟩)
    (hflat : image.IsFlat c) (hw : 0 < image.width) (hh : 0 < image.height)
    {x y : Nat} (hx : x < image.width) (hy : y < image.height) :
    (responseImage self (modelFilter2d .clampToEdge flip) image).pixel x y = 0 := by
  have hsm := filter_clamp_flat flip image c hflat hw hh self.gaussian_kernel_
  have hgx := filter_clamp_flat flip _ _ hsm hw hh self.diff_x_
  have hgy := filter_clamp_flat flip _ _ hsm hw hh self.diff_y_
  have hzx : ∀ d : α, (self.diff_x_.entries.foldl
      (fun acc e => acc + self.diff_x_.values.getD (e.2 * self.diff_x_.width.toNat + e.1) 0 * d)
      0) = 0 := by
    intro d
    rw [hdx]
    simp [FilterKernel.entries, List.range_succ]
  have hzy : ∀ d : α, (self.diff_y_.entries.foldl
      (fun acc e => acc + self.diff_y_.values.getD (e.2 * self.diff_y_.width.toNat + e.1) 0 * d)
      0) = 0 := by
    intro d
    rw [hdy]
    simp [FilterKernel.entries, List.range_succ]
  rw [hzx] at hgx
  rw [hzy] at hgy
  exact responseImage_zero_of_zero_gradients self (modelFilter2d .clampToEdge flip) image
    (fun qx qy hqx hqy => hgx qx qy hqx hqy) (fun qx qy hqx hqy => hgy qx qy hqx hqy) hx hy

/-- Under the zero-padding policy the response of a flat image need not
vanish: on the flat `2 × 1` image of value `1` the border gradients are `-1`
and `1`, and the response at `(0, 0)` is `-4/25`. -/
theorem response_flat_zeroPad :
    flatPair.IsFlat 1 ∧
      (responseImage sampleDetector (modelFilter2d .zeroPad false) flatPair).pixel 0 0
        = -4 / 25 := by
  constructor
  · intro x y hx hy
    have hx' : x < 2 := hx
    have hy' : y < 1 := hy
    interval_cases x <;> interval_cases y <;> rfl
  · decide!

end Pipeline

/-! ## Soundness of the interval arithmetic -/

section IntervalSoundness

theorem Ival.scale_pos : (0 : ℝ) < (Ival.scale : ℝ) := by
  norm_num [Ival.scale]

theorem approx_zero : approx 0 0 := by
  constructor <;> simp [show (0 : Ival).lo = 0 from rfl, show (0 : Ival).hi = 0 from rfl]

theorem approx_ofInt (n : Int) : approx (n : ℝ) (Ival.ofInt n) := by
  constructor <;> simp [Ival.ofInt]

theorem approx_add {x y : ℝ} {I J : Ival} (hx : approx x I) (hy : approx y J) :
    approx (x + y) (I + J) := by
  obtain ⟨h1, h2⟩ := hx
  obtain ⟨h3, h4⟩ := hy
  have hlo : ((I + J).lo : ℝ) = (I.lo : ℝ) + (J.lo : ℝ) := by
    rw [show (I + J).lo = I.lo + J.lo from rfl, Int.cast_add]
  have hhi : ((I + J).hi : ℝ) = (I.hi : ℝ) + (J.hi : ℝ) := by
    rw [show (I + J).hi = I.hi + J.hi from rfl, Int.cast_add]
  constructor
  · rw [hlo, add_mul]; exact add_le_add h1 h3
  · rw [hhi, add_mul]; exact add_le_add h2 h4

theorem approx_sub {x y : ℝ} {I J : Ival} (hx : approx x I) (hy : approx y J) :
    approx (x - y) (I - J) := by
  obtain ⟨h1, h2⟩ := hx
  obtain ⟨h3, h4⟩ := hy
  have hlo : ((I - J).lo : ℝ) = (I.lo : ℝ) - (J.hi : ℝ) := by
    rw [show (I - J).lo = I.lo - J.hi from rfl, Int.cast_sub]
  have hhi : ((I - J).hi : ℝ) = (I.hi : ℝ) - (J.lo : ℝ) := by
    rw [show (I - J).hi = I.hi - J.lo from rfl, Int.cast_sub]
  constructor
  · rw [hlo, sub_mul]; exact sub_le_sub h1 h4
  · rw [hhi, sub_mul]; exact sub_le_sub h2 h3

/-- A product of two bounded reals lies between the smallest and the largest
product of the bounds. -/
theorem mul_bounds {a b c d X Y : ℝ} (h1 : a ≤ X) (h2 : X ≤ b) (h3 : c ≤ Y) (h4 : Y ≤ d) :
    min (min (a * c) (a * d)) (min (b * c) (b * d)) ≤ X * Y ∧
      X * Y ≤ max (max (a * c) (a * d)) (max (b * c) (b * d)) := by
  constructor
  · rcases le_total 0 Y with hY | hY
    · have hXY : a * Y ≤ X * Y := mul_le_mul_of_nonneg_right h1 hY
      rcases le_total 0 a with ha | ha
      · exact le_trans (le_trans (min_le_left _ _) (min_le_left _ _))
          (le_trans (mul_le_mul_of_nonneg_left h3 ha) hXY)
      · exact le_trans (le_trans (min_le_left _ _) (min_le_right _ _))
          (le_trans (mul_le_mul_of_nonpos_left h4 ha) hXY)
    · have hXY : b * Y ≤ X * Y := mul_le_mul_of_nonpos_right h2 hY
      rcases le_total 0 b with hb | hb
      · exact le_trans (le_trans (min_le_right _ _) (min_le_left _ _))
          (le_trans (mul_le_mul_of_nonneg_left h3 hb) hXY)
      · exact le_trans (le_trans (min_le_right _ _) (min_le_right _ _))
          (le_trans (mul_le_mul_of_nonpos_left h4 hb) hXY)
  · rcases le_total 0 Y with hY | hY
    · have hXY : X * Y ≤ b * Y := mul_le_mul_of_nonneg_right h2 hY
      rcases le_total 0 b with hb | hb
      · exact le_trans (le_trans hXY (mul_le_mul_of_nonneg_left h4 hb))
          (le_trans (le_max_right _ _) (le_max_right _ _))
      · exact le_trans (le_trans hXY (mul_le_mul_of_nonpos_left h3 hb))
          (le_trans (le_max_left _ _) (le_max_right _ _))
    · have hXY : X * Y ≤ a * Y := mul_le_mul_of_nonpos_right h1 hY
      rcases le_total 0 a with ha | ha
      · exact le_trans (le_trans hXY (mul_le_mul_of_nonneg_left h4 ha))
          (le_trans (le_max_right _ _) (le_max_left _ _))
      · exact le_trans (le_trans hXY (mul_le_mul_of_nonpos_left h3 ha))
          (le_trans (le_max_left _ _) (le_max_left _ _))

theorem approx_mulRound {x y : ℝ} {I J : Ival} (hx : approx x I) (hy : approx y J) :
    approx (x * y) (Ival.mulRound I J) := by
  obtain ⟨h1, h2⟩ := hx
  obtain ⟨h3, h4⟩ := hy
  obtain ⟨hmin, hmax⟩ := mul_bounds h1 h2 h3 h4
  have hs := Ival.scale_pos
  have hne : Ival.scale ≠ 0 := by decide
  have hprod : x * (Ival.scale : ℝ) * (y * (Ival.scale : ℝ))
      = x * y * (Ival.scale : ℝ) * (Ival.scale : ℝ) := by ring
  rw [hprod] at hmin hmax
  constructor
  · have hfloor := Int.ediv_mul_le
      (min (min (I.lo * J.lo) (I.lo * J.hi)) (min (I.hi * J.lo) (I.hi * J.hi))) hne
    have hcast : (((Ival.mulRound I J).lo : Int) : ℝ) * (Ival.scale : ℝ)
        ≤ min (min ((I.lo : ℝ) * J.lo) ((I.lo : ℝ) * J.hi))
            (min ((I.hi : ℝ) * J.lo) ((I.hi : ℝ) * J.hi)) := by
      have := (Int.cast_le (R := ℝ)).2 hfloor
      simpa only [Int.cast_mul, Int.cast_min] using this
    exact le_of_mul_le_mul_right (le_trans hcast hmin) hs
  · have hfloor := Int.ediv_mul_le
      (-(max (max (I.lo * J.lo) (I.lo * J.hi)) (max (I.hi * J.lo) (I.hi * J.hi)))) hne
    have hcast : max (max ((I.lo : ℝ) * J.lo) ((I.lo : ℝ) * J.hi))
          (max ((I.hi : ℝ) * J.lo) ((I.hi : ℝ) * J.hi))
        ≤ (((Ival.mulRound I J).hi : Int) : ℝ) * (Ival.scale : ℝ) := by
      have := (Int.cast_le (R := ℝ)).2 hfloor
      have hhi : (((Ival.mulRound I J).hi : Int) : ℝ)
          = -(((-(max (max (I.lo * J.lo) (I.lo * J.hi)) (max (I.hi * J.lo) (I.hi * J.hi)))
              / Ival.scale : Int)) : ℝ) := by
        rw [show (Ival.mulRound I J).hi = -(-(max (max (I.lo * J.lo) (I.lo * J.hi))
          (max (I.hi * J.lo) (I.hi * J.hi))) / Ival.scale) from rfl, Int.cast_neg]
      rw [hhi]
      simp only [Int.cast_mul, Int.cast_max, Int.cast_neg] at this
      linarith
    exact le_of_mul_le_mul_right (le_trans hmax hcast) hs

/-- A real that lies in the interval `[0, 0]` is `0`. -/
theorem eq_zero_of_approx {x : ℝ} {I : Ival} (hx : approx x I) (h : I.lo = 0 ∧ I.hi = 0) :
    x = 0 := by
  obtain ⟨h1, h2⟩ := hx
  rw [h.1, Int.cast_zero] at h1
  rw [h.2, Int.cast_zero] at h2
  have hs := Ival.scale_pos
  have h0 : x * (Ival.scale : ℝ) = 0 := le_antisymm h2 h1
  rcases mul_eq_zero.1 h0 with h | h
  · exact h
  · exact absurd h (ne_of_gt hs)

theorem approx_mul {x y : ℝ} {I J : Ival} (hx : approx x I) (hy : approx y J) :
    approx (x * y) (I * J) := by
  have hdef : I * J = if J.lo = 0 ∧ J.hi = 0 then 0
      else if I.lo = 0 ∧ I.hi = 0 then 0 else Ival.mulRound I J := rfl
  rw [hdef]
  by_cases hJ : J.lo = 0 ∧ J.hi = 0
  · rw [if_pos hJ, eq_zero_of_approx hy hJ, mul_zero]
    exact approx_zero
  · rw [if_neg hJ]
    by_cases hI : I.lo = 0 ∧ I.hi = 0
    · rw [if_pos hI, eq_zero_of_approx hx hI, zero_mul]
      exact approx_zero
    · rw [if_neg hI]
      exact approx_mulRound hx hy

/-- A fold keeps a relation between its two accumulators when every step does. -/
theorem foldl_rel {γ σ τ : Type} (R : σ → τ → Prop) (f : σ → γ → σ) (g : τ → γ → τ)
    (l : List γ) (s : σ) (t : τ) (h0 : R s t)
    (hstep : ∀ e ∈ l, ∀ s t, R s t → R (f s e) (g t e)) :
    R (l.foldl f s) (l.foldl g t) := by
  induction l generalizing s t with
  | nil => exact h0
  | cons e l ih =>
    rw [List.foldl_cons, List.foldl_cons]
    exact ih _ _ (hstep e (List.mem_cons_self _ _) s t h0)
      fun e' he' => hstep e' (List.mem_cons_of_mem _ he')

theorem Grid.get_tabulate (width height : Nat) (f : Nat → Nat → Ival) {x y : Nat}
    (hx : x < width) (hy : y < height) :
    Grid.get (Grid.tabulate width height f) x y = f x y := by
  have hrow : ((List.range height).map fun y => (List.range width).map fun x => f x y).getD y []
      = (List.range width).map fun x => f x y := by
    rw [List.getD_eq_getElem _ _ (by simpa using hy)]
    simp only [List.getElem_map, List.getElem_range]
  unfold Grid.get Grid.tabulate
  rw [hrow, List.getD_eq_getElem _ _ (by simpa using hx)]
  simp only [List.getElem_map, List.getElem_range]

/-! ### The window of `ReduceRange`, row by row -/

theorem coords_eq_rows (w h : Nat) :
    ((List.range (w * h)).map fun i => (i % w, i / w))
      = (List.range h).flatMap fun y => (List.range w).map fun x => (x, y) := by
  induction h with
  | zero => simp
  | succ h ih =>
    have hrow : (List.range w).map (fun j => ((w * h + j) % w, (w * h + j) / w))
        = (List.range w).map fun x => (x, h) := by
      apply List.map_congr_left
      intro j hj
      have hj' : j < w := List.mem_range.1 hj
      rw [Nat.add_comm (w * h) j, Nat.add_mul_mod_self_left, Nat.mod_eq_of_lt hj',
        Nat.add_mul_div_left _ _ (by omega : 0 < w), Nat.div_eq_of_lt hj', Nat.zero_add]
    rw [Nat.mul_succ, List.range_add, List.map_append, List.map_map, ih, List.range_succ,
      List.flatMap_append, List.flatMap_cons, List.flatMap_nil, List.append_nil, ← hrow]
    rfl

theorem filter_rows (w : Nat) (r : Range) (l : List Nat) :
    (l.flatMap fun y => (List.range w).map fun x => (x, y)).filter
        (fun c => r.contains c.1 c.2)
      = (l.filter fun (y : Nat) =>
            decide (r.y_min ≤ (y : Int)) && decide ((y : Int) ≤ r.y_max)).flatMap
          fun (y : Nat) =>
            ((List.range w).filter fun (x : Nat) =>
                decide (r.x_min ≤ (x : Int)) && decide ((x : Int) ≤ r.x_max)).map
              fun (x : Nat) => (x, y) := by
  induction l with
  | nil => rfl
  | cons y l ih =>
    rw [List.flatMap_cons, List.filter_append, ih, List.filter_cons]
    by_cases hy : (decide (r.y_min ≤ (y : Int)) && decide ((y : Int) ≤ r.y_max)) = true
    · rw [if_pos hy, List.flatMap_cons, List.filter_map]
      congr 2
      apply List.filter_congr
      intro x _
      simp only [Function.comp, Range.contains, Bool.and_assoc]
      rw [hy, Bool.and_true]
    · rw [if_neg hy]
      have hnil : ((List.range w).map fun x => (x, y)).filter (fun c => r.contains c.1 c.2)
          = [] := by
        apply List.filter_eq_nil_iff.2
        intro c hc
        obtain ⟨x, _, rfl⟩ := List.mem_map.1 hc
        simp only [Range.contains, Bool.and_assoc]
        intro hcon
        rw [Bool.and_eq_true, Bool.and_eq_true] at hcon
        exact hy hcon.2.2
      rw [hnil, List.nil_append]

theorem Image.window_eq_windowRows {β : Type} (img : Image β) (range : Range) :
    img.window range = windowRows img.width img.height range := by
  unfold Image.window Image.coords windowRows
  rw [coords_eq_rows, filter_rows]

/-! ### The stages of the pipeline on intervals -/

theorem read_approx (policy : BorderPolicy) (src : Image ℝ) (g : List (List Ival))
    (w h : Nat) (hw : src.width = w) (hh : src.height = h) (hwpos : 0 < w) (hhpos : 0 < h)
    (hsrc : ∀ x y, x < w → y < h → approx (src.pixel x y) (Grid.get g x y))
    (X Y : Int) :
    approx (src.read policy X Y) (Grid.read policy g w h X Y) := by
  subst hw hh
  cases policy with
  | clampToEdge =>
    unfold Image.read Grid.read
    simp only
    apply hsrc
    · omega
    · omega
  | zeroPad =>
    unfold Image.read Grid.read
    simp only
    by_cases hc : 0 ≤ X ∧ X < (src.width : Int) ∧ 0 ≤ Y ∧ Y < (src.height : Int)
    · rw [if_pos hc, if_pos hc]
      apply hsrc
      · omega
      · omega
    · rw [if_neg hc, if_neg hc]
      exact approx_zero

theorem filter_approx (policy : BorderPolicy) (flip : Bool) (src : Image ℝ)
    (g : List (List Ival)) (K : FilterKernel ℝ) (KI : FilterKernel Ival)
    (w h : Nat) (hw : src.width = w) (hh : src.height = h) (hwpos : 0 < w) (hhpos : 0 < h)
    (hsrc : ∀ x y, x < w → y < h → approx (src.pixel x y) (Grid.get g x y))
    (hKw : KI.width = K.width) (hKh : KI.height = K.height)
    (hK : ∀ i, approx (K.values.getD i 0) (KI.values.getD i 0)) :
    ∀ x y, x < w → y < h →
      approx ((modelFilter2d policy flip src K).pixel x y)
        (Grid.get (filterBound policy flip w h g KI) x y) := by
  intro x y hx hy
  have hx' : x < src.width := by rw [hw]; exact hx
  have hy' : y < src.height := by rw [hh]; exact hy
  have hpix : (modelFilter2d policy flip src K).pixel x y
      = K.entries.foldl
        (fun acc e =>
          let dx : Int := (e.1 : Int) - Int.tdiv K.width 2
          let dy : Int := (e.2 : Int) - Int.tdiv K.height 2
          let value :=
            if flip then src.read policy ((x : Int) - dx) ((y : Int) - dy)
            else src.read policy ((x : Int) + dx) ((y : Int) + dy)
          acc + K.values.getD (e.2 * K.width.toNat + e.1) 0 * value)
        0 := by
    unfold modelFilter2d Image.pixel
    exact src.coords_getD hx' hy' _ _
  have hentries : KI.entries = K.entries := by
    unfold FilterKernel.entries
    rw [hKw, hKh]
  unfold filterBound
  rw [Grid.get_tabulate _ _ _ hx hy, hpix, hentries]
  apply foldl_rel approx
  · exact approx_zero
  · intro e _ s t hst
    simp only [hKw, hKh]
    apply approx_add hst
    apply approx_mul (hK _)
    cases flip with
    | false => exact read_approx policy src g w h hw hh hwpos hhpos hsrc _ _
    | true => exact read_approx policy src g w h hw hh hwpos hhpos hsrc _ _

theorem tensor_approx (gx gy : Image ℝ) (bx bY : List (List Ival)) (w h : Nat)
    (hxw : gx.width = w) (hxh : gx.height = h) (hyw : gy.width = w) (hyh : gy.height = h)
    (hgx : ∀ x y, x < w → y < h → approx (gx.pixel x y) (Grid.get bx x y))
    (hgy : ∀ x y, x < w → y < h → approx (gy.pixel x y) (Grid.get bY x y))
    (half : Int) (x y : Nat) :
    approxTensor
      (ReduceRange2 gx gy
        ⟨(x : Int) - half, (y : Int) - half, (x : Int) + half, (y : Int) + half⟩
        (0 : StructureTensor ℝ) StructureTensor.accumulate)
      (tensorBound w h half bx bY x y) := by
  subst hxw hxh
  unfold ReduceRange2 tensorBound
  rw [← Image.window_eq_windowRows gx]
  apply foldl_rel approxTensor
  · exact ⟨approx_zero, approx_zero, approx_zero⟩
  · intro c hc s t hst
    obtain ⟨⟨hcx, hcy⟩, _⟩ := (gx.mem_window _ c).1 hc
    have h1 := hgx c.1 c.2 hcx hcy
    have h2 := hgy c.1 c.2 hcx hcy
    obtain ⟨hxx, hxy, hyy⟩ := hst
    exact ⟨approx_add hxx (approx_mul h1 h1), approx_add hxy (approx_mul h1 h2),
      approx_add hyy (approx_mul h2 h2)⟩

theorem score_approx {k : ℝ} {kI : Ival} (hk : approx k kI) {s : StructureTensor ℝ}
    {t : StructureTensor Ival} (hst : approxTensor s t) :
    approx (harrisScore k s) (scoreBound kI t) := by
  obtain ⟨hxx, hxy, hyy⟩ := hst
  unfold harrisScore scoreBound
  exact approx_sub (approx_sub (approx_mul hxx hyy) (approx_mul hxy hxy))
    (approx_mul (approx_mul hk (approx_add hxx hyy)) (approx_add hxx hyy))

end IntervalSoundness

/-! ## Bounds on the default Gaussian kernel -/

section KernelBounds

theorem exp_neg_half_bounds :
    (0.60653065 : ℝ) < Real.exp (-1 / 2) ∧ Real.exp (-1 / 2) < 0.60653067 := by
  have hsq : Real.exp (-1 / 2) ^ 2 = (Real.exp 1)⁻¹ := by
    rw [← Real.exp_nat_mul, ← Real.exp_neg]
    congr 1
    norm_num
  have hpos : (0 : ℝ) < Real.exp 1 := Real.exp_pos 1
  have hlo := Real.exp_one_gt_d9
  have hhi := Real.exp_one_lt_d9
  constructor
  · apply lt_of_pow_lt_pow_left₀ 2 (le_of_lt (Real.exp_pos _))
    rw [hsq, lt_inv_comm₀ (by norm_num) hpos]
    exact lt_trans hhi (by norm_num)
  · apply lt_of_pow_lt_pow_left₀ 2 (by norm_num)
    rw [hsq, inv_lt_comm₀ hpos (by norm_num)]
    exact lt_trans (by norm_num) hlo

theorem natAbs_sq_cast (z : Int) : ((z.natAbs : Nat) : ℝ) ^ 2 = (z : ℝ) ^ 2 := by
  rw [Nat.cast_natAbs, Int.cast_abs, sq_abs]

/-- The value pushed by the loop of `GaussianKernel(1, 5)` for the counters
`x` and `y` is a power of `exp(-1/2)`. -/
theorem gauss_value_eq_pow (x y : Nat) :
    GaussianKernel.value Real.exp 1 2 x y
      = Real.exp (-1 / 2) ^ (((x : Int) - 2).natAbs ^ 2 + ((y : Int) - 2).natAbs ^ 2) := by
  rw [GaussianKernel.value_eq, ← Real.exp_nat_mul]
  congr 1
  rw [Nat.cast_add, Nat.cast_pow, Nat.cast_pow, natAbs_sq_cast, natAbs_sq_cast]
  ring

theorem gauss_value_eq (i : Nat) :
    GaussianKernel.value Real.exp 1 2 (i % 5) (i / 5) = Real.exp (-1 / 2) ^ gaussExponent i :=
  gauss_value_eq_pow (i % 5) (i / 5)

theorem gauss_sum_eq :
    (∑ y in Finset.range 5, ∑ x in Finset.range 5, GaussianKernel.value Real.exp 1 2 x y)
      = 1 + 4 * Real.exp (-1 / 2) + 4 * Real.exp (-1 / 2) ^ 2 + 4 * Real.exp (-1 / 2) ^ 4
        + 8 * Real.exp (-1 / 2) ^ 5 + 4 * Real.exp (-1 / 2) ^ 8 := by
  simp only [gauss_value_eq_pow, Finset.sum_range_succ, Finset.sum_range_zero]
  norm_num
  ring

theorem gauss_sum_bounds :
    (6.168923897 : ℝ) ≤ 1 + 4 * Real.exp (-1 / 2) + 4 * Real.exp (-1 / 2) ^ 2
        + 4 * Real.exp (-1 / 2) ^ 4 + 8 * Real.exp (-1 / 2) ^ 5 + 4 * Real.exp (-1 / 2) ^ 8 ∧
      1 + 4 * Real.exp (-1 / 2) + 4 * Real.exp (-1 / 2) ^ 2 + 4 * Real.exp (-1 / 2) ^ 4
          + 8 * Real.exp (-1 / 2) ^ 5 + 4 * Real.exp (-1 / 2) ^ 8 ≤ (6.168924276 : ℝ) := by
  obtain ⟨hlo, hhi⟩ := exp_neg_half_bounds
  have h0 : (0 : ℝ) ≤ 0.60653065 := by norm_num
  have hu0 : (0 : ℝ) ≤ Real.exp (-1 / 2) := le_of_lt (Real.exp_pos _)
  have l2 : (0.60653065 : ℝ) ^ 2 ≤ Real.exp (-1 / 2) ^ 2 := pow_le_pow_left₀ h0 hlo.le 2
  have l4 : (0.60653065 : ℝ) ^ 4 ≤ Real.exp (-1 / 2) ^ 4 := pow_le_pow_left₀ h0 hlo.le 4
  have l5 : (0.60653065 : ℝ) ^ 5 ≤ Real.exp (-1 / 2) ^ 5 := pow_le_pow_left₀ h0 hlo.le 5
  have l8 : (0.60653065 : ℝ) ^ 8 ≤ Real.exp (-1 / 2) ^ 8 := pow_le_pow_left₀ h0 hlo.le 8
  have u2 : Real.exp (-1 / 2) ^ 2 ≤ (0.60653067 : ℝ) ^ 2 := pow_le_pow_left₀ hu0 hhi.le 2
  have u4 : Real.exp (-1 / 2) ^ 4 ≤ (0.60653067 : ℝ) ^ 4 := pow_le_pow_left₀ hu0 hhi.le 4
  have u5 : Real.exp (-1 / 2) ^ 5 ≤ (0.60653067 : ℝ) ^ 5 := pow_le_pow_left₀ hu0 hhi.le 5
  have u8 : Real.exp (-1 / 2) ^ 8 ≤ (0.60653067 : ℝ) ^ 8 := pow_le_pow_left₀ hu0 hhi.le 8
  norm_num at l2 l4 l5 l8 u2 u4 u5 u8
  constructor
  · norm_num
    linarith
  · norm_num
    linarith

/-- A quotient of two bounded positive reals lies in an interval whose end
points clear the cross-multiplied bounds. -/
theorem approx_div_of_bounds {x S : ℝ} (xl xh Sl Sh : ℝ) {I : Ival} (hxl : xl ≤ x) (hxh : x ≤ xh)
    (hSl : Sl ≤ S) (hSh : S ≤ Sh) (hS : 0 < Sl) (hlo0 : 0 ≤ I.lo) (hhi0 : 0 ≤ I.hi)
    (h1 : (I.lo : ℝ) * Sh ≤ xl * (Ival.scale : ℝ))
    (h2 : xh * (Ival.scale : ℝ) ≤ (I.hi : ℝ) * Sl) : approx (x / S) I := by
  have hSpos : 0 < S := lt_of_lt_of_le hS hSl
  have hs := Ival.scale_pos
  have hlo0' : (0 : ℝ) ≤ (I.lo : ℝ) := Int.cast_nonneg.2 hlo0
  have hhi0' : (0 : ℝ) ≤ (I.hi : ℝ) := Int.cast_nonneg.2 hhi0
  constructor
  · rw [div_mul_eq_mul_div, le_div_iff₀ hSpos]
    calc (I.lo : ℝ) * S ≤ (I.lo : ℝ) * Sh := mul_le_mul_of_nonneg_left hSh hlo0'
      _ ≤ xl * (Ival.scale : ℝ) := h1
      _ ≤ x * (Ival.scale : ℝ) := mul_le_mul_of_nonneg_right hxl (le_of_lt hs)
  · rw [div_mul_eq_mul_div, div_le_iff₀ hSpos]
    calc x * (Ival.scale : ℝ) ≤ xh * (Ival.scale : ℝ) :=
          mul_le_mul_of_nonneg_right hxh (le_of_lt hs)
      _ ≤ (I.hi : ℝ) * Sl := h2
      _ ≤ (I.hi : ℝ) * S := mul_le_mul_of_nonneg_left hSl hhi0'

theorem gaussBound_approx (n : Nat)
    (hn : n = 0 ∨ n = 1 ∨ n = 2 ∨ n = 4 ∨ n = 5 ∨ n = 8) :
    approx
      (Real.exp (-1 / 2) ^ n
        / (1 + 4 * Real.exp (-1 / 2) + 4 * Real.exp (-1 / 2) ^ 2 + 4 * Real.exp (-1 / 2) ^ 4
          + 8 * Real.exp (-1 / 2) ^ 5 + 4 * Real.exp (-1 / 2) ^ 8))
      (gaussBound n) := by
  obtain ⟨hlo, hhi⟩ := exp_neg_half_bounds
  obtain ⟨hSl, hSh⟩ := gauss_sum_bounds
  have h0 : (0 : ℝ) ≤ 0.60653065 := by norm_num
  have hu0 : (0 : ℝ) ≤ Real.exp (-1 / 2) := le_of_lt (Real.exp_pos _)
  have hpl : ∀ k : Nat, (0.60653065 : ℝ) ^ k ≤ Real.exp (-1 / 2) ^ k :=
    fun k => pow_le_pow_left₀ h0 hlo.le k
  have hph : ∀ k : Nat, Real.exp (-1 / 2) ^ k ≤ (0.60653067 : ℝ) ^ k :=
    fun k => pow_le_pow_left₀ hu0 hhi.le k
  rcases hn with rfl | rfl | rfl | rfl | rfl | rfl
  · exact approx_div_of_bounds 1 1 6.168923897 6.168924276
      (le_trans (by norm_num) (hpl 0)) (le_trans (hph 0) (by norm_num)) hSl hSh (by norm_num)
      (by decide) (by decide) (by norm_num [gaussBound, Ival.scale])
      (by norm_num [gaussBound, Ival.scale])
  · exact approx_div_of_bounds 0.60653065 0.60653067 6.168923897 6.168924276
      (le_trans (by norm_num) (hpl 1)) (le_trans (hph 1) (by norm_num)) hSl hSh (by norm_num)
      (by decide) (by decide) (by norm_num [gaussBound, Ival.scale])
      (by norm_num [gaussBound, Ival.scale])
  · exact approx_div_of_bounds 0.367879429 0.367879454 6.168923897 6.168924276
      (le_trans (by norm_num) (hpl 2)) (le_trans (hph 2) (by norm_num)) hSl hSh (by norm_num)
      (by decide) (by decide) (by norm_num [gaussBound, Ival.scale])
      (by norm_num [gaussBound, Ival.scale])
  · exact approx_div_of_bounds 0.135335274 0.135335293 6.168923897 6.168924276
      (le_trans (by norm_num) (hpl 4)) (le_trans (hph 4) (by norm_num)) hSl hSh (by norm_num)
      (by decide) (by decide) (by norm_num [gaussBound, Ival.scale])
      (by norm_num [gaussBound, Ival.scale])
  · exact approx_div_of_bounds 0.082084992 0.082085006 6.168923897 6.168924276
      (le_trans (by norm_num) (hpl 5)) (le_trans (hph 5) (by norm_num)) hSl hSh (by norm_num)
      (by decide) (by decide) (by norm_num [gaussBound, Ival.scale])
      (by norm_num [gaussBound, Ival.scale])
  · exact approx_div_of_bounds 0.018315636 0.018315642 6.168923897 6.168924276
      (le_trans (by norm_num) (hpl 8)) (le_trans (hph 8) (by norm_num)) hSl hSh (by norm_num)
      (by decide) (by decide) (by norm_num [gaussBound, Ival.scale])
      (by norm_num [gaussBound, Ival.scale])

theorem gaussExponent_cases (i : Nat) (hi : i < 25) :
    gaussExponent i = 0 ∨ gaussExponent i = 1 ∨ gaussExponent i = 2 ∨ gaussExponent i = 4 ∨
      gaussExponent i = 5 ∨ gaussExponent i = 8 := by
  interval_cases i <;> decide

/-- The entries of the kernel built by `GaussianKernel(1, 5)` over the reals lie
in the intervals of `gaussKernelBound`. -/
theorem gaussKernel_approx (i : Nat) :
    approx
      ((((List.range 25).map fun j => GaussianKernel.value Real.exp 1 2 (j % 5) (j / 5)).map
          fun value => value /
            ∑ y in Finset.range 5, ∑ x in Finset.range 5,
              GaussianKernel.value Real.exp 1 2 x y).getD i 0)
      (gaussKernelBound.values.getD i 0) := by
  by_cases hi : i < 25
  · rw [List.getD_eq_getElem _ _ (by simpa using hi),
      List.getD_eq_getElem _ _ (by simpa [gaussKernelBound] using hi)]
    simp only [gaussKernelBound, List.getElem_map, List.getElem_range]
    rw [gauss_value_eq, gauss_sum_eq]
    exact gaussBound_approx _ (gaussExponent_cases i hi)
  · rw [List.getD_eq_default _ _ (by simpa using hi),
      List.getD_eq_default _ _ (by simpa [gaussKernelBound] using hi)]
    exact approx_zero

theorem diffKernel_approx (width height : Int) (i : Nat) :
    approx (([1, 0, -1] : List ℝ).getD i 0) ((diffKernelBound width height).values.getD i 0) := by
  unfold diffKernelBound
  match i with
  | 0 => simpa using approx_ofInt 1
  | 1 => simpa using approx_zero
  | 2 => simpa using approx_ofInt (-1)
  | (n + 3) => simpa using approx_zero

end KernelBounds

/-! ## The isolated bright point -/

section BrightPoint

theorem brightPoint_pixel {β : Type} [Zero β] (one : β) {x y : Nat} (hx : x < 15)
    (hy : y < 15) : (brightPoint one).pixel x y = if x = 7 ∧ y = 7 then one else 0 := by
  have hi : y * 15 + x < 225 := by omega
  unfold brightPoint Image.pixel
  simp only
  rw [List.getD_eq_getElem _ _ (by simpa using hi)]
  simp only [List.getElem_map, List.getElem_range]
  by_cases h : x = 7 ∧ y = 7
  · rw [if_pos h, if_pos (by omega)]
  · rw [if_neg h, if_neg (by omega)]

theorem brightPoint_approx (x y : Nat) (hx : x < 15) (hy : y < 15) :
    approx ((brightPoint (1 : ℝ)).pixel x y)
      (Grid.get (Grid.tabulate 15 15 fun x y => if x = 7 ∧ y = 7 then Ival.ofInt 1 else 0)
        x y) := by
  rw [Grid.get_tabulate _ _ _ hx hy, brightPoint_pixel _ hx hy]
  by_cases h : x = 7 ∧ y = 7
  · rw [if_pos h, if_pos h]
    simpa using approx_ofInt 1
  · rw [if_neg h, if_neg h]
    exact approx_zero

/-- The response image of the default detector on `brightPoint` lies, pixel by
pixel, in the intervals of `brightPointResponseBound`. -/
theorem brightPoint_response_approx (policy : BorderPolicy) (flip : Bool)
    (K : FilterKernel ℝ) (hKw : K.width = 5) (hKh : K.height = 5)
    (hK : ∀ i, approx (K.values.getD i 0) (gaussKernelBound.values.getD i 0))
    (x y : Nat) (hx : x < 15) (hy : y < 15) :
    approx
      ((Map
        (StructureTensorImage (modelFilter2d policy flip) K ⟨3, 1, [1, 0, -1]⟩
          ⟨1, 3, [1, 0, -1]⟩ 5 (brightPoint (1 : ℝ)))
        (harrisScore 0.04)).pixel x y)
      (Grid.get (brightPointResponseBound policy flip) x y) := by
  have h15 : 0 < 15 := by norm_num
  have hsm := filter_approx policy flip (brightPoint (1 : ℝ))
    (Grid.tabulate 15 15 fun x y => if x = 7 ∧ y = 7 then Ival.ofInt 1 else 0) K
    gaussKernelBound 15 15 rfl rfl h15 h15 brightPoint_approx hKw.symm hKh.symm hK
  have hgx := filter_approx policy flip (modelFilter2d policy flip (brightPoint (1 : ℝ)) K)
    _ ⟨3, 1, [1, 0, -1]⟩ (diffKernelBound 3 1) 15 15 rfl rfl h15 h15 hsm rfl rfl
    (diffKernel_approx 3 1)
  have hgy := filter_approx policy flip (modelFilter2d policy flip (brightPoint (1 : ℝ)) K)
    _ ⟨1, 3, [1, 0, -1]⟩ (diffKernelBound 1 3) 15 15 rfl rfl h15 h15 hsm rfl rfl
    (diffKernel_approx 1 3)
  have hk : approx (0.04 : ℝ) ⟨4000000, 4000000⟩ := by
    constructor <;> norm_num [Ival.scale]
  have htensor := tensor_approx
    (modelFilter2d policy flip (modelFilter2d policy flip (brightPoint (1 : ℝ)) K)
      ⟨3, 1, [1, 0, -1]⟩)
    (modelFilter2d policy flip (modelFilter2d policy flip (brightPoint (1 : ℝ)) K)
      ⟨1, 3, [1, 0, -1]⟩)
    _ _ 15 15 rfl rfl rfl rfl hgx hgy 2 x y
  have hpix : (Map
        (StructureTensorImage (modelFilter2d policy flip) K ⟨3, 1, [1, 0, -1]⟩
          ⟨1, 3, [1, 0, -1]⟩ 5 (brightPoint (1 : ℝ)))
        (harrisScore 0.04)).pixel x y
      = harrisScore 0.04
          (ReduceRange2
            (modelFilter2d policy flip (modelFilter2d policy flip (brightPoint (1 : ℝ)) K)
              ⟨3, 1, [1, 0, -1]⟩)
            (modelFilter2d policy flip (modelFilter2d policy flip (brightPoint (1 : ℝ)) K)
              ⟨1, 3, [1, 0, -1]⟩)
            ⟨(x : Int) - 2, (y : Int) - 2, (x : Int) + 2, (y : Int) + 2⟩
            (0 : StructureTensor ℝ) StructureTensor.accumulate) := by
    rw [pixel_Map _ _ (show x < (StructureTensorImage (modelFilter2d policy flip) K
          ⟨3, 1, [1, 0, -1]⟩ ⟨1, 3, [1, 0, -1]⟩ 5 (brightPoint (1 : ℝ))).width from hx)
        (show y < (StructureTensorImage (modelFilter2d policy flip) K
          ⟨3, 1, [1, 0, -1]⟩ ⟨1, 3, [1, 0, -1]⟩ 5 (brightPoint (1 : ℝ))).height from hy),
      pixel_StructureTensorImage (modelFilter2d policy flip) K _ _ 5 (brightPoint (1 : ℝ))
        (show x < (modelFilter2d policy flip
          (modelFilter2d policy flip (brightPoint (1 : ℝ)) K) ⟨3, 1, [1, 0, -1]⟩).width from hx)
        (show y < (modelFilter2d policy flip
          (modelFilter2d policy flip (brightPoint (1 : ℝ)) K) ⟨3, 1, [1, 0, -1]⟩).height
          from hy)]
    rfl
  have hget : Grid.get (brightPointResponseBound policy flip) x y
      = scoreBound ⟨4000000, 4000000⟩
          (tensorBound 15 15 2
            (filterBound policy flip 15 15
              (filterBound policy flip 15 15
                (Grid.tabulate 15 15 fun x y => if x = 7 ∧ y = 7 then Ival.ofInt 1 else 0)
                gaussKernelBound)
              (diffKernelBound 3 1))
            (filterBound policy flip 15 15
              (filterBound policy flip 15 15
                (Grid.tabulate 15 15 fun x y => if x = 7 ∧ y = 7 then Ival.ofInt 1 else 0)
                gaussKernelBound)
              (diffKernelBound 1 3))
            x y) := by
    unfold brightPointResponseBound
    exact Grid.get_tabulate _ _ _ hx hy
  rw [hpix, hget]
  exact score_approx hk htensor

/-- A response image of shape `15 × 15` that lies in a table of intervals with
an isolated peak at `(7, 7)` is suppressed everywhere except at `(7, 7)`. -/
theorem isolatedPeak_suppression (r : Image ℝ) (rb : List (List Ival)) (hw : r.width = 15)
    (hh : r.height = 15)
    (happ : ∀ x y, x < 15 → y < 15 → approx (r.pixel x y) (Grid.get rb x y))
    (hpeak : isolatedPeak rb) (x y : Nat) (hx : x < 15) (hy : y < 15) :
    (NonMaxSuppression 9 r (maxResponse r * 0.5)).pixel x y ≠ 0 ↔ (x = 7 ∧ y = 7) := by
  obtain ⟨hc0, hall⟩ := hpeak
  have hs := Ival.scale_pos
  obtain ⟨hclo, _⟩ := happ 7 7 (by norm_num) (by norm_num)
  have hc0' : (0 : ℝ) < ((Grid.get rb 7 7).lo : ℝ) := Int.cast_pos.2 hc0
  have hcpos : 0 < r.pixel 7 7 :=
    (mul_pos_iff_of_pos_right hs).1 (lt_of_lt_of_le hc0' hclo)
  have h7w : 7 < r.width := by rw [hw]; norm_num
  have h7h : 7 < r.height := by rw [hh]; norm_num
  -- every other pixel is below the centre, and below half of it or near it
  have hother : ∀ qx qy, qx < 15 → qy < 15 → ¬ (qx = 7 ∧ qy = 7) →
      r.pixel qx qy < r.pixel 7 7 ∧
        (r.pixel qx qy < r.pixel 7 7 * 0.5 ∨
          (((qx : Int) - 4 ≤ 7 ∧ (7 : Int) ≤ (qx : Int) + 4) ∧
            ((qy : Int) - 4 ≤ 7 ∧ (7 : Int) ≤ (qy : Int) + 4))) := by
    intro qx qy hqx hqy hne
    obtain ⟨h1, h2⟩ := hall qy (List.mem_range.2 hqy) qx (List.mem_range.2 hqx)
      (fun h => hne ⟨(Prod.mk.inj h).1, (Prod.mk.inj h).2⟩)
    obtain ⟨_, hqhi⟩ := happ qx qy hqx hqy
    have h1' : ((Grid.get rb qx qy).hi : ℝ) < ((Grid.get rb 7 7).lo : ℝ) := Int.cast_lt.2 h1
    refine ⟨lt_of_mul_lt_mul_right (lt_of_le_of_lt hqhi (lt_of_lt_of_le h1' hclo))
      (le_of_lt hs), ?_⟩
    rcases h2 with h2 | h2
    · left
      have h2' : (2 : ℝ) * ((Grid.get rb qx qy).hi : ℝ) < ((Grid.get rb 7 7).lo : ℝ) := by
        have := (Int.cast_lt (R := ℝ)).2 h2
        simpa using this
      apply lt_of_mul_lt_mul_right _ (le_of_lt hs)
      linarith
    · right
      exact h2
  -- the seeded maximum is the value at the centre
  have hle : ∀ v ∈ r.data, v ≤ r.pixel 7 7 := by
    intro v hv
    obtain ⟨qx, qy, hqx, hqy, rfl⟩ := Image.exists_pixel_of_mem r hv
    by_cases hq : qx = 7 ∧ qy = 7
    · rw [hq.1, hq.2]
    · exact le_of_lt (hother qx qy (by rw [← hw]; exact hqx) (by rw [← hh]; exact hqy) hq).1
  have hmax : maxResponse r = r.pixel 7 7 := by
    apply le_antisymm
    · rcases foldl_max_attained r.data 0 with h | h
      · rw [show maxResponse r = 0 from h]
        exact le_of_lt hcpos
      · exact hle _ h
    · exact le_maxResponse r (r.pixel_mem_data h7w h7h)
  rw [hmax]
  have hx' : x < r.width := by rw [hw]; exact hx
  have hy' : y < r.height := by rw [hh]; exact hy
  constructor
  · intro hne
    by_contra hxy
    obtain ⟨hlt, hcase⟩ := hother x y hx hy hxy
    apply hne
    by_cases hthr : r.pixel x y < r.pixel 7 7 * 0.5
    · exact NonMaxSuppression_of_lt 9 r _ hx' hy' hthr
    · rcases hcase with h | h
      · exact absurd h hthr
      · apply NonMaxSuppression_of_exceeded 9 r _ hx' hy' hthr
        rw [exceededInWindow_def]
        exact ⟨7, 7, ⟨h7w, h7h⟩, h, hlt⟩
  · rintro ⟨rfl, rfl⟩
    rw [NonMaxSuppression_of_global_max 9 r _ h7w h7h (by linarith) hle]
    exact ne_of_gt hcpos

/-- On an image whose border pixels are all `0`, reading under the clamp-to-edge
policy and under the zero-padding policy gives the same value everywhere. -/
theorem read_clamp_eq_zeroPad {α : Type} [Zero α] (src : Image α) (hw : 0 < src.width)
    (hh : 0 < src.height)
    (hborder : ∀ x y, x < src.width → y < src.height →
      (x = 0 ∨ x + 1 = src.width ∨ y = 0 ∨ y + 1 = src.height) → src.pixel x y = 0)
    (X Y : Int) : src.read .clampToEdge X Y = src.read .zeroPad X Y := by
  unfold Image.read
  simp only
  by_cases hin : 0 ≤ X ∧ X < (src.width : Int) ∧ 0 ≤ Y ∧ Y < (src.height : Int)
  · rw [if_pos hin]
    have h1 : min (max X 0) ((src.width : Int) - 1) = X := by omega
    have h2 : min (max Y 0) ((src.height : Int) - 1) = Y := by omega
    rw [h1, h2]
  · rw [if_neg hin]
    apply hborder
    · omega
    · omega
    · omega

/-- On an image whose border pixels are all `0` the two border policies give
the same filtered image. -/
theorem modelFilter2d_clamp_eq_zeroPad {α : Type} [Zero α] [Add α] [Mul α] (flip : Bool)
    (src : Image α) (K : FilterKernel α) (hw : 0 < src.width) (hh : 0 < src.height)
    (hborder : ∀ x y, x < src.width → y < src.height →
      (x = 0 ∨ x + 1 = src.width ∨ y = 0 ∨ y + 1 = src.height) → src.pixel x y = 0) :
    modelFilter2d .clampToEdge flip src K = modelFilter2d .zeroPad flip src K := by
  unfold modelFilter2d
  simp only [read_clamp_eq_zeroPad src hw hh hborder]

theorem foldl_add_mul_zero {γ : Type} (k v : γ → ℝ) (l : List γ) (hv : ∀ e ∈ l, v e = 0) :
    l.foldl (fun acc e => acc + k e * v e) 0 = 0 := by
  induction l with
  | nil => rfl
  | cons e l ih =>
    rw [List.foldl_cons, hv e (List.mem_cons_self _ _), mul_zero, add_zero]
    exact ih fun e he => hv e (List.mem_cons_of_mem _ he)

theorem FilterKernel.mem_entries {α : Type} (K : FilterKernel α) (e : Nat × Nat)
    (he : e ∈ K.entries) (hw : 0 < K.width.toNat) :
    e.1 < K.width.toNat ∧ e.2 < K.height.toNat := by
  unfold FilterKernel.entries at he
  obtain ⟨n, hn, rfl⟩ := List.mem_map.1 he
  have hn' := List.mem_range.1 hn
  exact ⟨Nat.mod_lt _ hw, (Nat.div_lt_iff_lt_mul hw).2 (by rwa [Nat.mul_comm] at hn')⟩

/-- The smoothed bright point vanishes on the border of the image: the `5 × 5`
kernel reaches at most two pixels far. -/
theorem brightPoint_smooth_border (flip : Bool) (K : FilterKernel ℝ) (hKw : K.width = 5)
    (hKh : K.height = 5) (x y : Nat) (hx : x < 15) (hy : y < 15)
    (hb : x = 0 ∨ x + 1 = 15 ∨ y = 0 ∨ y + 1 = 15) :
    (modelFilter2d .zeroPad flip (brightPoint (1 : ℝ)) K).pixel x y = 0 := by
  have hx' : x < (brightPoint (1 : ℝ)).width := hx
  have hy' : y < (brightPoint (1 : ℝ)).height := hy
  have hread : ∀ X Y : Int, (X ≠ 7 ∨ Y ≠ 7) →
      (brightPoint (1 : ℝ)).read .zeroPad X Y = 0 := by
    intro X Y hXY
    unfold Image.read
    simp only
    split
    · rename_i hin
      have hX : X.toNat < 15 := by
        have := hin.2.1
        have h15 : ((brightPoint (1 : ℝ)).width : Int) = 15 := rfl
        omega
      have hY : Y.toNat < 15 := by
        have := hin.2.2.2
        have h15 : ((brightPoint (1 : ℝ)).height : Int) = 15 := rfl
        omega
      rw [brightPoint_pixel _ hX hY, if_neg]
      rintro ⟨h1, h2⟩
      have := hin.1
      have := hin.2.2.1
      omega
    · rfl
  unfold modelFilter2d Image.pixel
  rw [(brightPoint (1 : ℝ)).coords_getD hx' hy']
  apply foldl_add_mul_zero
    (fun e : Nat × Nat => K.values.getD (e.2 * K.width.toNat + e.1) 0)
  intro e he
  obtain ⟨h1, h2⟩ := K.mem_entries e he (by rw [hKw]; decide)
  rw [hKw] at h1
  rw [hKh] at h2
  have h1' : e.1 < 5 := h1
  have h2' : e.2 < 5 := h2
  simp only [hKw, hKh]
  have htd : Int.tdiv 5 2 = 2 := by decide
  rw [htd]
  cases flip
  · simp only [Bool.false_eq_true, if_false]
    apply hread
    omega
  · simp only [if_true]
    apply hread
    omega

/-- On the bright point the two border policies give the same structure tensor
image: both the image and its smoothing vanish on the border. -/
theorem brightPoint_tensor_policy (flip : Bool) (K : FilterKernel ℝ) (hKw : K.width = 5)
    (hKh : K.height = 5) (diff_x diff_y : FilterKernel ℝ) :
    StructureTensorImage (modelFilter2d .clampToEdge flip) K diff_x diff_y 5
        (brightPoint (1 : ℝ))
      = StructureTensorImage (modelFilter2d .zeroPad flip) K diff_x diff_y 5
        (brightPoint (1 : ℝ)) := by
  have h15 : 0 < 15 := by norm_num
  have hS : modelFilter2d .clampToEdge flip (brightPoint (1 : ℝ)) K
      = modelFilter2d .zeroPad flip (brightPoint (1 : ℝ)) K := by
    apply modelFilter2d_clamp_eq_zeroPad flip _ K h15 h15
    intro x y hx hy hb
    have hx' : x < 15 := hx
    have hy' : y < 15 := hy
    have hb' : x = 0 ∨ x + 1 = 15 ∨ y = 0 ∨ y + 1 = 15 := hb
    rw [brightPoint_pixel _ hx' hy', if_neg]
    omega
  have hG : ∀ D : FilterKernel ℝ,
      modelFilter2d .clampToEdge flip (modelFilter2d .zeroPad flip (brightPoint (1 : ℝ)) K) D
        = modelFilter2d .zeroPad flip (modelFilter2d .zeroPad flip (brightPoint (1 : ℝ)) K)
          D := by
    intro D
    apply modelFilter2d_clamp_eq_zeroPad flip _ D h15 h15
    intro x y hx hy hb
    exact brightPoint_smooth_border flip K hKw hKh x y hx hy hb
  unfold StructureTensorImage
  simp only
  rw [hS, hG diff_x, hG diff_y]

set_option maxRecDepth 100000 in
set_option maxHeartbeats 4000000 in
/-- The interval run of the default detector on `brightPoint` under the
zero-padding policy has an isolated peak at `(7, 7)`, for both kernel
orientations. -/
theorem brightPoint_isolatedPeak (flip : Bool) :
    isolatedPeak (brightPointResponseBound .zeroPad flip) := by
  cases flip <;> decide!

/-- The default constructor succeeds over the reals, with a Gaussian kernel
whose entries lie in the intervals of `gaussKernelBound`. -/
theorem default_detector :
    ∃ K : FilterKernel ℝ,
      HarrisCpp.create Real.exp 5 5 0.04 0.5 9
          = .ok ⟨5, 5, 0.04, 0.5, 9, K, ⟨3, 1, [1, 0, -1]⟩, ⟨1, 3, [1, 0, -1]⟩⟩ ∧
        K.width = 5 ∧ K.height = 5 ∧
        ∀ i, approx (K.values.getD i 0) (gaussKernelBound.values.getD i 0) := by
  refine ⟨⟨5, 5,
    ((List.range 25).map fun j => GaussianKernel.value Real.exp 1 2 (j % 5) (j / 5)).map
      fun value => value /
        ∑ y in Finset.range 5, ∑ x in Finset.range 5, GaussianKernel.value Real.exp 1 2 x y⟩,
    ?_, rfl, rfl, gaussKernel_approx⟩
  unfold HarrisCpp.create
  rw [GaussianKernel_eq Real.exp 1 5 (by norm_num) ⟨2, by norm_num⟩]
  rfl

/-- C12: for the `15 × 15` image that is `0` everywhere except for the value
`1` at `(7, 7)`, `FindCorners` with the default parameters (smoothing size 5,
tensor window 5, `k = 0.04`, threshold ratio `0.5`, suppression window 9)
returns a `15 × 15` image with exactly one non-zero pixel, the pixel `(7, 7)`
itself, whichever border policy and kernel orientation `Filter2d` uses. -/
theorem FindCorners_brightPoint (policy : BorderPolicy) (flip : Bool) :
    ∃ detector : HarrisCpp ℝ,
      HarrisCpp.create Real.exp 5 5 0.04 0.5 9 = .ok detector ∧
        (FindCorners detector (modelFilter2d policy flip) (brightPoint 1)).width = 15 ∧
        (FindCorners detector (modelFilter2d policy flip) (brightPoint 1)).height = 15 ∧
        ∀ x y, x < 15 → y < 15 →
          ((FindCorners detector (modelFilter2d policy flip) (brightPoint 1)).pixel x y ≠ 0
            ↔ (x = 7 ∧ y = 7)) := by
  obtain ⟨K, hcreate, hKw, hKh, hK⟩ := default_detector
  refine ⟨_, hcreate, rfl, rfl, fun x y hx hy => ?_⟩
  -- the response does not depend on the border policy: bound it under zero padding
  have happrox : ∀ qx qy, qx < 15 → qy < 15 →
      approx
        ((Map
          (StructureTensorImage (modelFilter2d policy flip) K ⟨3, 1, [1, 0, -1]⟩
            ⟨1, 3, [1, 0, -1]⟩ 5 (brightPoint (1 : ℝ)))
          (harrisScore 0.04)).pixel qx qy)
        (Grid.get (brightPointResponseBound .zeroPad flip) qx qy) := by
    cases policy
    · rw [brightPoint_tensor_policy flip K hKw hKh]
      exact brightPoint_response_approx .zeroPad flip K hKw hKh hK
    · exact brightPoint_response_approx .zeroPad flip K hKw hKh hK
  exact isolatedPeak_suppression
    (Map
      (StructureTensorImage (modelFilter2d policy flip) K ⟨3, 1, [1, 0, -1]⟩
        ⟨1, 3, [1, 0, -1]⟩ 5 (brightPoint (1 : ℝ)))
      (harrisScore 0.04))
    (brightPointResponseBound .zeroPad flip) rfl rfl happrox
    (brightPoint_isolatedPeak flip) x y hx hy

end BrightPoint

/-! ## The pipeline in binary32 -/

section Binary32

set_option maxRecDepth 100000 in
/-- Known values of binary32: `0.04f` is `10737418 · 2⁻²⁸`; above `2²⁴` the
odd integers are ties and round to the even significand; the largest finite
value is `2¹²⁸ - 2¹⁰⁴`, and half a unit above it overflows; `2⁻¹⁴⁹` is the
smallest positive value, and half of it rounds to zero; `∞ - ∞` and `0 · ∞`
are NaN, and NaN compares false. -/
theorem F32.round_examples :
    F32.round (1 / 25) = .fin (10737418 / 268435456) ∧
      F32.round 16777217 = .fin 16777216 ∧
      F32.round 16777219 = .fin 16777220 ∧
      F32.round (-16777219) = .fin (-16777220) ∧
      F32.round (2 ^ 128 - 2 ^ 104) = .fin (2 ^ 128 - 2 ^ 104) ∧
      F32.round (2 ^ 128 - 2 ^ 103 - 1) = .fin (2 ^ 128 - 2 ^ 104) ∧
      F32.round (2 ^ 128 - 2 ^ 103) = .pinf ∧
      F32.round (-(2 ^ 128)) = .ninf ∧
      F32.round (1 / 2 ^ 149) = .fin (1 / 2 ^ 149) ∧
      F32.round (1 / 2 ^ 150) = .fin 0 ∧
      F32.round (3 / 2 ^ 150) = .fin (2 / 2 ^ 149) ∧
      F32.fin (10 ^ 20) * F32.fin (10 ^ 20) = .pinf ∧
      (F32.pinf - F32.pinf = .nan ∧ (0 : F32) * F32.pinf = .nan) ∧
      (¬ F32.nan < 0 ∧ ¬ (0 : F32) < .nan ∧ ¬ (0 : F32) ≤ .nan ∧ max (0 : F32) .nan = 0) := by
  decide!

theorem F32.lt_iff (a b : F32) : a < b ↔ F32.blt a b = true := Iff.rfl

theorem F32.le_iff (a b : F32) : a ≤ b ↔ F32.ble a b = true := Iff.rfl

theorem F32.zero_eq : (0 : F32) = .fin 0 := rfl

theorem F32.mul_eq (a b : F32) : a * b = F32.mul a b := rfl

theorem F32.add_eq (a b : F32) : a + b = F32.add a b := rfl

/-- A binary32 value is `>= 0` when it is `+∞` or a finite non-negative number. -/
theorem F32.zero_le_iff (v : F32) :
    (0 : F32) ≤ v ↔ v = .pinf ∨ ∃ q : ℚ, 0 ≤ q ∧ v = .fin q := by
  rw [F32.le_iff, F32.zero_eq]
  cases v with
  | fin q => simp [F32.ble]
  | pinf => simp [F32.ble]
  | ninf => simp [F32.ble]
  | nan => simp [F32.ble]

theorem F32.zero_le_fin {q : ℚ} : (0 : F32) ≤ .fin q ↔ 0 ≤ q := by
  rw [F32.le_iff, F32.zero_eq]
  simp [F32.ble]

theorem F32.zero_le_pinf : (0 : F32) ≤ .pinf := rfl

/-- A binary32 value is `< 0` when it is `-∞` or a finite negative number. -/
theorem F32.lt_zero_iff (v : F32) : v < 0 ↔ v = .ninf ∨ ∃ q : ℚ, q < 0 ∧ v = .fin q := by
  rw [F32.lt_iff, F32.zero_eq]
  cases v with
  | fin q => simp [F32.blt]
  | pinf => simp [F32.blt]
  | ninf => simp [F32.blt]
  | nan => simp [F32.blt]

theorem F32.nan_not_lt (b : F32) : ¬ F32.nan < b := by
  rw [F32.lt_iff]
  cases b <;> simp [F32.blt]

theorem F32.pow2_pos (e : Int) : 0 < F32.pow2 e := by
  unfold F32.pow2
  split
  · exact_mod_cast Nat.pos_pow_of_pos _ (by decide)
  · have h : (0 : ℚ) < ((2 ^ (-e).toNat : Nat) : ℚ) := by
      exact_mod_cast Nat.pos_pow_of_pos _ (by decide)
    exact div_pos one_pos h

theorem F32.nearestEven_nonneg {r : ℚ} (h : 0 ≤ r) : 0 ≤ F32.nearestEven r := by
  have hf : (0 : Int) ≤ ⌊r⌋ := Int.floor_nonneg.2 h
  unfold F32.nearestEven
  simp only
  split_ifs <;> omega

/-- Rounding keeps the sign: the binary32 rounding of a non-negative exact
result is `>= 0` (a finite non-negative number or `+∞`). -/
theorem F32.round_nonneg {q : ℚ} (h : 0 ≤ q) : (0 : F32) ≤ F32.round q := by
  unfold F32.round
  by_cases h0 : q = 0
  · rw [if_pos h0]
    exact F32.zero_le_fin.2 le_rfl
  · rw [if_neg h0]
    have hq : 0 < q := lt_of_le_of_ne h (Ne.symm h0)
    simp only
    split_ifs
    · exact F32.zero_le_pinf
    · refine F32.zero_le_fin.2 (mul_nonneg ?_ (le_of_lt (F32.pow2_pos _)))
      exact_mod_cast F32.nearestEven_nonneg (div_nonneg h (le_of_lt (F32.pow2_pos _)))

/-- A product of two binary32 values that are `>= 0` is `>= 0` or NaN (NaN
for `0 * ∞`). -/
theorem F32.mul_nonneg_or_nan {a b : F32} (ha : 0 ≤ a) (hb : 0 ≤ b) :
    a * b = .nan ∨ 0 ≤ a * b := by
  rcases (F32.zero_le_iff a).1 ha with rfl | ⟨p, hp, rfl⟩ <;>
    rcases (F32.zero_le_iff b).1 hb with rfl | ⟨q, hq, rfl⟩
  · exact Or.inr F32.zero_le_pinf
  · rw [F32.mul_eq]
    show F32.scaleInf q true = .nan ∨ 0 ≤ F32.scaleInf q true
    unfold F32.scaleInf
    by_cases h0 : q = 0
    · left; rw [if_pos h0]
    · right
      have hq' : 0 < q := lt_of_le_of_ne hq (Ne.symm h0)
      rw [if_neg h0, if_pos (by simpa using hq')]
      exact F32.zero_le_pinf
  · rw [F32.mul_eq]
    show F32.scaleInf p true = .nan ∨ 0 ≤ F32.scaleInf p true
    unfold F32.scaleInf
    by_cases h0 : p = 0
    · left; rw [if_pos h0]
    · right
      have hp' : 0 < p := lt_of_le_of_ne hp (Ne.symm h0)
      rw [if_neg h0, if_pos (by simpa using hp')]
      exact F32.zero_le_pinf
  · right
    exact F32.round_nonneg (mul_nonneg hp hq)

/-- The binary32 square of a value is `>= 0` or NaN. -/
theorem F32.mul_self_nonneg_or_nan (a : F32) : a * a = .nan ∨ 0 ≤ a * a := by
  cases a with
  | fin q => exact Or.inr (F32.round_nonneg (mul_self_nonneg q))
  | pinf => exact Or.inr F32.zero_le_pinf
  | ninf => exact Or.inr F32.zero_le_pinf
  | nan => exact Or.inl rfl

/-- The binary32 sum of two values that are `>= 0` or NaN is `>= 0` or NaN. -/
theorem F32.add_nonneg_or_nan {a b : F32} (ha : a = .nan ∨ 0 ≤ a) (hb : b = .nan ∨ 0 ≤ b) :
    a + b = .nan ∨ 0 ≤ a + b := by
  rcases ha with rfl | ha
  · left; cases b <;> rfl
  rcases hb with rfl | hb
  · left; cases a <;> rfl
  right
  rcases (F32.zero_le_iff a).1 ha with rfl | ⟨p, hp, rfl⟩ <;>
    rcases (F32.zero_le_iff b).1 hb with rfl | ⟨q, hq, rfl⟩
  · exact F32.zero_le_pinf
  · exact F32.zero_le_pinf
  · exact F32.zero_le_pinf
  · exact F32.round_nonneg (add_nonneg hp hq)

theorem foldl_accumulate_nonneg {γ : Type} (a b : γ → F32) (l : List γ)
    (s : StructureTensor F32) (hxx : s.xx = .nan ∨ 0 ≤ s.xx) (hyy : s.yy = .nan ∨ 0 ≤ s.yy) :
    ((l.foldl (fun acc c => StructureTensor.accumulate acc (a c) (b c)) s).xx = .nan ∨
        0 ≤ (l.foldl (fun acc c => StructureTensor.accumulate acc (a c) (b c)) s).xx) ∧
      ((l.foldl (fun acc c => StructureTensor.accumulate acc (a c) (b c)) s).yy = .nan ∨
        0 ≤ (l.foldl (fun acc c => StructureTensor.accumulate acc (a c) (b c)) s).yy) := by
  induction l generalizing s with
  | nil => exact ⟨hxx, hyy⟩
  | cons c l ih =>
    rw [List.foldl_cons]
    exact ih _ (F32.add_nonneg_or_nan hxx (F32.mul_self_nonneg_or_nan _))
      (F32.add_nonneg_or_nan hyy (F32.mul_self_nonneg_or_nan _))

/-- In binary32 the diagonal fields of every tensor produced by
`StructureTensorImage` are `>= 0` or NaN. -/
theorem StructureTensorImage_diagonal_binary32
    (Filter2d : Image F32 → FilterKernel F32 → Image F32)
    (gaussian_kernel diff_x diff_y : FilterKernel F32) (structure_size : Int)
    (src : Image F32) (s : StructureTensor F32)
    (hs : s ∈ (StructureTensorImage Filter2d gaussian_kernel diff_x diff_y structure_size
      src).data) :
    (s.xx = .nan ∨ 0 ≤ s.xx) ∧ (s.yy = .nan ∨ 0 ≤ s.yy) := by
  obtain ⟨x, y, hx, hy, rfl⟩ := Image.exists_pixel_of_mem _ hs
  have hx' : x < (Filter2d (Filter2d src gaussian_kernel) diff_x).width := hx
  have hy' : y < (Filter2d (Filter2d src gaussian_kernel) diff_x).height := hy
  rw [pixel_StructureTensorImage Filter2d _ _ _ _ src hx' hy']
  unfold ReduceRange2
  exact foldl_accumulate_nonneg _ _ _ _ (Or.inr (F32.zero_le_fin.2 le_rfl))
    (Or.inr (F32.zero_le_fin.2 le_rfl))

theorem F32.max_eq (a b : F32) : max a b = if a < b then b else a := rfl

theorem foldl_max_nonneg_binary32 (l : List F32) (a : F32) (ha : 0 ≤ a) :
    0 ≤ l.foldl (fun acc p => max acc p) a := by
  induction l generalizing a with
  | nil => exact ha
  | cons p l ih =>
    rw [List.foldl_cons]
    apply ih
    rw [F32.max_eq]
    split_ifs with hlt
    · rcases (F32.zero_le_iff a).1 ha with rfl | ⟨q, hq, rfl⟩
      · exact absurd hlt (by rw [F32.lt_iff]; cases p <;> simp [F32.blt])
      · rw [F32.lt_iff] at hlt
        cases p with
        | fin b =>
          have hb : q < b := by simpa [F32.blt] using hlt
          exact F32.zero_le_fin.2 (le_of_lt (lt_of_le_of_lt hq hb))
        | pinf => exact F32.zero_le_pinf
        | ninf => simp [F32.blt] at hlt
        | nan => simp [F32.blt] at hlt
    · exact ha

/-- In binary32 the global maximum is `>= 0`, and in particular never NaN:
`std::max(acc, p)` keeps `acc` when `p` is NaN. -/
theorem maxResponse_nonneg_binary32 (r : Image F32) : 0 ≤ maxResponse r :=
  foldl_max_nonneg_binary32 r.data 0 (F32.zero_le_fin.2 le_rfl)

theorem foldl_suppress_nan {γ : Type} (g : γ → F32) (l : List γ) :
    l.foldl (fun acc c => suppress acc (g c)) F32.nan = F32.nan := by
  induction l with
  | nil => rfl
  | cons c l ih =>
    rw [List.foldl_cons, show suppress F32.nan (g c) = F32.nan from if_neg (F32.nan_not_lt _)]
    exact ih

/-- A value below zero is below every threshold that is `>= 0`. -/
theorem F32.lt_of_lt_zero {v t : F32} (hv : v < 0) (ht : 0 ≤ t) : v < t := by
  rw [F32.lt_iff]
  rcases (F32.lt_zero_iff v).1 hv with rfl | ⟨a, ha, rfl⟩ <;>
    rcases (F32.zero_le_iff t).1 ht with rfl | ⟨b, hb, rfl⟩
  · rfl
  · rfl
  · rfl
  · simpa [F32.blt] using lt_of_lt_of_le ha hb

/-- A value that is not NaN and not below a threshold `>= 0` is `>= 0`. -/
theorem F32.nonneg_of_not_lt {v t : F32} (hv : v ≠ .nan) (ht : 0 ≤ t) (h : ¬ v < t) :
    0 ≤ v := by
  rw [F32.lt_iff] at h
  rcases (F32.zero_le_iff t).1 ht with rfl | ⟨b, hb, rfl⟩
  · cases v with
    | fin a => simp [F32.blt] at h
    | pinf => exact F32.zero_le_pinf
    | ninf => simp [F32.blt] at h
    | nan => exact absurd rfl hv
  · cases v with
    | fin a =>
      have hba : b ≤ a := by simpa [F32.blt] using h
      exact F32.zero_le_fin.2 (le_trans hb hba)
    | pinf => exact F32.zero_le_pinf
    | ninf => simp [F32.blt] at h
    | nan => exact absurd rfl hv

/-- The pixels of `FindCorners` in binary32, for a threshold that is `>= 0`. -/
theorem NonMaxSuppression_binary32 (n : Int) (src : Image F32) (threshold : F32)
    (ht : 0 ≤ threshold) {x y : Nat} (hx : x < src.width) (hy : y < src.height) :
    (src.pixel x y < 0 → (NonMaxSuppression n src threshold).pixel x y = 0) ∧
      ((NonMaxSuppression n src threshold).pixel x y = .nan ↔ src.pixel x y = .nan) ∧
      ((NonMaxSuppression n src threshold).pixel x y ≠ .nan →
        0 ≤ (NonMaxSuppression n src threshold).pixel x y) := by
  have hpix := pixel_NonMaxSuppression n src threshold hx hy
  have hfold := foldl_suppress_zero_or_init (fun c : Nat × Nat => src.pixel c.1 c.2)
    (src.window ⟨(x : Int) - Int.tdiv n 2, (y : Int) - Int.tdiv n 2,
      (x : Int) + Int.tdiv n 2, (y : Int) + Int.tdiv n 2⟩) (src.pixel x y)
  have h00 : (0 : F32) ≤ 0 := F32.zero_le_fin.2 le_rfl
  have h0nan : (0 : F32) ≠ .nan := by rw [F32.zero_eq]; exact fun h => F32.noConfusion h
  by_cases hlt : src.pixel x y < threshold
  · rw [if_pos hlt] at hpix
    refine ⟨fun _ => hpix, ⟨fun h => ?_, fun h => ?_⟩, fun _ => by rw [hpix]; exact h00⟩
    · rw [hpix] at h; exact absurd h h0nan
    · rw [h] at hlt; exact absurd hlt (F32.nan_not_lt _)
  · rw [if_neg hlt] at hpix
    refine ⟨fun hneg => absurd (F32.lt_of_lt_zero hneg ht) hlt, ⟨fun h => ?_, fun h => ?_⟩,
      fun hne => ?_⟩
    · rcases hfold with h0 | hv
      · rw [hpix, h0] at h; exact absurd h h0nan
      · rw [hpix, hv] at h; exact h
    · rw [hpix, h]; exact foldl_suppress_nan _ _
    · rcases hfold with h0 | hv
      · rw [hpix, h0]; exact h00
      · rw [hpix, hv] at hne ⊢
        exact F32.nonneg_of_not_lt hne ht hlt

/-- The threshold `max_r * threshold_ratio` of `FindCorners` in binary32, for a
ratio that is `>= 0`: it is NaN exactly for `∞ * 0` and `0 * ∞`, and otherwise
it is `>= 0`. -/
theorem threshold_binary32 (max_r ratio : F32) (hmax : 0 ≤ max_r) (hratio : 0 ≤ ratio) :
    (max_r * ratio = .nan ↔
        (max_r = .pinf ∧ ratio = 0) ∨ (max_r = 0 ∧ ratio = .pinf)) ∧
      (max_r * ratio ≠ .nan → 0 ≤ max_r * ratio) := by
  refine ⟨?_, fun h => (F32.mul_nonneg_or_nan hmax hratio).resolve_left h⟩
  rcases (F32.zero_le_iff max_r).1 hmax with rfl | ⟨p, hp, rfl⟩ <;>
    rcases (F32.zero_le_iff ratio).1 hratio with rfl | ⟨q, hq, rfl⟩
  · constructor
    · intro h; exact absurd h (fun h => F32.noConfusion h)
    · rintro (⟨_, h⟩ | ⟨h, _⟩) <;> exact absurd h (fun h => F32.noConfusion h)
  · rw [F32.mul_eq]
    show F32.scaleInf q true = .nan ↔ _
    unfold F32.scaleInf
    by_cases h0 : q = 0
    · subst h0
      simp [F32.zero_eq]
    · have hq' : 0 < q := lt_of_le_of_ne hq (Ne.symm h0)
      rw [if_neg h0, if_pos (by simpa using hq')]
      simp [F32.zero_eq, h0]
  · rw [F32.mul_eq]
    show F32.scaleInf p true = .nan ↔ _
    unfold F32.scaleInf
    by_cases h0 : p = 0
    · subst h0
      simp [F32.zero_eq]
    · have hp' : 0 < p := lt_of_le_of_ne hp (Ne.symm h0)
      rw [if_neg h0, if_pos (by simpa using hp')]
      simp [F32.zero_eq, h0]
  · have hne : F32.fin p * F32.fin q ≠ .nan := by
      intro h
      have h2 := F32.round_nonneg (mul_nonneg hp hq)
      rw [show F32.round (p * q) = F32.fin p * F32.fin q from rfl, h] at h2
      exact absurd h2 (by decide)
    constructor
    · intro h; exact absurd h hne
    · rintro (⟨h, _⟩ | ⟨_, h⟩) <;> exact absurd h (fun h => F32.noConfusion h)

set_option maxRecDepth 1000000 in
set_option maxHeartbeats 4000000 in
/-- C17 fails as stated in binary32, under each of the four filter variants
(both border policies, correlation and convolution).  For `HarrisCpp(1, 1, ...)`
on `twoPixels` the gradients at the centre are `±10001` and `±10005`, and the
tensor there holds the rounded products `xx = 100020000`, `xy = 100060008`,
`yy = 100100024`, for which `xx·yy < xy²`.  For `HarrisCpp(1, 3, ...)` on the
ramp `floatRamp` the rounded sums over the nine pixels of the window of the
centre are `xx = 36072036`, `xy = 108216112`, `yy = 324648320`, for which again
`xx·yy < xy²`. -/
theorem tensor_not_semidefinite :
    List.Forall
      (fun variant : BorderPolicy × Bool =>
        ((StructureTensorImage (modelFilter2d variant.1 variant.2) floatSmooth floatDiffX
                floatDiffY 1 twoPixels).pixel 1 1
              ∈ (StructureTensorImage (modelFilter2d variant.1 variant.2) floatSmooth
                floatDiffX floatDiffY 1 twoPixels).data ∧
            (StructureTensorImage (modelFilter2d variant.1 variant.2) floatSmooth floatDiffX
                floatDiffY 1 twoPixels).pixel 1 1
              = ⟨.fin 100020000, .fin 100060008, .fin 100100024⟩ ∧
            (100020000 : ℚ) * 100100024 < 100060008 ^ 2) ∧
          ((StructureTensorImage (modelFilter2d variant.1 variant.2) floatSmooth floatDiffX
                floatDiffY 3 floatRamp).pixel 2 2
              ∈ (StructureTensorImage (modelFilter2d variant.1 variant.2) floatSmooth
                floatDiffX floatDiffY 3 floatRamp).data ∧
            (StructureTensorImage (modelFilter2d variant.1 variant.2) floatSmooth floatDiffX
                floatDiffY 3 floatRamp).pixel 2 2
              = ⟨.fin 36072036, .fin 108216112, .fin 324648320⟩ ∧
            (36072036 : ℚ) * 324648320 < 108216112 ^ 2))
      [(.clampToEdge, false), (.clampToEdge, true), (.zeroPad, false), (.zeroPad, true)] := by
  have hmem1 : ∀ (policy : BorderPolicy) (flip : Bool),
      (StructureTensorImage (modelFilter2d policy flip) floatSmooth floatDiffX floatDiffY 1
          twoPixels).pixel 1 1
        ∈ (StructureTensorImage (modelFilter2d policy flip) floatSmooth floatDiffX floatDiffY 1
          twoPixels).data := fun policy flip =>
    Image.pixel_mem_data _ (show 1 < 3 by decide) (show 1 < 3 by decide)
  have hmem2 : ∀ (policy : BorderPolicy) (flip : Bool),
      (StructureTensorImage (modelFilter2d policy flip) floatSmooth floatDiffX floatDiffY 3
          floatRamp).pixel 2 2
        ∈ (StructureTensorImage (modelFilter2d policy flip) floatSmooth floatDiffX floatDiffY 3
          floatRamp).data := fun policy flip =>
    Image.pixel_mem_data _ (show 2 < 5 by decide) (show 2 < 5 by decide)
  simp only [List.Forall]
  refine ⟨⟨⟨hmem1 _ _, ?_, by norm_num⟩, ⟨hmem2 _ _, ?_, by norm_num⟩⟩,
    ⟨⟨hmem1 _ _, ?_, by norm_num⟩, ⟨hmem2 _ _, ?_, by norm_num⟩⟩,
    ⟨⟨hmem1 _ _, ?_, by norm_num⟩, ⟨hmem2 _ _, ?_, by norm_num⟩⟩,
    ⟨⟨hmem1 _ _, ?_, by norm_num⟩, ⟨hmem2 _ _, ?_, by norm_num⟩⟩⟩ <;> decide!

/-- C17 (amended): when the products and the window sums are exact (pixel
values in a linear ordered field, in particular exact real arithmetic), every
tensor produced by `StructureTensorImage` is positive semidefinite: `xx >= 0`,
`yy >= 0` and `xx·yy >= xy²` (Cauchy-Schwarz over the window), so its Harris
score is at most `(1/4 - k)·(xx + yy)²`.  In binary32, for every input image and
every pixel, `xx` and `yy` are `>= 0` or NaN. -/
theorem StructureTensorImage_semidefinite :
    (∀ (α : Type) [LinearOrderedField α] (Filter2d : Image α → FilterKernel α → Image α)
        (gaussian_kernel diff_x diff_y : FilterKernel α) (structure_size : Int)
        (src : Image α) (k : α) (s : StructureTensor α),
        s ∈ (StructureTensorImage Filter2d gaussian_kernel diff_x diff_y structure_size
          src).data →
        0 ≤ s.xx ∧ 0 ≤ s.yy ∧ s.xy ^ 2 ≤ s.xx * s.yy ∧
          harrisScore k s ≤ (1 / 4 - k) * (s.xx + s.yy) ^ 2) ∧
      (∀ (Filter2d : Image F32 → FilterKernel F32 → Image F32)
        (gaussian_kernel diff_x diff_y : FilterKernel F32) (structure_size : Int)
        (src : Image F32) (s : StructureTensor F32),
        s ∈ (StructureTensorImage Filter2d gaussian_kernel diff_x diff_y structure_size
          src).data →
        (s.xx = .nan ∨ 0 ≤ s.xx) ∧ (s.yy = .nan ∨ 0 ≤ s.yy)) :=
  ⟨fun _ _ Filter2d gaussian_kernel diff_x diff_y structure_size src k s hs =>
      StructureTensorImage_psd Filter2d gaussian_kernel diff_x diff_y structure_size src k s hs,
    fun Filter2d gaussian_kernel diff_x diff_y structure_size src s hs =>
      StructureTensorImage_diagonal_binary32 Filter2d gaussian_kernel diff_x diff_y
        structure_size src s hs⟩

/-- Witness for C17 (amended): in exact arithmetic the centre tensor of
`sampleDot` under the zero-padding correlation with the default window size 5
and `k = 1/25`; in binary32 the centre tensor of `twoPixels` under the
clamp-to-edge correlation with the window size 1. -/
theorem StructureTensorImage_semidefinite_witness :
    ((StructureTensorImage (modelFilter2d .zeroPad false) sampleSmooth sampleDiffX sampleDiffY 5
            sampleDot).pixel 2 2
          ∈ (StructureTensorImage (modelFilter2d .zeroPad false) sampleSmooth sampleDiffX
            sampleDiffY 5 sampleDot).data ∧
        ((StructureTensorImage (modelFilter2d .zeroPad false) sampleSmooth sampleDiffX
              sampleDiffY 5 sampleDot).pixel 2 2).xy ^ 2
          ≤ ((StructureTensorImage (modelFilter2d .zeroPad false) sampleSmooth sampleDiffX
                sampleDiffY 5 sampleDot).pixel 2 2).xx
            * ((StructureTensorImage (modelFilter2d .zeroPad false) sampleSmooth sampleDiffX
                sampleDiffY 5 sampleDot).pixel 2 2).yy) ∧
      ((StructureTensorImage (modelFilter2d .clampToEdge false) floatSmooth floatDiffX
            floatDiffY 1 twoPixels).pixel 1 1
          ∈ (StructureTensorImage (modelFilter2d .clampToEdge false) floatSmooth floatDiffX
            floatDiffY 1 twoPixels).data ∧
        0 ≤ ((StructureTensorImage (modelFilter2d .clampToEdge false) floatSmooth floatDiffX
            floatDiffY 1 twoPixels).pixel 1 1).xx) :=
  ⟨⟨Image.pixel_mem_data _ (by decide) (by decide),
      (StructureTensorImage_semidefinite.1 ℚ (modelFilter2d .zeroPad false) sampleSmooth
        sampleDiffX sampleDiffY 5 sampleDot (1 / 25) _
        (Image.pixel_mem_data _ (by decide) (by decide))).2.2.1⟩,
    ⟨Image.pixel_mem_data _ (by decide) (by decide),
      ((StructureTensorImage_semidefinite.2 (modelFilter2d .clampToEdge false) floatSmooth
        floatDiffX floatDiffY 1 twoPixels _
        (Image.pixel_mem_data _ (by decide) (by decide))).1).resolve_left (by decide!)⟩⟩

set_option maxRecDepth 1000000 in
set_option maxHeartbeats 4000000 in
/-- C19 fails as stated in binary32, under each of the four filter variants
(both border policies, correlation and convolution): for
`HarrisCpp(1, 5, 0.04, 0.5, 9)` on `hugeDot` the tensor at the centre is
`xx = yy = 200000004008175468544`, `xy = 0`; both `xx·yy` and `k·(xx + yy)²`
overflow to `+∞`, so the response there is `∞ - ∞`, NaN.  `std::max` skips it,
the global maximum is `0` and so is the threshold, the test `NaN < 0` is false,
and the suppression returns the NaN pixel, which is not `>= 0`. -/
theorem FindCorners_nan_output :
    List.Forall
      (fun variant : BorderPolicy × Bool =>
        (0 : F32) ≤ (floatDetector 5 9).threshold_ratio_ ∧
          (1 < (FindCorners (floatDetector 5 9) (modelFilter2d variant.1 variant.2)
                hugeDot).width ∧
            1 < (FindCorners (floatDetector 5 9) (modelFilter2d variant.1 variant.2)
                hugeDot).height) ∧
          (StructureTensorImage (modelFilter2d variant.1 variant.2) floatSmooth floatDiffX
              floatDiffY 5 hugeDot).pixel 1 1
            = ⟨.fin 200000004008175468544, .fin 0, .fin 200000004008175468544⟩ ∧
          (responseImage (floatDetector 5 9) (modelFilter2d variant.1 variant.2)
              hugeDot).pixel 1 1 = .nan ∧
          maxResponse (responseImage (floatDetector 5 9) (modelFilter2d variant.1 variant.2)
              hugeDot) * (floatDetector 5 9).threshold_ratio_ = 0 ∧
          (FindCorners (floatDetector 5 9) (modelFilter2d variant.1 variant.2)
              hugeDot).pixel 1 1 = .nan ∧
          ¬ (0 : F32) ≤ .nan)
      [(.clampToEdge, false), (.clampToEdge, true), (.zeroPad, false), (.zeroPad, true)] := by
  simp only [List.Forall]
  refine ⟨?_, ?_, ?_, ?_⟩ <;> decide!

/-- C19 (amended): in binary32, for every input image and every
`threshold_ratio >= 0`, the threshold `max_r * threshold_ratio` is NaN only for
`∞ * 0` or `0 * ∞`; whenever it is not NaN it is `>= 0`, every negative
response pixel is zeroed, an output pixel of `FindCorners` is NaN exactly when
the response pixel at that position is NaN, and every other output pixel is
`>= 0`: no negative value is returned as a corner.  In exact arithmetic (pixel
values in a linear ordered field) the threshold is `>= 0`, every negative
response pixel is zeroed and every output pixel is `>= 0`. -/
theorem FindCorners_never_negative :
    (∀ (self : HarrisCpp F32) (Filter2d : Image F32 → FilterKernel F32 → Image F32)
        (image : Image F32),
        0 ≤ self.threshold_ratio_ →
        (maxResponse (responseImage self Filter2d image) * self.threshold_ratio_ = .nan ↔
            (maxResponse (responseImage self Filter2d image) = .pinf ∧
                self.threshold_ratio_ = 0) ∨
              (maxResponse (responseImage self Filter2d image) = 0 ∧
                self.threshold_ratio_ = .pinf)) ∧
          (maxResponse (responseImage self Filter2d image) * self.threshold_ratio_ ≠ .nan →
            0 ≤ maxResponse (responseImage self Filter2d image) * self.threshold_ratio_ ∧
              ∀ x y, x < (responseImage self Filter2d image).width →
                y < (responseImage self Filter2d image).height →
                ((responseImage self Filter2d image).pixel x y < 0 →
                    (FindCorners self Filter2d image).pixel x y = 0) ∧
                  ((FindCorners self Filter2d image).pixel x y = .nan ↔
                    (responseImage self Filter2d image).pixel x y = .nan) ∧
                  ((FindCorners self Filter2d image).pixel x y ≠ .nan →
                    0 ≤ (FindCorners self Filter2d image).pixel x y))) ∧
      (∀ (α : Type) [LinearOrderedField α] (self : HarrisCpp α)
        (Filter2d : Image α → FilterKernel α → Image α) (image : Image α),
        0 ≤ self.threshold_ratio_ →
        0 ≤ maxResponse (responseImage self Filter2d image) * self.threshold_ratio_ ∧
          (∀ v ∈ (FindCorners self Filter2d image).data, 0 ≤ v) ∧
          ∀ x y, x < (responseImage self Filter2d image).width →
            y < (responseImage self Filter2d image).height →
            (responseImage self Filter2d image).pixel x y < 0 →
              (FindCorners self Filter2d image).pixel x y = 0) := by
  refine ⟨fun self Filter2d image hratio => ?_,
    fun _ _ self Filter2d image hratio => FindCorners_nonneg self Filter2d image hratio⟩
  have hthr := threshold_binary32 (maxResponse (responseImage self Filter2d image))
    self.threshold_ratio_ (maxResponse_nonneg_binary32 _) hratio
  refine ⟨hthr.1, fun hne => ⟨hthr.2 hne, fun x y hx hy => ?_⟩⟩
  rw [FindCorners_eq]
  exact NonMaxSuppression_binary32 _ _ _ (hthr.2 hne) hx hy

set_option maxRecDepth 1000000 in
set_option maxHeartbeats 4000000 in
/-- Witness for C19 (amended): the image `cornerPatch` under the clamp-to-edge
correlation with the window sizes 3, `k = 0.04` and the threshold ratio `0.5`,
in binary32 and in exact arithmetic.  The response at `(0, 0)` is negative and
the output there is `0`; the corner `(1, 1)` has a positive output. -/
theorem FindCorners_never_negative_witness :
    (((0 : F32) ≤ (floatDetector 3 3).threshold_ratio_ ∧
          maxResponse (responseImage (floatDetector 3 3) (modelFilter2d .clampToEdge false)
              (cornerPatch (.fin 0) (.fin 1))) * (floatDetector 3 3).threshold_ratio_ ≠ .nan) ∧
        ((responseImage (floatDetector 3 3) (modelFilter2d .clampToEdge false)
              (cornerPatch (.fin 0) (.fin 1))).pixel 0 0 < 0 ∧
          (FindCorners (floatDetector 3 3) (modelFilter2d .clampToEdge false)
              (cornerPatch (.fin 0) (.fin 1))).pixel 0 0 = 0 ∧
          (0 : F32) < (FindCorners (floatDetector 3 3) (modelFilter2d .clampToEdge false)
              (cornerPatch (.fin 0) (.fin 1))).pixel 1 1)) ∧
      ((0 : ℚ) ≤ smallDetector.threshold_ratio_ ∧
        ((responseImage smallDetector (modelFilter2d .clampToEdge false)
              (cornerPatch 0 1)).pixel 0 0 < 0 ∧
          (FindCorners smallDetector (modelFilter2d .clampToEdge false)
              (cornerPatch 0 1)).pixel 0 0 = 0 ∧
          (0 : ℚ) < (FindCorners smallDetector (modelFilter2d .clampToEdge false)
              (cornerPatch 0 1)).pixel 1 1)) :=
  ⟨⟨⟨by decide!, by decide!⟩, by decide!,
      (((FindCorners_never_negative.1 (floatDetector 3 3) (modelFilter2d .clampToEdge false)
        (cornerPatch (.fin 0) (.fin 1)) (by decide!)).2 (by decide!)).2 0 0 (by decide)
          (by decide)).1 (by decide!),
      by decide!⟩,
    ⟨by decide!, by decide!,
      (FindCorners_never_negative.2 ℚ smallDetector (modelFilter2d .clampToEdge false)
        (cornerPatch 0 1) (by decide!)).2.2 0 0 (by decide) (by decide) (by decide!),
      by decide!⟩⟩

end Binary32

end harris
